import Mathlib

/-!
# Soundboard: sound catalog, category registry and view projection

A shallow embedding of `src/script.js`.  The script keeps two mutable
variables, `soundsData` (the sound catalog) and `categories` (the category
registry), and mutates them from DOM event handlers.  Here every handler is a
function from the state before the event to the state after it (together with
the alert or outcome it produces).

Conventions of the embedding.

* JavaScript strings are `String`; character-level code works on `String.data`.
* `String.prototype.toLowerCase` is a parameter `toLowerCase : String → String`
  of every definition that calls it, so each theorem holds for whatever
  lower-casing function the host provides.  Closed examples instantiate it with
  `asciiLower`.
* `generateUniqueId()` (`Date.now()` and `Math.random()`) and
  `URL.createObjectURL` are inputs of the event that calls them.
* `null` and `undefined` player fields are `none`.
* `String.prototype.localeCompare` is a parameter
  `localeCompare : String → String → Int`; where the order of the output
  matters it is assumed to be a consistent comparator, as ECMAScript requires.
  Closed examples instantiate it with `codePointCompare`.
* The values a handler reads from the page (text fields, selects) are
  arguments of its function.
* What the audio engine reports (`Tone.loaded()` resolving or throwing, the
  `loaded` flag of a player) is an input of the event at which a load ends.
-/

namespace Soundboard

/-! ## Strings -/

/-- Characters removed by `String.prototype.trim`: the ECMAScript `WhiteSpace`
and `LineTerminator` code points. -/
def isTrimChar (c : Char) : Bool :=
  let n := c.toNat
  n == 0x09 || n == 0x0A || n == 0x0B || n == 0x0C || n == 0x0D || n == 0x20 ||
  n == 0xA0 || n == 0x1680 || (decide (0x2000 ≤ n) && decide (n ≤ 0x200A)) ||
  n == 0x2028 || n == 0x2029 || n == 0x202F || n == 0x205F || n == 0x3000 || n == 0xFEFF

/-- Character-level `trim`. -/
def trimChars (l : List Char) : List Char :=
  ((l.dropWhile isTrimChar).reverse.dropWhile isTrimChar).reverse

/-- The method `String.prototype.trim`. -/
def trim (s : String) : String := String.mk (trimChars s.data)

/-- ASCII lower-casing, the instance of `toLowerCase` used in closed examples. -/
def asciiLower (s : String) : String := String.mk (s.data.map Char.toLower)

/-- The class `\w` of a regular expression without the `u` flag: `[A-Za-z0-9_]`. -/
def isWordChar (c : Char) : Bool := c.isAlphanum || c == '_'

/-- The assertion `\b` between a preceding and a following character (`none` at
either end of the input): exactly one of the two sides is a word character. -/
def wordBoundary (before after : Option Char) : Bool :=
  (before.any isWordChar) != (after.any isWordChar)

/-- Whether `/\.ogg$/i` matches: the input ends in a dot followed by `o`, `g`,
`g` in either letter case. -/
def matchesOggAtEnd (l : List Char) : Bool :=
  match l.reverse with
  | g2 :: g1 :: o :: dot :: _ =>
      dot == '.' && o.toLower == 'o' && g1.toLower == 'g' && g2.toLower == 'g'
  | _ => false

/-- The call `s.replace(/\.ogg$/i, '')`. -/
def replaceOggSuffix (l : List Char) : List Char :=
  if matchesOggAtEnd l then l.take (l.length - 4) else l

/-- The call `s.replace(/[-_]/g, ' ')`. -/
def replaceSeparators (l : List Char) : List Char :=
  l.map (fun c => if c == '-' || c == '_' then ' ' else c)

/-- Scan for `s.replace(/\b\w/g, char => char.toUpperCase())`: `before` is the
character of the input that precedes the current position.  A match is one
word character at a word boundary; it is replaced by its upper case. -/
def capitalizeFrom (before : Option Char) : List Char → List Char
  | [] => []
  | c :: cs =>
      (if wordBoundary before (some c) && isWordChar c then c.toUpper else c)
        :: capitalizeFrom (some c) cs

/-- The call `s.replace(/\b\w/g, char => char.toUpperCase())`. -/
def capitalizeWords (l : List Char) : List Char := capitalizeFrom none l

/-- Display name of a provisioned sound, lines 87-90 of `initializeSoundsData`. -/
def displayNameChars (fileName : List Char) : List Char :=
  let d1 := replaceOggSuffix fileName
  let d2 := if "--".data.isPrefixOf d1 then d1.drop 2 else d1
  let d3 := replaceSeparators d2
  capitalizeWords d3

/-- Display name of a provisioned sound as a string. -/
def displayName (fileName : String) : String := String.mk (displayNameChars fileName.data)

/-- Display name of an uploaded file, line 338 of the upload handler. -/
def uploadDisplayNameChars (fileName : List Char) : List Char :=
  capitalizeWords (replaceSeparators (replaceOggSuffix fileName))

/-- Display name of an uploaded file as a string. -/
def uploadDisplayName (fileName : String) : String :=
  String.mk (uploadDisplayNameChars fileName.data)

/-! ## Data model -/

/-- A record of the `categories` array. -/
structure Category where
  id : String
  name : String
  isDeletable : Bool
  isEditable : Bool
deriving DecidableEq

/-- A `Tone.Player` as far as the script looks at it: its `loaded` flag and
whether its `state` is `"started"`. -/
structure Player where
  loaded : Bool
  started : Bool
deriving DecidableEq

/-- A record of the `soundsData` array.  A provisioned sound has no
`uploadedPlayer` property and an uploaded one no `player` property; an absent
property and `null` are both `none`. -/
structure Sound where
  id : String
  name : String
  originalName : String
  filePath : String
  color : String
  category : String
  isUploaded : Bool
  player : Option Player
  uploadedPlayer : Option Player
  isLoading : Bool
  hasError : Bool
deriving DecidableEq

/-- A selected file of the upload input: its `name` and its declared media
`type`. -/
structure File where
  name : String
  type : String
deriving DecidableEq

/-- The two state variables the handlers mutate. -/
structure State where
  soundsData : List Sound
  categories : List Category
deriving DecidableEq

/-- The default category, line 41. -/
def uncategorized : Category :=
  { id := "uncategorized", name := "Uncategorized", isDeletable := false, isEditable := false }

/-- The constant `availableButtonColors`, line 44. -/
def availableButtonColors : List String :=
  ["blue", "green", "red", "yellow", "purple", "pink", "indigo", "teal", "orange", "lime",
   "cyan", "gray"]

/-- The expression `availableButtonColors[i % availableButtonColors.length]`. -/
def colorAt (i : Nat) : String :=
  availableButtonColors.get ⟨i % availableButtonColors.length, Nat.mod_lt _ (by decide)⟩

/-- The ids of a list of categories. -/
def categoryIds (cats : List Category) : List String := cats.map (fun c => c.id)

/-- Mutation of the element that `Array.prototype.find` returns: `f` is applied
to the first element satisfying `p`, if there is one. -/
def updateFirst {α : Type} (p : α → Bool) (f : α → α) : List α → List α
  | [] => []
  | a :: as => if p a then f a :: as else a :: updateFirst p f as

/-! ## Sound catalog -/

/-- The object literal of lines 93-104 for the file at position `colorIndex`. -/
def provisionedSound (id fileName : String) (colorIndex : Nat) : Sound :=
  { id := id
    name := displayName fileName
    originalName := fileName
    filePath := "sounds/" ++ fileName
    color := colorAt colorIndex
    category := "uncategorized"
    isUploaded := false
    player := none
    uploadedPlayer := none
    isLoading := false
    hasError := false }

/-- The `map` of `initializeSoundsData` from the running `colorIndex` on;
`genId i` is what `generateUniqueId()` returns for the file at position `i`. -/
def initializeFrom (genId : Nat → String) (colorIndex : Nat) : List String → List Sound
  | [] => []
  | fileName :: rest =>
      provisionedSound (genId colorIndex) fileName colorIndex
        :: initializeFrom genId (colorIndex + 1) rest

/-- The function `initializeSoundsData`: the new value of `soundsData`. -/
def initializeSoundsData (genId : Nat → String) (initialSoundFiles : List String) : List Sound :=
  initializeFrom genId 0 initialSoundFiles

/-- The object literal of lines 341-345; `size` is `soundsData.length` when the
sound is built. -/
def uploadedSound (id objectURL : String) (file : File) (size : Nat) : Sound :=
  { id := id
    name := uploadDisplayName file.name
    originalName := file.name
    filePath := objectURL
    color := colorAt size
    category := "uncategorized"
    isUploaded := true
    player := none
    uploadedPlayer := none
    isLoading := true
    hasError := false }

/-- The `for (const file of files)` loop of the upload handler, lines 329-348,
from the file at position `k` on.  The result is the new `soundsData` and the
names of the files an alert reported as skipped. -/
def uploadLoop (genId genUrl : Nat → String) :
    Nat → List File → List Sound → List Sound × List String
  | _, [], soundsData => (soundsData, [])
  | k, file :: rest, soundsData =>
      if file.type != "audio/ogg" then
        let r := uploadLoop genId genUrl (k + 1) rest soundsData
        (r.1, file.name :: r.2)
      else
        uploadLoop genId genUrl (k + 1) rest
          (soundsData ++ [uploadedSound (genId k) (genUrl k) file soundsData.length])

/-- Registration part of the upload handler, lines 321-349. -/
def registerUploads (genId genUrl : Nat → String) (files : List File) (soundsData : List Sound) :
    List Sound × List String :=
  if files.length = 0 then (soundsData, []) else uploadLoop genId genUrl 0 files soundsData

/-! ## Category registry -/

/-- What the add-category handler reports. -/
inductive AddOutcome where
  | added
  | alertExistsOrInvalid
  | alertEmpty
deriving DecidableEq

/-- Click handler of `addCategoryButton`, lines 443-457.  `input` is the value
of the name field and `newId` the result of `generateUniqueId()`. -/
def addCategory (toLowerCase : String → String) (categories : List Category)
    (input newId : String) : List Category × AddOutcome :=
  let name := trim input
  if name ≠ "" && !categories.any (fun cat => toLowerCase cat.name == toLowerCase name) then
    (categories ++ [{ id := newId, name := name, isDeletable := true, isEditable := true }],
      AddOutcome.added)
  else if name ≠ "" then (categories, AddOutcome.alertExistsOrInvalid)
  else (categories, AddOutcome.alertEmpty)

/-- What the inline rename save handler does. -/
inductive RenameOutcome where
  | saved
  | unchanged
  | alertEmpty
  | alertExistsOrInvalid
deriving DecidableEq

/-- The handler `saveBtn.onclick` that `editCategoryNameUI(categoryId, ...)`
installs, lines 513-528.  `currentName` is the text of the name span when the
edit started and `input` the value of the text field. -/
def renameCategory (toLowerCase : String → String) (categories : List Category)
    (categoryId currentName input : String) : List Category × RenameOutcome :=
  let newName := trim input
  if newName ≠ "" && newName ≠ currentName &&
      !categories.any (fun c => c.id != categoryId && toLowerCase c.name == toLowerCase newName)
  then
    (updateFirst (fun c => c.id == categoryId) (fun c => { c with name := newName }) categories,
      RenameOutcome.saved)
  else if newName = currentName then (categories, RenameOutcome.unchanged)
  else if newName = "" then (categories, RenameOutcome.alertEmpty)
  else (categories, RenameOutcome.alertExistsOrInvalid)

/-- Whether `renderCategoryList` (lines 476-482) puts an edit button, wired to
`editCategoryNameUI(cat.id, li, nameSpan)`, on the list entry of `cat`. -/
def hasEditButton (cat : Category) : Bool := cat.isEditable != false

/-- Whether `renderCategoryList` (lines 484-490) puts a delete button on the
list entry of `cat`. -/
def hasDeleteButton (cat : Category) : Bool := cat.isDeletable != false

/-- The function `getCategoryName`, lines 618-621. -/
def getCategoryName (categories : List Category) (categoryId : String) : String :=
  match categories.find? (fun c => c.id == categoryId) with
  | some cat => cat.name
  | none => "Unknown"

/-- What `deleteCategory` does: the refusal alert (with the category name it
shows), a declined confirmation, or the deletion. -/
inductive DeleteOutcome where
  | alertCannotDelete (shownName : String)
  | declined
  | deleted
deriving DecidableEq

/-- The function `deleteCategory`, lines 548-568.  `confirmed` is the answer to
the `confirm` dialog. -/
def deleteCategory (s : State) (categoryId : String) (confirmed : Bool) : State × DeleteOutcome :=
  match s.categories.find? (fun cat => cat.id == categoryId) with
  | none => (s, DeleteOutcome.alertCannotDelete (getCategoryName s.categories categoryId))
  | some categoryToDelete =>
      if categoryToDelete.isDeletable == false then
        (s, DeleteOutcome.alertCannotDelete (getCategoryName s.categories categoryId))
      else if confirmed then
        ({ soundsData := s.soundsData.map (fun sound =>
              if sound.category == categoryId then { sound with category := "uncategorized" }
              else sound)
           categories := s.categories.filter (fun cat => cat.id != categoryId) },
          DeleteOutcome.deleted)
      else (s, DeleteOutcome.declined)

/-- Click handler of `saveEditButton`, lines 406-430.  The arguments are the
values of the hidden id field, the name field, the color select, the category
select and the new-category field, and the result of `generateUniqueId()`. -/
def saveEdit (toLowerCase : String → String) (s : State)
    (soundId nameValue colorValue categoryValue newCategoryValue newId : String) : State :=
  match s.soundsData.find? (fun snd => snd.id == soundId) with
  | none => s
  | some _ =>
      let edit (category : String) (sound : Sound) : Sound :=
        { sound with
          name := if trim nameValue ≠ "" then trim nameValue else sound.name
          color := colorValue
          category := category }
      let newCategoryName := trim newCategoryValue
      if newCategoryName ≠ "" then
        match s.categories.find?
            (fun cat => toLowerCase cat.name == toLowerCase newCategoryName) with
        | some existingCategory =>
            { soundsData := updateFirst (fun snd => snd.id == soundId)
                (edit existingCategory.id) s.soundsData
              categories := s.categories }
        | none =>
            { soundsData := updateFirst (fun snd => snd.id == soundId) (edit newId) s.soundsData
              categories := s.categories ++
                [{ id := newId, name := newCategoryName, isDeletable := true, isEditable := true }] }
      else
        { soundsData := updateFirst (fun snd => snd.id == soundId) (edit categoryValue)
            s.soundsData
          categories := s.categories }

/-! ## Events -/

/-- The user events that change the catalog or the registry, with the values
the handler reads from the page and from the id generator. -/
inductive Event where
  | addCategory (input newId : String)
  | renameCategory (categoryId currentName input : String)
  | deleteCategory (categoryId : String) (confirmed : Bool)
  | saveEdit (soundId nameValue colorValue categoryValue newCategoryValue newId : String)
  | upload (genId genUrl : Nat → String) (files : List File)

/-- State after one event. -/
def step (toLowerCase : String → String) (s : State) : Event → State
  | Event.addCategory input newId =>
      { s with categories := (addCategory toLowerCase s.categories input newId).1 }
  | Event.renameCategory categoryId currentName input =>
      { s with categories := (renameCategory toLowerCase s.categories categoryId currentName input).1 }
  | Event.deleteCategory categoryId confirmed => (deleteCategory s categoryId confirmed).1
  | Event.saveEdit soundId nameValue colorValue categoryValue newCategoryValue newId =>
      saveEdit toLowerCase s soundId nameValue colorValue categoryValue newCategoryValue newId
  | Event.upload genId genUrl files =>
      { s with soundsData := (registerUploads genId genUrl files s.soundsData).1 }

/-- State after a sequence of events. -/
def run (toLowerCase : String → String) (s : State) (events : List Event) : State :=
  events.foldl (step toLowerCase) s

/-- State at the end of the initialization sequence (lines 685-686) for a
manifest: the provisioned catalog and the registry of line 41. -/
def startup (genId : Nat → String) (manifest : List String) : State :=
  { soundsData := initializeSoundsData genId manifest, categories := [uncategorized] }

/-- Whether the id an event obtains from `generateUniqueId()` is, as the
comment of that function promises ("A unique ID"), not an id of the registry
yet. -/
def freshId (s : State) : Event → Bool
  | Event.addCategory _ newId => !(categoryIds s.categories).contains newId
  | Event.saveEdit _ _ _ _ _ newId => !(categoryIds s.categories).contains newId
  | _ => true

/-- Whether an event can come from the page.  `editCategoryNameUI` is only
called from the edit button that `renderCategoryList` puts on a list entry, with
the id of that entry and the name its span shows, and every handler that
changes the registry renders the list anew, which discards the save buttons of
edits in progress.  A rename save therefore carries the id and the current name
of a listed category that has an edit button. -/
def offeredByList (s : State) : Event → Bool
  | Event.renameCategory categoryId currentName _ =>
      s.categories.any (fun cat => hasEditButton cat && cat.id == categoryId && cat.name == currentName)
  | _ => true

/-- Whether the value of the category select, when a sound edit uses it (the
new-category field is blank), is the id of a category of the registry: the
options of the select are the ones `populateCategoryDropdowns` builds from the
registry. -/
def selectsListedCategory (s : State) : Event → Bool
  | Event.saveEdit _ _ _ categoryValue newCategoryValue _ =>
      decide (trim newCategoryValue ≠ "") || (categoryIds s.categories).contains categoryValue
  | _ => true

/-- Whether every event of a sequence satisfies `ok` in the state it occurs in. -/
def allAlong (toLowerCase : String → String) (ok : State → Event → Bool) :
    State → List Event → Bool
  | _, [] => true
  | s, e :: es => ok s e && allAlong toLowerCase ok (step toLowerCase s e) es

/-! ## Properties of the registry -/

/-- No two categories at different positions have names that are equal after
lower-casing. -/
def NamesUnique (toLowerCase : String → String) (cats : List Category) : Prop :=
  cats.Pairwise (fun a b => toLowerCase a.name ≠ toLowerCase b.name)

/-- No two categories at different positions have the same id. -/
def IdsUnique (cats : List Category) : Prop := (categoryIds cats).Nodup

/-- Every sound's `category` is the id of a category of the registry. -/
def CategoriesExist (s : State) : Prop :=
  ∀ sound ∈ s.soundsData, sound.category ∈ categoryIds s.categories

/-! ## Properties of sounds -/

/-- The fields every newly uploaded sound has. -/
def IsFreshUpload (sound : Sound) : Prop :=
  sound.isUploaded = true ∧ sound.isLoading = true ∧ sound.hasError = false ∧
    sound.category = "uncategorized" ∧ sound.player = none ∧ sound.uploadedPlayer = none

/-- The fields every newly provisioned sound has. -/
def IsFreshProvisioned (sound : Sound) : Prop :=
  sound.isUploaded = false ∧ sound.isLoading = false ∧ sound.hasError = false ∧
    sound.category = "uncategorized" ∧ sound.player = none ∧ sound.uploadedPlayer = none

/-- The first record of the registry has id `uncategorized` and is not
deletable. -/
def HeadDefault (cats : List Category) : Prop :=
  ∃ d rest, cats = d :: rest ∧ d.id = "uncategorized" ∧ d.isDeletable = false

/-- How `deleteCategory` for the id `categoryId` relates a sound before to the
same sound after: a sound of that category has only its `category` changed, to
`uncategorized`, and any other sound is unchanged. -/
def MovedToDefault (categoryId : String) (old new : Sound) : Prop :=
  (old.category = categoryId → new = { old with category := "uncategorized" }) ∧
  (old.category ≠ categoryId → new = old)

/-! ## The display name in the words of the spec -/

/-- Follows the spec's words: remove one trailing `.ogg`, in any letter case. -/
def specStripExtension (l : List Char) : List Char :=
  if (l.drop (l.length - 4)).map Char.toLower = ".ogg".data then l.take (l.length - 4) else l

/-- Follows the spec's words: remove a leading `--` if present. -/
def specStripDashes : List Char → List Char
  | '-' :: '-' :: rest => rest
  | l => l

/-- Follows the spec's words: replace every `-` and `_` by a space. -/
def specSpaces (l : List Char) : List Char :=
  l.map (fun c => if c = '-' ∨ c = '_' then ' ' else c)

/-- Follows the spec's words: a character starts a word when it is at the start
(`none` precedes it) or follows a non-word character. -/
def startsWord : Option Char → Bool
  | none => true
  | some before => !isWordChar before

/-- Follows the spec's words: upper-case every letter or digit that starts a
word and leave all other characters as they are.  Each character is paired
with the one before it. -/
def specTitleCase (l : List Char) : List Char :=
  List.zipWith
    (fun before c => if (c.isAlpha || c.isDigit) && startsWord before then c.toUpper else c)
    (none :: l.map some) l

/-- Follows the spec's words: the four steps of the display name in order. -/
def specDisplayName (fileName : String) : String :=
  String.mk (specTitleCase (specSpaces (specStripDashes (specStripExtension fileName.data))))

/-! ## Scenario data -/

/-- A run that creates `SFX`, is refused `sfx` and a rename of `Music` to
`sFx`, creates a category from a sound edit and deletes one. -/
def namesRun : List Event :=
  [Event.addCategory " SFX " "c1",
   Event.addCategory "sfx" "c2",
   Event.addCategory "Music" "c3",
   Event.renameCategory "c3" "Music" "sFx",
   Event.renameCategory "c3" "Music" "Songs",
   Event.saveEdit "s0" "Horn" "red" "uncategorized" "Voices" "c4",
   Event.deleteCategory "c1" true]

/-- A run with a creation, a rename started from the list, a refused deletion
of the default category and a deletion. -/
def defaultRun : List Event :=
  [Event.addCategory "SFX" "c1",
   Event.renameCategory "c1" "SFX" "Effects",
   Event.deleteCategory "uncategorized" true,
   Event.addCategory "Music" "c2",
   Event.deleteCategory "c1" true]

/-- A run with an upload, edits that use the select and the new-category field,
and a deletion that moves sounds back to the default category. -/
def catalogRun : List Event :=
  [Event.addCategory "SFX" "c1",
   Event.saveEdit "s0" "" "red" "c1" "" "c2",
   Event.upload (fun _ => "u0") (fun _ => "blob:0")
     [{ name := "clap.ogg", type := "audio/ogg" }, { name := "clap.wav", type := "audio/wav" }],
   Event.saveEdit "u0" "Clap" "teal" "ghost" " Voices " "c3",
   Event.deleteCategory "c1" true]

/-- The scenario state: category `SFX` created and the sound assigned to it. -/
def sfxState : State :=
  run asciiLower (startup (fun _ => "s0") ["--Air-Horn.ogg"])
    [Event.addCategory "SFX" "c1", Event.saveEdit "s0" "" "blue" "c1" "" "c2"]

/-! ## View projection -/

/-- Character-level `String.prototype.includes`: `term` occurs in `text` as a
contiguous run starting at some position. -/
def includesChars (text term : List Char) : Bool :=
  text.tails.any (fun rest => term.isPrefixOf rest)

/-- The method `String.prototype.includes`. -/
def includes (text term : String) : Bool := includesChars text.data term.data

/-- The expression `x || y` on numbers: `y` when `x` is zero, else `x`. -/
def numberOr (x y : Int) : Int := if x ≠ 0 then x else y

/-- The method `Array.prototype.sort(comparefn)`, which ECMAScript requires to
be stable: `a` stays before `b` unless `comparefn(a, b) > 0`.  For a consistent
comparator the stable sorted arrangement is unique, so the result does not
depend on the algorithm; here each element is inserted before the first
element of the sorted rest that it need not follow. -/
def sort (comparefn : Sound → Sound → Int) (l : List Sound) : List Sound :=
  List.insertionSort (fun a b => comparefn a b ≤ 0) l

/-- The comparator of the mode `name-asc`, line 644. -/
def byNameAsc (localeCompare : String → String → Int) (a b : Sound) : Int :=
  localeCompare a.name b.name

/-- The comparator of the mode `name-desc`, line 646. -/
def byNameDesc (localeCompare : String → String → Int) (a b : Sound) : Int :=
  localeCompare b.name a.name

/-- The comparator of the mode `category`, line 649. -/
def byCategory (localeCompare : String → String → Int) (categories : List Category)
    (a b : Sound) : Int :=
  numberOr
    (localeCompare (getCategoryName categories a.category) (getCategoryName categories b.category))
    (localeCompare a.name b.name)

/-- The function `getFilteredAndSortedSounds`, lines 628-652, as a function of
what it reads: the registry, the values of the category filter, of the search
field and of the sort select, and the array it is given.
`String.prototype.localeCompare` is a parameter. -/
def getFilteredAndSortedSounds (toLowerCase : String → String)
    (localeCompare : String → String → Int) (categories : List Category)
    (selectedCategoryId searchValue sortBy : String) (sourceData : List Sound) : List Sound :=
  let result := sourceData
  let result :=
    if selectedCategoryId ≠ "all" then
      result.filter (fun sound => sound.category == selectedCategoryId)
    else result
  let searchTerm := toLowerCase searchValue
  let result :=
    if searchTerm ≠ "" then
      result.filter (fun sound => includes (toLowerCase sound.name) searchTerm)
    else result
  if sortBy = "name-asc" then sort (byNameAsc localeCompare) result
  else if sortBy = "name-desc" then sort (byNameDesc localeCompare) result
  else if sortBy = "category" then sort (byCategory localeCompare categories) result
  else result

/-- What ECMAScript requires of `localeCompare`, a consistent comparator: the
strings fall into classes of equal rank that are totally ordered.  Stated as a
total preorder: a string ranks equal to itself, `a` before `b` exactly when `b`
after `a`, and not-after is transitive. -/
def ConsistentComparator (cmp : String → String → Int) : Prop :=
  (∀ a, cmp a a = 0) ∧ (∀ a b, cmp a b < 0 ↔ 0 < cmp b a) ∧
    (∀ a b c, cmp a b ≤ 0 → cmp b c ≤ 0 → cmp a c ≤ 0)

/-- Comparison of two character lists by code point, shorter first on a tie. -/
def compareChars : List Char → List Char → Int
  | [], [] => 0
  | [], _ :: _ => -1
  | _ :: _, [] => 1
  | a :: as, b :: bs =>
      if a.toNat < b.toNat then -1 else if b.toNat < a.toNat then 1 else compareChars as bs

/-- A comparator by code point, the instance of `localeCompare` used in closed
examples. -/
def codePointCompare (a b : String) : Int := compareChars a.data b.data

/-- The filter of the view in the words of the spec: the category equals the
filter, or the filter is `all`; and the lower-cased name contains the
lower-cased term. -/
def specVisible (toLowerCase : String → String) (selectedCategoryId searchValue : String)
    (sound : Sound) : Bool :=
  (selectedCategoryId == "all" || sound.category == selectedCategoryId) &&
    includes (toLowerCase sound.name) (toLowerCase searchValue)

/-- A catalog of three sounds in two categories, for the sorting modes. -/
def sortingCatalog : List Sound :=
  (run asciiLower
    (startup (fun i => "s" ++ toString i) ["zap.ogg", "--Air-Horn.ogg", "boo_sound.ogg"])
    [Event.addCategory "Animals" "c1", Event.saveEdit "s0" "" "blue" "c1" "" "c2"]).soundsData

/-- A registry in which the category of id `c1` is named `Zoo`: by name it
comes after `Uncategorized` and `Unknown`, by id before `ghost` and
`uncategorized`. -/
def zooRegistry : List Category :=
  [uncategorized, { id := "c1", name := "Zoo", isDeletable := true, isEditable := true }]

/-- The catalog of three sounds and a fourth whose category id `ghost` no
category has. -/
def mixedCatalog : List Sound :=
  sortingCatalog ++ [{ provisionedSound "s3" "kick.ogg" 3 with category := "ghost" }]

/-! ## View projection on arrays with identity

JavaScript arrays are objects: `sort` reorders the array it is called on, and
`filter` and the spread `[...a]` build new arrays.  To state that
`getFilteredAndSortedSounds` leaves its input as it was, the arrays live in a
heap, a list of arrays addressed by position. -/

/-- The array at an address; no array there reads as empty. -/
def readArray (arrays : List (List Sound)) (address : Nat) : List Sound :=
  (arrays[address]?).getD []

/-- A new array with the given contents: the heap after it and its address. -/
def allocate (arrays : List (List Sound)) (contents : List Sound) : List (List Sound) × Nat :=
  (arrays ++ [contents], arrays.length)

/-- The call `result = result.filter(p)`: a new array, `result` now refers to it. -/
def filterArray (p : Sound → Bool) (x : List (List Sound) × Nat) : List (List Sound) × Nat :=
  allocate x.1 ((readArray x.1 x.2).filter p)

/-- The call `result.sort(comparefn)`: the array `result` refers to is
reordered in place. -/
def sortArray (comparefn : Sound → Sound → Int) (x : List (List Sound) × Nat) :
    List (List Sound) × Nat :=
  (x.1.set x.2 (sort comparefn (readArray x.1 x.2)), x.2)

/-- The function `getFilteredAndSortedSounds`, lines 628-652, on the heap:
`sourceData` is the address of the array it is given, and the result is the
heap after the call with the address of the array it returns. -/
def getFilteredAndSortedSoundsIn (toLowerCase : String → String)
    (localeCompare : String → String → Int) (categories : List Category)
    (selectedCategoryId searchValue sortBy : String) (arrays : List (List Sound))
    (sourceData : Nat) : List (List Sound) × Nat :=
  let result := allocate arrays (readArray arrays sourceData)
  let result :=
    if selectedCategoryId ≠ "all" then
      filterArray (fun sound => sound.category == selectedCategoryId) result
    else result
  let searchTerm := toLowerCase searchValue
  let result :=
    if searchTerm ≠ "" then
      filterArray (fun sound => includes (toLowerCase sound.name) searchTerm) result
    else result
  if sortBy = "name-asc" then sortArray (byNameAsc localeCompare) result
  else if sortBy = "name-desc" then sortArray (byNameDesc localeCompare) result
  else if sortBy = "category" then sortArray (byCategory localeCompare categories) result
  else result

/-- That a heap and an address in it hold `contents` in an array made after
the first `n` arrays of `before`, which are all still as they were. -/
def HoldsNew (before : List (List Sound)) (contents : List Sound)
    (x : List (List Sound) × Nat) : Prop :=
  before.length ≤ x.2 ∧ x.2 < x.1.length ∧ (∀ a, a < before.length → x.1[a]? = before[a]?) ∧
    readArray x.1 x.2 = contents

/-! ## Playback -/

/-- What `playSound` does: the status message that audio is not active, the
`start` call on the target player, or the warning that the sound cannot be
played. -/
inductive PlayOutcome where
  | audioNotActive
  | started
  | notLoaded
deriving DecidableEq

/-- The function `playSound`, lines 300-314.  `contextRunning` is whether
`Tone.context.state` is `running`.  The result is the sound after the call
(its target player is started by `start`) and what the call did. -/
def playSound (audioInitialized contextRunning : Bool) (sound : Sound) : Sound × PlayOutcome :=
  if !audioInitialized && !contextRunning then (sound, PlayOutcome.audioNotActive)
  else
    match sound.player with
    | some targetPlayer =>
        if targetPlayer.loaded then
          ({ sound with player := some { targetPlayer with started := true } },
            PlayOutcome.started)
        else (sound, PlayOutcome.notLoaded)
    | none =>
        match sound.uploadedPlayer with
        | some targetPlayer =>
            if targetPlayer.loaded then
              ({ sound with uploadedPlayer := some { targetPlayer with started := true } },
                PlayOutcome.started)
            else (sound, PlayOutcome.notLoaded)
        | none => (sound, PlayOutcome.notLoaded)

/-- A sound is ready: it holds a player handle that is loaded. -/
def IsReady (sound : Sound) : Prop :=
  ∃ p : Player, (sound.player = some p ∨ sound.uploadedPlayer = some p) ∧ p.loaded = true

/-- A ready provisioned sound, for closed examples. -/
def readySound : Sound :=
  { provisionedSound "s0" "--Air-Horn.ogg" 0 with
    player := some { loaded := true, started := false } }

/-! ## Load pipeline

The sounds of an array taken from `soundsData` are the same objects as in
`soundsData`; here such an array is the list of their positions in
`soundsData`, which never change: sounds are only appended. -/

/-- The loop `sounds.forEach(f)` over sounds of `soundsData` given by their
positions, `f` mutating the sound it is called on. -/
def forEachAt (f : Sound → Sound) (positions : List Nat) (soundsData : List Sound) : List Sound :=
  positions.foldl (fun acc i => acc.modify f i) soundsData

/-- The test of the default argument of `loadAndRenderSounds`, line 194:
`!s.isUploaded && !s.player && !s.isLoading`. -/
def isDefaultCandidate (s : Sound) : Bool :=
  !s.isUploaded && s.player.isNone && !s.isLoading

/-- The default argument of `loadAndRenderSounds`, line 194, as positions. -/
def defaultSoundsToLoad (soundsData : List Sound) : List Nat :=
  (List.range soundsData.length).filter (fun i => (soundsData[i]?).any isDefaultCandidate)

/-- The assignment `s.isLoading = true`, line 195. -/
def markLoading (s : Sound) : Sound := { s with isLoading := true }

/-- The assignment `s.isLoading = false`, line 201. -/
def clearLoading (s : Sound) : Sound := { s with isLoading := false }

/-- The function `loadAndRenderSounds` up to its `await`, lines 195-210: the new
`soundsData` and `soundsToActuallyLoad`, the batch handed to `Tone.Players`
(empty when the function returns at line 204). -/
def loadBegin (soundsToLoad : List Nat) (soundsData : List Sound) : List Sound × List Nat :=
  let marked := forEachAt markLoading soundsToLoad soundsData
  let soundsToActuallyLoad :=
    soundsToLoad.filter (fun i => (marked[i]?).any (fun s => s.filePath != ""))
  if soundsToActuallyLoad.length = 0 then (forEachAt clearLoading soundsToLoad marked, [])
  else (marked, soundsToActuallyLoad)

/-- How the `try` block of lines 212-238 ends.  It completes: `Tone.loaded()`
resolves and `player id` is what `newPlayersInstance.player(id)` returns (`none`
for a falsy value).  Or the construction or `Tone.loaded()` throws, before any
sound is settled.  Or `Tone.loaded()` resolves, the loop of lines 220-230
settles the first `settled` sounds of the batch, `player id` being what
`newPlayersInstance.player(id)` returns for them, and the call
`newPlayersInstance.player` for the next sound throws. -/
inductive BatchResult where
  | loaded (player : String → Option Player)
  | threw
  | threwWhileSettling (player : String → Option Player) (settled : Nat)

/-- The update of one sound of the batch when the load resolved, lines 221-229. -/
def settleLoaded (player : String → Option Player) (sound : Sound) : Sound :=
  match player sound.id with
  | some playerFromInstance =>
      if playerFromInstance.loaded then
        { sound with isLoading := false, player := some playerFromInstance, hasError := false }
      else { sound with isLoading := false, hasError := true }
  | none => { sound with isLoading := false, hasError := true }

/-- The update of one sound of the batch in the `catch` block, line 242: the
`player` field is not written. -/
def settleThrew (sound : Sound) : Sound :=
  { sound with isLoading := false, hasError := true }

/-- The function `loadAndRenderSounds` after its `await`, lines 218-242, for the
batch `soundsToActuallyLoad`.  When the `try` block throws, the `catch` block
runs over the whole batch, after the updates the loop of lines 220-230 has
made. -/
def loadSettle (result : BatchResult) (soundsToActuallyLoad : List Nat)
    (soundsData : List Sound) : List Sound :=
  match result with
  | BatchResult.loaded player => forEachAt (settleLoaded player) soundsToActuallyLoad soundsData
  | BatchResult.threw => forEachAt settleThrew soundsToActuallyLoad soundsData
  | BatchResult.threwWhileSettling player settled =>
      forEachAt settleThrew soundsToActuallyLoad
        (forEachAt (settleLoaded player) (soundsToActuallyLoad.take settled) soundsData)

/-- The update of an uploaded sound when its own load ends, lines 353-371:
`player` is the `Tone.Player` when `Tone.loaded()` resolved and `none` when the
construction or `Tone.loaded()` threw. -/
def settleUpload (player : Option Player) (sound : Sound) : Sound :=
  match player with
  | some p =>
      if p.loaded then { sound with uploadedPlayer := some p, isLoading := false }
      else { sound with isLoading := false, hasError := true }
  | none => { sound with isLoading := false, hasError := true }

/-- The state together with the loads that are awaiting `Tone.loaded()`: the
batch of each call of `loadAndRenderSounds` and the uploaded sounds of the
upload handler. -/
structure Session where
  state : State
  batches : List (List Nat)
  uploads : List Nat

/-- The events of a session: a user event, a call of `loadAndRenderSounds` with
its default argument, the end of the batch load at position `k` of `batches`,
and the end of the load of the upload at position `k` of `uploads`. -/
inductive LoadEvent where
  | user (e : Event)
  | loadAndRenderSounds
  | batchSettled (k : Nat) (result : BatchResult)
  | uploadSettled (k : Nat) (player : Option Player)

/-- Session after one event.  A user event that appends sounds (an upload)
leaves them awaiting their load. -/
def sessionStep (toLowerCase : String → String) (x : Session) : LoadEvent → Session
  | LoadEvent.user e =>
      { state := step toLowerCase x.state e
        batches := x.batches
        uploads := x.uploads ++ List.range' x.state.soundsData.length
          ((step toLowerCase x.state e).soundsData.length - x.state.soundsData.length) }
  | LoadEvent.loadAndRenderSounds =>
      { state := { x.state with
          soundsData :=
            (loadBegin (defaultSoundsToLoad x.state.soundsData) x.state.soundsData).1 }
        batches :=
          if (loadBegin (defaultSoundsToLoad x.state.soundsData) x.state.soundsData).2 = [] then
            x.batches
          else x.batches ++
            [(loadBegin (defaultSoundsToLoad x.state.soundsData) x.state.soundsData).2]
        uploads := x.uploads }
  | LoadEvent.batchSettled k result =>
      match x.batches[k]? with
      | none => x
      | some batch =>
          { state := { x.state with soundsData := loadSettle result batch x.state.soundsData }
            batches := x.batches.eraseIdx k
            uploads := x.uploads }
  | LoadEvent.uploadSettled k player =>
      match x.uploads[k]? with
      | none => x
      | some i =>
          { state := { x.state with soundsData := x.state.soundsData.modify (settleUpload player) i }
            batches := x.batches
            uploads := x.uploads.eraseIdx k }

/-- Session after a sequence of events. -/
def sessionRun (toLowerCase : String → String) (x : Session) (events : List LoadEvent) :
    Session :=
  events.foldl (sessionStep toLowerCase) x

/-- The session at the end of the initialization sequence: nothing is loading. -/
def startSession (genId : Nat → String) (manifest : List String) : Session :=
  { state := startup genId manifest, batches := [], uploads := [] }

/-- Whether a call of `loadAndRenderSounds` finds no failed sound among its
candidates. -/
def noRetry (x : Session) : LoadEvent → Bool
  | LoadEvent.loadAndRenderSounds =>
      x.state.soundsData.all (fun s => !isDefaultCandidate s || !s.hasError)
  | _ => true

/-- Whether every event of a sequence satisfies `ok` in the session it occurs
in. -/
def sessionAllAlong (toLowerCase : String → String) (ok : Session → LoadEvent → Bool) :
    Session → List LoadEvent → Bool
  | _, [] => true
  | x, e :: es => ok x e && sessionAllAlong toLowerCase ok (sessionStep toLowerCase x e) es

/-- What holds of the sounds and the pending loads in every session. -/
structure LoadInvariant (x : Session) : Prop where
  provenance : ∀ (i : Nat) (s : Sound), x.state.soundsData[i]? = some s →
    (s.isUploaded = true → s.player = none) ∧ (s.isUploaded = false → s.uploadedPlayer = none)
  handle : ∀ (i : Nat) (s : Sound), x.state.soundsData[i]? = some s →
    (s.player ≠ none ∨ s.uploadedPlayer ≠ none) → s.isLoading = false
  uploadHandle : ∀ (i : Nat) (s : Sound), x.state.soundsData[i]? = some s →
    s.uploadedPlayer ≠ none → s.hasError = false
  upload : ∀ (i : Nat) (s : Sound), x.state.soundsData[i]? = some s →
    s.isUploaded = true → s.isLoading = true → s.hasError = false
  inBatch : ∀ batch ∈ x.batches, ∀ i ∈ batch,
    ∃ s, x.state.soundsData[i]? = some s ∧ s.isUploaded = false ∧ s.isLoading = true
  disjoint : x.batches.Pairwise List.Disjoint
  inUploads : ∀ i ∈ x.uploads,
    ∃ s, x.state.soundsData[i]? = some s ∧ s.isUploaded = true ∧ s.isLoading = true
  nodup : x.uploads.Nodup

/-- A run in which the one sound fails to load and `loadAndRenderSounds` is
called again. -/
def retryRun : List LoadEvent :=
  [LoadEvent.loadAndRenderSounds,
   LoadEvent.batchSettled 0 BatchResult.threw,
   LoadEvent.loadAndRenderSounds]

/-- A failed provisioned sound: not loading, error set, no player. -/
def failedSound : Sound :=
  { provisionedSound "s0" "boo_sound.ogg" 0 with hasError := true }

/-- What `loadSettle` makes of the sound at position `j` of the batch, for each
end of the load. -/
def settledSound (result : BatchResult) (batch : List Nat) (j : Nat) (sound : Sound) : Sound :=
  match result with
  | BatchResult.loaded player => settleLoaded player sound
  | BatchResult.threw => settleThrew sound
  | BatchResult.threwWhileSettling player settled =>
      if j ∈ batch.take settled then settleThrew (settleLoaded player sound)
      else settleThrew sound

/-- Whether an event is not the end of a batch load that threw after
`Tone.loaded()` resolved. -/
def noThrowWhileSettling (_x : Session) : LoadEvent → Bool
  | LoadEvent.batchSettled _ (BatchResult.threwWhileSettling _ _) => false
  | _ => true

/-- The load state of a sound as the interface shows it. -/
inductive LoadState where
  | notLoaded
  | loading
  | ready
  | failed
deriving DecidableEq

/-- The load state of a sound, from its flags.  The precedence is that of
`renderButtons`, lines 175-176: `loading` when `isLoading`, else `error` when
`hasError`; a sound counts as ready, line 258, when it holds a handle and
`hasError` is false. -/
def loadState (s : Sound) : LoadState :=
  if s.isLoading then LoadState.loading
  else if s.hasError then LoadState.failed
  else if s.player.isSome || s.uploadedPlayer.isSome then LoadState.ready
  else LoadState.notLoaded

/-- The three changes of load state: `NotLoaded` to `Loading`, `Loading` to
`Ready`, `Loading` to `Failed`. -/
def loadTransition : LoadState → LoadState → Bool
  | LoadState.notLoaded, LoadState.loading => true
  | LoadState.loading, LoadState.ready => true
  | LoadState.loading, LoadState.failed => true
  | _, _ => false

/-- Whether the engine reports a loaded player for an id. -/
def reportsLoaded (player : String → Option Player) (id : String) : Prop :=
  ∃ p, player id = some p ∧ p.loaded = true

/-- The two-sound catalog of the scenario with distinct ids, after a call of
`loadAndRenderSounds`: both sounds are loading. -/
def loadingCatalog : List Sound :=
  (loadBegin
    (defaultSoundsToLoad
      (initializeSoundsData (fun i => "s" ++ toString i) ["--Air-Horn.ogg", "boo_sound.ogg"]))
    (initializeSoundsData (fun i => "s" ++ toString i) ["--Air-Horn.ogg", "boo_sound.ogg"])).1

/-- An engine outcome that reports a loaded player for `s0` only. -/
def onlyFirstLoaded (id : String) : Option Player :=
  if id = "s0" then some { loaded := true, started := false } else none

/-- A run in which the load of the two provisioned sounds resolves, the first
sound is settled with its loaded player and the call for the second throws. -/
def partlySettledRun : List LoadEvent :=
  [LoadEvent.loadAndRenderSounds,
   LoadEvent.batchSettled 0 (BatchResult.threwWhileSettling onlyFirstLoaded 1)]

/-- The fields of a sound the load pipeline reads and writes. -/
def loadFields (s : Sound) : Bool × Option Player × Option Player × Bool × Bool :=
  (s.isUploaded, s.player, s.uploadedPlayer, s.isLoading, s.hasError)

/-- No sound is loading with its error flag set. -/
def NoErrorWhileLoading (soundsData : List Sound) : Prop :=
  ∀ (i : Nat) (s : Sound), soundsData[i]? = some s → s.isLoading = true → s.hasError = false

/-- No sound holds a player with its error flag set. -/
def NoErrorWithPlayer (soundsData : List Sound) : Prop :=
  ∀ (i : Nat) (s : Sound), soundsData[i]? = some s → s.player ≠ none → s.hasError = false

/-- A session in which the two provisioned sounds are loaded in one batch, of
which the engine loads the first only, and an uploaded file loads. -/
def loadRun : List LoadEvent :=
  [LoadEvent.loadAndRenderSounds,
   LoadEvent.user (Event.upload (fun _ => "u0") (fun _ => "blob:0")
     [{ name := "clap.ogg", type := "audio/ogg" }]),
   LoadEvent.batchSettled 0 (BatchResult.loaded onlyFirstLoaded),
   LoadEvent.uploadSettled 0 (some { loaded := true, started := false })]

/-! ## Lemmas on `updateFirst` -/

theorem map_updateFirst {α β : Type} (p : α → Bool) (f : α → α) (g : α → β)
    (hg : ∀ a, g (f a) = g a) (l : List α) : (updateFirst p f l).map g = l.map g := by
  induction l with
  | nil => rfl
  | cons a as ih =>
      unfold updateFirst
      by_cases hp : p a = true
      · simp [hp, hg]
      · simp [hp, ih]

theorem length_updateFirst {α : Type} (p : α → Bool) (f : α → α) (l : List α) :
    (updateFirst p f l).length = l.length := by
  induction l with
  | nil => rfl
  | cons a as ih =>
      unfold updateFirst
      by_cases hp : p a = true
      · simp [hp]
      · simp [hp, ih]

theorem mem_updateFirst {α : Type} (p : α → Bool) (f : α → α) (l : List α) (b : α)
    (hb : b ∈ updateFirst p f l) : b ∈ l ∨ ∃ a ∈ l, p a = true ∧ b = f a := by
  induction l with
  | nil => simp [updateFirst] at hb
  | cons a as ih =>
      unfold updateFirst at hb
      by_cases hp : p a = true
      · rw [if_pos hp, List.mem_cons] at hb
        rcases hb with hb | hb
        · exact Or.inr ⟨a, List.mem_cons_self _ _, hp, hb⟩
        · exact Or.inl (List.mem_cons_of_mem _ hb)
      · rw [if_neg hp, List.mem_cons] at hb
        rcases hb with hb | hb
        · exact Or.inl (hb ▸ List.mem_cons_self _ _)
        · rcases ih hb with h | ⟨a', ha', hpa', hba'⟩
          · exact Or.inl (List.mem_cons_of_mem _ h)
          · exact Or.inr ⟨a', List.mem_cons_of_mem _ ha', hpa', hba'⟩

theorem mem_updateFirst_of_not {α : Type} (p : α → Bool) (f : α → α) (l : List α) (a : α)
    (ha : a ∈ l) (hp : p a = false) : a ∈ updateFirst p f l := by
  induction l with
  | nil => simp at ha
  | cons x xs ih =>
      unfold updateFirst
      rcases List.mem_cons.mp ha with hax | hax
      · subst hax
        simp [hp]
      · by_cases hx : p x = true
        · simp only [hx, if_true]
          exact List.mem_cons_of_mem _ hax
        · simp only [hx]
          exact List.mem_cons_of_mem _ (ih hax)

/-! ## Each handler keeps ids and names unique -/

theorem categoryIds_append (cats : List Category) (c : Category) :
    categoryIds (cats ++ [c]) = categoryIds cats ++ [c.id] := by
  simp [categoryIds]

theorem idsUnique_append (cats : List Category) (c : Category) (h : IdsUnique cats)
    (hfresh : c.id ∉ categoryIds cats) : IdsUnique (cats ++ [c]) := by
  unfold IdsUnique at *
  rw [categoryIds_append, List.nodup_append]
  refine ⟨h, List.nodup_singleton _, ?_⟩
  intro x hx hx'
  rw [List.mem_singleton] at hx'
  exact hfresh (hx' ▸ hx)

theorem namesUnique_append (toLowerCase : String → String) (cats : List Category) (c : Category)
    (h : NamesUnique toLowerCase cats)
    (hnew : ∀ x ∈ cats, toLowerCase x.name ≠ toLowerCase c.name) :
    NamesUnique toLowerCase (cats ++ [c]) := by
  unfold NamesUnique at *
  rw [List.pairwise_append]
  refine ⟨h, List.pairwise_singleton _ _, ?_⟩
  intro a ha b hb
  rw [List.mem_singleton] at hb
  subst hb
  exact hnew a ha

theorem addCategory_unique (toLowerCase : String → String) (cats : List Category)
    (input newId : String) (hfresh : newId ∉ categoryIds cats)
    (hids : IdsUnique cats) (hnames : NamesUnique toLowerCase cats) :
    IdsUnique (addCategory toLowerCase cats input newId).1 ∧
      NamesUnique toLowerCase (addCategory toLowerCase cats input newId).1 := by
  unfold addCategory
  simp only []
  split
  · rename_i hc
    simp only [Bool.and_eq_true, Bool.not_eq_true', decide_eq_true_eq, List.any_eq_false,
      beq_iff_eq] at hc
    exact ⟨idsUnique_append _ _ hids hfresh, namesUnique_append _ _ _ hnames hc.2⟩
  · split <;> exact ⟨hids, hnames⟩

theorem renamed_unique (toLowerCase : String → String) (categoryId newName : String)
    (cats : List Category) (hids : IdsUnique cats) (hnames : NamesUnique toLowerCase cats)
    (hothers : ∀ c ∈ cats, c.id ≠ categoryId → toLowerCase c.name ≠ toLowerCase newName) :
    NamesUnique toLowerCase
      (updateFirst (fun c => c.id == categoryId) (fun c => { c with name := newName }) cats) := by
  induction cats with
  | nil => exact List.Pairwise.nil
  | cons a as ih =>
      unfold IdsUnique categoryIds at hids
      rw [List.map_cons, List.nodup_cons] at hids
      unfold NamesUnique at hnames
      rw [List.pairwise_cons] at hnames
      unfold updateFirst
      by_cases ha : a.id = categoryId
      · simp only [ha, beq_self_eq_true, if_true]
        unfold NamesUnique
        rw [List.pairwise_cons]
        refine ⟨?_, hnames.2⟩
        intro b hb
        have hbid : b.id ≠ categoryId := by
          intro he
          apply hids.1
          rw [ha, ← he]
          exact List.mem_map_of_mem _ hb
        exact fun he => hothers b (List.mem_cons_of_mem _ hb) hbid he.symm
      · have hfalse : ¬ (a.id == categoryId) = true := by simpa using ha
        rw [if_neg hfalse]
        unfold NamesUnique
        rw [List.pairwise_cons]
        refine ⟨?_, ih hids.2 hnames.2 (fun c hc => hothers c (List.mem_cons_of_mem _ hc))⟩
        intro b hb
        rcases mem_updateFirst _ _ _ _ hb with hb' | ⟨c, _, _, hbc⟩
        · exact hnames.1 b hb'
        · subst hbc
          exact hothers a (List.mem_cons_self _ _) ha

theorem renameCategory_ids (toLowerCase : String → String) (cats : List Category)
    (categoryId currentName input : String) :
    categoryIds (renameCategory toLowerCase cats categoryId currentName input).1
      = categoryIds cats := by
  unfold renameCategory
  simp only []
  split
  · exact map_updateFirst (fun c => c.id == categoryId)
      (fun c => { c with name := trim input }) (fun c => c.id) (fun _ => rfl) cats
  · split
    · rfl
    · split <;> rfl

theorem renameCategory_unique (toLowerCase : String → String) (cats : List Category)
    (categoryId currentName input : String)
    (hids : IdsUnique cats) (hnames : NamesUnique toLowerCase cats) :
    IdsUnique (renameCategory toLowerCase cats categoryId currentName input).1 ∧
      NamesUnique toLowerCase (renameCategory toLowerCase cats categoryId currentName input).1 := by
  refine ⟨by unfold IdsUnique; rw [renameCategory_ids]; exact hids, ?_⟩
  unfold renameCategory
  simp only []
  split
  · rename_i hc
    simp only [Bool.and_eq_true, Bool.not_eq_true', decide_eq_true_eq, List.any_eq_false,
      beq_iff_eq, bne_iff_ne, ne_eq, not_and] at hc
    exact renamed_unique _ _ _ _ hids hnames (fun c hc' hne => hc.2 c hc' hne)
  · split
    · exact hnames
    · split <;> exact hnames

theorem deleteCategory_categories_sublist (s : State) (categoryId : String) (confirmed : Bool) :
    (deleteCategory s categoryId confirmed).1.categories.Sublist s.categories := by
  unfold deleteCategory
  split
  · exact List.Sublist.refl _
  · split
    · exact List.Sublist.refl _
    · split
      · exact List.filter_sublist _
      · exact List.Sublist.refl _

theorem deleteCategory_unique (toLowerCase : String → String) (s : State) (categoryId : String)
    (confirmed : Bool) (hids : IdsUnique s.categories)
    (hnames : NamesUnique toLowerCase s.categories) :
    IdsUnique (deleteCategory s categoryId confirmed).1.categories ∧
      NamesUnique toLowerCase (deleteCategory s categoryId confirmed).1.categories := by
  have hsub := deleteCategory_categories_sublist s categoryId confirmed
  exact ⟨List.Nodup.sublist (hsub.map _) hids, List.Pairwise.sublist hsub hnames⟩

theorem saveEdit_categories (toLowerCase : String → String) (s : State)
    (soundId nameValue colorValue categoryValue newCategoryValue newId : String) :
    (saveEdit toLowerCase s soundId nameValue colorValue categoryValue newCategoryValue
        newId).categories = s.categories ∨
    ((saveEdit toLowerCase s soundId nameValue colorValue categoryValue newCategoryValue
        newId).categories = s.categories ++
          [{ id := newId, name := trim newCategoryValue, isDeletable := true, isEditable := true }]
      ∧ ∀ x ∈ s.categories, toLowerCase x.name ≠ toLowerCase (trim newCategoryValue)) := by
  unfold saveEdit
  split
  · exact Or.inl rfl
  · simp only []
    split
    · split
      · exact Or.inl rfl
      · rename_i hnone
        refine Or.inr ⟨rfl, ?_⟩
        intro x hx
        have := List.find?_eq_none.mp hnone x hx
        simpa using this
    · exact Or.inl rfl

theorem saveEdit_unique (toLowerCase : String → String) (s : State)
    (soundId nameValue colorValue categoryValue newCategoryValue newId : String)
    (hfresh : newId ∉ categoryIds s.categories) (hids : IdsUnique s.categories)
    (hnames : NamesUnique toLowerCase s.categories) :
    IdsUnique (saveEdit toLowerCase s soundId nameValue colorValue categoryValue
        newCategoryValue newId).categories ∧
      NamesUnique toLowerCase (saveEdit toLowerCase s soundId nameValue colorValue categoryValue
        newCategoryValue newId).categories := by
  rcases saveEdit_categories toLowerCase s soundId nameValue colorValue categoryValue
      newCategoryValue newId with h | ⟨h, hnew⟩
  · rw [h]
    exact ⟨hids, hnames⟩
  · rw [h]
    exact ⟨idsUnique_append _ _ hids hfresh, namesUnique_append _ _ _ hnames hnew⟩

theorem step_unique (toLowerCase : String → String) (s : State) (e : Event)
    (hfresh : freshId s e = true) (hids : IdsUnique s.categories)
    (hnames : NamesUnique toLowerCase s.categories) :
    IdsUnique (step toLowerCase s e).categories ∧
      NamesUnique toLowerCase (step toLowerCase s e).categories := by
  cases e with
  | addCategory input newId =>
      have hf : newId ∉ categoryIds s.categories := by simpa [freshId] using hfresh
      exact addCategory_unique toLowerCase s.categories input newId hf hids hnames
  | renameCategory categoryId currentName input =>
      exact renameCategory_unique toLowerCase s.categories categoryId currentName input hids hnames
  | deleteCategory categoryId confirmed =>
      exact deleteCategory_unique toLowerCase s categoryId confirmed hids hnames
  | saveEdit soundId nameValue colorValue categoryValue newCategoryValue newId =>
      have hf : newId ∉ categoryIds s.categories := by simpa [freshId] using hfresh
      exact saveEdit_unique toLowerCase s soundId nameValue colorValue categoryValue
        newCategoryValue newId hf hids hnames
  | upload genId genUrl files => exact ⟨hids, hnames⟩

theorem run_unique (toLowerCase : String → String) (events : List Event) (s : State)
    (hfresh : allAlong toLowerCase freshId s events = true) (hids : IdsUnique s.categories)
    (hnames : NamesUnique toLowerCase s.categories) :
    IdsUnique (run toLowerCase s events).categories ∧
      NamesUnique toLowerCase (run toLowerCase s events).categories := by
  induction events generalizing s with
  | nil => exact ⟨hids, hnames⟩
  | cons e es ih =>
      unfold allAlong at hfresh
      rw [Bool.and_eq_true] at hfresh
      have h := step_unique toLowerCase s e hfresh.1 hids hnames
      exact ih (step toLowerCase s e) hfresh.2 h.1 h.2

theorem initial_unique (toLowerCase : String → String) :
    IdsUnique [uncategorized] ∧ NamesUnique toLowerCase [uncategorized] :=
  ⟨List.nodup_singleton _, List.pairwise_singleton _ _⟩

/-! ## C1: category names stay unique -/

/-- C1: from the initial registry `[Uncategorized]` and any catalog, after any
finite sequence of category creations, inline renames, deletions, sound-edit
saves and uploads in which `generateUniqueId()` returns ids that are not in
the registry yet, no two categories at different positions of the registry
have names that are equal after lower-casing. -/
theorem category_names_unique (toLowerCase : String → String) (soundsData : List Sound)
    (events : List Event)
    (hfresh : allAlong toLowerCase freshId
      { soundsData := soundsData, categories := [uncategorized] } events = true) :
    NamesUnique toLowerCase
      (run toLowerCase { soundsData := soundsData, categories := [uncategorized] }
        events).categories :=
  (run_unique toLowerCase events _ hfresh (initial_unique toLowerCase).1
    (initial_unique toLowerCase).2).2

/-- Witness of C1 on `namesRun`: the ids are fresh and the three names that
remain are pairwise different after lower-casing. -/
theorem category_names_unique_witness :
    allAlong asciiLower freshId (startup (fun _ => "s0") ["--Air-Horn.ogg"]) namesRun = true ∧
    (run asciiLower (startup (fun _ => "s0") ["--Air-Horn.ogg"]) namesRun).categories.map
        (fun c => c.name) = ["Uncategorized", "Songs", "Voices"] ∧
    NamesUnique asciiLower
      (run asciiLower (startup (fun _ => "s0") ["--Air-Horn.ogg"]) namesRun).categories :=
  ⟨by decide, by decide,
    category_names_unique asciiLower (initializeSoundsData (fun _ => "s0") ["--Air-Horn.ogg"])
      namesRun (by decide)⟩

/-! ## The default category -/

theorem eq_of_id_eq (cats : List Category) (hids : IdsUnique cats) (a b : Category)
    (ha : a ∈ cats) (hb : b ∈ cats) (hab : a.id = b.id) : a = b :=
  List.inj_on_of_nodup_map hids ha hb hab

theorem deleteCategory_refused_of_all (s : State) (categoryId : String) (confirmed : Bool)
    (h : ∀ c ∈ s.categories, c.id = categoryId → c.isDeletable = false) :
    deleteCategory s categoryId confirmed =
      (s, DeleteOutcome.alertCannotDelete (getCategoryName s.categories categoryId)) := by
  unfold deleteCategory
  split
  · rfl
  · rename_i c hfind
    have hc : c.isDeletable = false :=
      h c (List.mem_of_find?_eq_some hfind) (by simpa using List.find?_some hfind)
    simp [hc]

theorem deleteCategory_keeps (s : State) (categoryId : String) (confirmed : Bool) (a : Category)
    (ha : a ∈ s.categories) (hne : a.id ≠ categoryId) :
    a ∈ (deleteCategory s categoryId confirmed).1.categories := by
  unfold deleteCategory
  split
  · exact ha
  · split
    · exact ha
    · split
      · exact List.mem_filter.mpr ⟨ha, by simpa using hne⟩
      · exact ha

theorem deleteCategory_keeps_default (s : State) (categoryId : String) (confirmed : Bool)
    (hids : IdsUnique s.categories) (hmem : uncategorized ∈ s.categories) :
    uncategorized ∈ (deleteCategory s categoryId confirmed).1.categories := by
  by_cases hid : categoryId = "uncategorized"
  · have hall : ∀ c ∈ s.categories, c.id = categoryId → c.isDeletable = false := by
      intro c hc hcid
      have : c = uncategorized := eq_of_id_eq _ hids c uncategorized hc hmem (by rw [hcid, hid]; rfl)
      rw [this]
      rfl
    rw [deleteCategory_refused_of_all s categoryId confirmed hall]
    exact hmem
  · exact deleteCategory_keeps s categoryId confirmed uncategorized hmem (fun h => hid h.symm)

theorem renameCategory_keeps_default (toLowerCase : String → String) (cats : List Category)
    (categoryId currentName input : String) (hids : IdsUnique cats)
    (hmem : uncategorized ∈ cats)
    (hoffered : cats.any
      (fun cat => hasEditButton cat && cat.id == categoryId && cat.name == currentName) = true) :
    uncategorized ∈ (renameCategory toLowerCase cats categoryId currentName input).1 := by
  have hne : (uncategorized.id == categoryId) = false := by
    rw [List.any_eq_true] at hoffered
    obtain ⟨cat, hcat, hprop⟩ := hoffered
    simp only [Bool.and_eq_true, beq_iff_eq] at hprop
    rw [beq_eq_false_iff_ne]
    intro he
    have : cat = uncategorized :=
      eq_of_id_eq _ hids cat uncategorized hcat hmem (by rw [hprop.1.2, he])
    rw [this] at hprop
    exact absurd hprop.1.1 (by decide)
  unfold renameCategory
  simp only []
  split
  · exact mem_updateFirst_of_not _ _ _ _ hmem hne
  · split
    · exact hmem
    · split <;> exact hmem

theorem step_keeps_default (toLowerCase : String → String) (s : State) (e : Event)
    (hoffered : offeredByList s e = true) (hids : IdsUnique s.categories)
    (hmem : uncategorized ∈ s.categories) :
    uncategorized ∈ (step toLowerCase s e).categories := by
  cases e with
  | addCategory input newId =>
      show uncategorized ∈ (addCategory toLowerCase s.categories input newId).1
      unfold addCategory
      simp only []
      split
      · exact List.mem_append_left _ hmem
      · split <;> exact hmem
  | renameCategory categoryId currentName input =>
      exact renameCategory_keeps_default toLowerCase s.categories categoryId currentName input
        hids hmem hoffered
  | deleteCategory categoryId confirmed =>
      exact deleteCategory_keeps_default s categoryId confirmed hids hmem
  | saveEdit soundId nameValue colorValue categoryValue newCategoryValue newId =>
      show uncategorized ∈ (saveEdit toLowerCase s soundId nameValue colorValue categoryValue
        newCategoryValue newId).categories
      rcases saveEdit_categories toLowerCase s soundId nameValue colorValue categoryValue
          newCategoryValue newId with h | ⟨h, _⟩
      · rw [h]
        exact hmem
      · rw [h]
        exact List.mem_append_left _ hmem
  | upload genId genUrl files => exact hmem

theorem run_keeps_default (toLowerCase : String → String) (events : List Event) (s : State)
    (hfresh : allAlong toLowerCase freshId s events = true)
    (hoffered : allAlong toLowerCase offeredByList s events = true)
    (hids : IdsUnique s.categories) (hnames : NamesUnique toLowerCase s.categories)
    (hmem : uncategorized ∈ s.categories) :
    uncategorized ∈ (run toLowerCase s events).categories := by
  induction events generalizing s with
  | nil => exact hmem
  | cons e es ih =>
      unfold allAlong at hfresh hoffered
      rw [Bool.and_eq_true] at hfresh hoffered
      have h := step_unique toLowerCase s e hfresh.1 hids hnames
      exact ih (step toLowerCase s e) hfresh.2 hoffered.2 h.1 h.2
        (step_keeps_default toLowerCase s e hoffered.1 hids hmem)

/-! ## C2: the default category is kept -/

/-- C2, as stated, fails: the rename save handler does not look at
`isEditable`.  Called for the id `uncategorized` on the initial registry with
the new name `Misc`, it saves, and the default category is then named `Misc`. -/
theorem rename_default_counterexample :
    uncategorized.isEditable = false ∧
    renameCategory asciiLower [uncategorized] "uncategorized" "Uncategorized" "Misc" =
      ([{ id := "uncategorized", name := "Misc", isDeletable := false, isEditable := false }],
        RenameOutcome.saved) ∧
    (run asciiLower (startup (fun _ => "s0") [])
        [Event.renameCategory "uncategorized" "Uncategorized" "Misc"]).categories.map
      (fun c => c.name) = ["Misc"] := by
  decide

/-- C2, amended: after any finite sequence of events in which generated ids
are fresh and every rename is started from the edit button of a listed
category (`renderCategoryList` gives that button only to a category whose
`isEditable` is not `false`), the registry still contains the record with id
`uncategorized`, name `Uncategorized` and both flags `false`, and it is the
only record with that id; the list offers no rename for a category whose
`isEditable` is `false`; and `deleteCategory` aimed at a category whose
`isDeletable` is `false` changes nothing. -/
theorem default_category_kept (toLowerCase : String → String) (soundsData : List Sound)
    (events : List Event)
    (hfresh : allAlong toLowerCase freshId
      { soundsData := soundsData, categories := [uncategorized] } events = true)
    (hoffered : allAlong toLowerCase offeredByList
      { soundsData := soundsData, categories := [uncategorized] } events = true) :
    uncategorized ∈ (run toLowerCase
      { soundsData := soundsData, categories := [uncategorized] } events).categories ∧
    (∀ c ∈ (run toLowerCase
        { soundsData := soundsData, categories := [uncategorized] } events).categories,
      c.id = "uncategorized" → c = uncategorized) ∧
    (∀ c ∈ (run toLowerCase
        { soundsData := soundsData, categories := [uncategorized] } events).categories,
      c.isEditable = false → ∀ currentName input : String,
        offeredByList (run toLowerCase
          { soundsData := soundsData, categories := [uncategorized] } events)
          (Event.renameCategory c.id currentName input) = false) ∧
    (∀ c ∈ (run toLowerCase
        { soundsData := soundsData, categories := [uncategorized] } events).categories,
      c.isDeletable = false → ∀ confirmed : Bool,
        (deleteCategory (run toLowerCase
          { soundsData := soundsData, categories := [uncategorized] } events) c.id confirmed).1 =
          run toLowerCase { soundsData := soundsData, categories := [uncategorized] } events) := by
  have hu := run_unique toLowerCase events _ hfresh (initial_unique toLowerCase).1
    (initial_unique toLowerCase).2
  have hmem := run_keeps_default toLowerCase events _ hfresh hoffered
    (initial_unique toLowerCase).1 (initial_unique toLowerCase).2 (List.mem_singleton.mpr rfl)
  refine ⟨hmem, ?_, ?_, ?_⟩
  · intro c hc hid
    exact eq_of_id_eq _ hu.1 c uncategorized hc hmem hid
  · intro c hc hedit currentName input
    unfold offeredByList
    rw [List.any_eq_false]
    intro cat hcat hprop
    simp only [Bool.and_eq_true, beq_iff_eq] at hprop
    have : cat = c := eq_of_id_eq _ hu.1 cat c hcat hc hprop.1.2
    rw [this] at hprop
    have hb := hprop.1.1
    unfold hasEditButton at hb
    rw [hedit] at hb
    exact absurd hb (by decide)
  · intro c hc hdel confirmed
    rw [deleteCategory_refused_of_all _ c.id confirmed]
    intro c' hc' hid
    rw [eq_of_id_eq _ hu.1 c' c hc' hc hid]
    exact hdel

/-- Witness of the amended C2 on `defaultRun`. -/
theorem default_category_kept_witness :
    allAlong asciiLower freshId { soundsData := [], categories := [uncategorized] } defaultRun
      = true ∧
    allAlong asciiLower offeredByList { soundsData := [], categories := [uncategorized] }
      defaultRun = true ∧
    (run asciiLower { soundsData := [], categories := [uncategorized] } defaultRun).categories
      = [uncategorized,
         { id := "c2", name := "Music", isDeletable := true, isEditable := true }] ∧
    uncategorized ∈
      (run asciiLower { soundsData := [], categories := [uncategorized] } defaultRun).categories :=
  ⟨by decide, by decide, by decide,
    (default_category_kept asciiLower [] defaultRun (by decide) (by decide)).1⟩

/-! ## Registration of sounds -/

theorem uploadLoop_appends (genId genUrl : Nat → String) (files : List File) :
    ∀ (k : Nat) (soundsData : List Sound), ∃ added : List Sound,
      (uploadLoop genId genUrl k files soundsData).1 = soundsData ++ added ∧
      added.map (fun x => x.originalName)
        = (files.filter (fun f => f.type == "audio/ogg")).map (fun f => f.name) ∧
      (∀ x ∈ added, IsFreshUpload x) ∧
      added.map (fun x => x.color)
        = (List.range added.length).map (fun j => colorAt (soundsData.length + j)) ∧
      (uploadLoop genId genUrl k files soundsData).2
        = (files.filter (fun f => f.type != "audio/ogg")).map (fun f => f.name) := by
  induction files with
  | nil =>
      intro k soundsData
      exact ⟨[], by simp [uploadLoop], rfl, by simp, rfl, rfl⟩
  | cons file rest ih =>
      intro k soundsData
      unfold uploadLoop
      by_cases ht : file.type = "audio/ogg"
      · have hc : ¬ (file.type != "audio/ogg") = true := by simp [ht]
        rw [if_neg hc]
        obtain ⟨added, happ, hnames, hfields, hcolors, hskipped⟩ := ih (k + 1)
          (soundsData ++ [uploadedSound (genId k) (genUrl k) file soundsData.length])
        refine ⟨uploadedSound (genId k) (genUrl k) file soundsData.length :: added, ?_, ?_, ?_,
          ?_, ?_⟩
        · rw [happ, List.append_assoc]
          rfl
        · simp [ht, hnames, uploadedSound]
        · intro x hx
          rcases List.mem_cons.mp hx with hx | hx
          · subst hx
            exact ⟨rfl, rfl, rfl, rfl, rfl, rfl⟩
          · exact hfields x hx
        · rw [List.map_cons, hcolors, List.length_cons, List.range_succ_eq_map, List.map_cons,
            List.map_map]
          simp [uploadedSound, Nat.add_assoc, Nat.add_comm 1, Function.comp_def]
        · rw [hskipped]
          simp [ht]
      · have hc : (file.type != "audio/ogg") = true := by simp [ht]
        rw [if_pos hc]
        obtain ⟨added, happ, hnames, hfields, hcolors, hskipped⟩ := ih (k + 1) soundsData
        refine ⟨added, happ, ?_, hfields, hcolors, ?_⟩
        · simp [ht, hnames]
        · simp [ht, hskipped]

theorem registerUploads_appends (genId genUrl : Nat → String) (files : List File)
    (soundsData : List Sound) : ∃ added : List Sound,
      (registerUploads genId genUrl files soundsData).1 = soundsData ++ added ∧
      added.map (fun x => x.originalName)
        = (files.filter (fun f => f.type == "audio/ogg")).map (fun f => f.name) ∧
      (∀ x ∈ added, IsFreshUpload x) ∧
      added.map (fun x => x.color)
        = (List.range added.length).map (fun j => colorAt (soundsData.length + j)) ∧
      (registerUploads genId genUrl files soundsData).2
        = (files.filter (fun f => f.type != "audio/ogg")).map (fun f => f.name) := by
  unfold registerUploads
  split
  · rename_i h
    have hnil : files = [] := List.length_eq_zero.mp h
    subst hnil
    exact ⟨[], by simp, rfl, by simp, rfl, rfl⟩
  · exact uploadLoop_appends genId genUrl files 0 soundsData

theorem initializeFrom_spec (genId : Nat → String) (manifest : List String) :
    ∀ colorIndex : Nat,
      (initializeFrom genId colorIndex manifest).map (fun x => x.originalName) = manifest ∧
      (initializeFrom genId colorIndex manifest).map (fun x => x.name)
        = manifest.map displayName ∧
      (initializeFrom genId colorIndex manifest).map (fun x => x.color)
        = (List.range manifest.length).map (fun i => colorAt (colorIndex + i)) ∧
      (∀ x ∈ initializeFrom genId colorIndex manifest, IsFreshProvisioned x) := by
  induction manifest with
  | nil =>
      intro colorIndex
      exact ⟨rfl, rfl, rfl, by simp [initializeFrom]⟩
  | cons fileName rest ih =>
      intro colorIndex
      obtain ⟨h1, h2, h3, h4⟩ := ih (colorIndex + 1)
      unfold initializeFrom
      refine ⟨?_, ?_, ?_, ?_⟩
      · rw [List.map_cons, h1]
        rfl
      · rw [List.map_cons, h2]
        rfl
      · rw [List.map_cons, h3, List.length_cons, List.range_succ_eq_map, List.map_cons,
          List.map_map]
        simp [provisionedSound, Nat.add_assoc, Nat.add_comm 1, Function.comp_def]
      · intro x hx
        rcases List.mem_cons.mp hx with hx | hx
        · subst hx
          exact ⟨rfl, rfl, rfl, rfl, rfl, rfl⟩
        · exact h4 x hx

/-! ## Sounds reference listed categories -/

theorem headDefault_mem (cats : List Category) (h : HeadDefault cats) :
    "uncategorized" ∈ categoryIds cats := by
  obtain ⟨d, rest, hcats, hid, _⟩ := h
  subst hcats
  simp [categoryIds, hid]

theorem headDefault_append (cats : List Category) (c : Category) (h : HeadDefault cats) :
    HeadDefault (cats ++ [c]) := by
  obtain ⟨d, rest, hcats, hid, hdel⟩ := h
  exact ⟨d, rest ++ [c], by rw [hcats]; rfl, hid, hdel⟩

theorem headDefault_updateFirst (p : Category → Bool) (newName : String) (cats : List Category)
    (h : HeadDefault cats) :
    HeadDefault (updateFirst p (fun c => { c with name := newName }) cats) := by
  obtain ⟨d, rest, hcats, hid, hdel⟩ := h
  subst hcats
  unfold updateFirst
  by_cases hp : p d = true
  · rw [if_pos hp]
    exact ⟨_, rest, rfl, hid, hdel⟩
  · rw [if_neg hp]
    exact ⟨d, _, rfl, hid, hdel⟩

theorem categoriesExist_mono (soundsData : List Sound) (cats cats2 : List Category)
    (hsub : ∀ x ∈ categoryIds cats, x ∈ categoryIds cats2)
    (h : CategoriesExist { soundsData := soundsData, categories := cats }) :
    CategoriesExist { soundsData := soundsData, categories := cats2 } :=
  fun sound hs => hsub _ (h sound hs)

theorem addCategory_exist (toLowerCase : String → String) (cats : List Category)
    (input newId : String) :
    (HeadDefault cats → HeadDefault (addCategory toLowerCase cats input newId).1) ∧
    ∀ x ∈ categoryIds cats, x ∈ categoryIds (addCategory toLowerCase cats input newId).1 := by
  unfold addCategory
  simp only []
  split
  · refine ⟨headDefault_append _ _, ?_⟩
    intro x hx
    rw [categoryIds_append]
    exact List.mem_append_left _ hx
  · split <;> exact ⟨id, fun _ hx => hx⟩

theorem renameCategory_headDefault (toLowerCase : String → String) (cats : List Category)
    (categoryId currentName input : String) (h : HeadDefault cats) :
    HeadDefault (renameCategory toLowerCase cats categoryId currentName input).1 := by
  unfold renameCategory
  simp only []
  split
  · exact headDefault_updateFirst _ _ _ h
  · split
    · exact h
    · split <;> exact h

theorem deleteCategory_exist (s : State) (categoryId : String) (confirmed : Bool)
    (hhead : HeadDefault s.categories) (hex : CategoriesExist s) :
    HeadDefault (deleteCategory s categoryId confirmed).1.categories ∧
      CategoriesExist (deleteCategory s categoryId confirmed).1 := by
  unfold deleteCategory
  split
  · exact ⟨hhead, hex⟩
  · rename_i c hfind
    split
    · exact ⟨hhead, hex⟩
    · rename_i hdel
      split
      · obtain ⟨d, rest, hcats, hid, hddel⟩ := hhead
        have hne : d.id ≠ categoryId := by
          intro he
          rw [hcats] at hfind
          have hd : (d.id == categoryId) = true := by simpa using he
          simp only [List.find?_cons, hd] at hfind
          have hcd : d = c := Option.some.inj hfind
          rw [← hcd, hddel] at hdel
          exact hdel rfl
        have hkeep : (d.id != categoryId) = true := by simpa using hne
        have hhead2 : HeadDefault (s.categories.filter (fun cat => cat.id != categoryId)) := by
          rw [hcats]
          simp only [List.filter_cons, hkeep, if_true]
          exact ⟨d, _, rfl, hid, hddel⟩
        refine ⟨hhead2, ?_⟩
        intro sound hs
        simp only [List.mem_map] at hs
        obtain ⟨old, hold, hsound⟩ := hs
        by_cases hc : old.category = categoryId
        · have : sound.category = "uncategorized" := by
            rw [← hsound]
            simp [hc]
          rw [this]
          exact headDefault_mem _ hhead2
        · have hsame : sound = old := by
            rw [← hsound]
            simp [hc]
          rw [hsame]
          have hold2 := hex old hold
          simp only [categoryIds, List.mem_map] at hold2 ⊢
          obtain ⟨cat, hcat, hcatid⟩ := hold2
          refine ⟨cat, List.mem_filter.mpr ⟨hcat, ?_⟩, hcatid⟩
          rw [← hcatid] at hc
          simpa using hc
      · exact ⟨hhead, hex⟩

theorem updateFirst_exist (soundsData : List Sound) (cats : List Category)
    (p : Sound → Bool) (f : Sound → Sound)
    (hf : ∀ a, (f a).category ∈ categoryIds cats)
    (hex : ∀ sound ∈ soundsData, sound.category ∈ categoryIds cats) :
    ∀ sound ∈ updateFirst p f soundsData, sound.category ∈ categoryIds cats := by
  intro sound hs
  rcases mem_updateFirst p f soundsData sound hs with h | ⟨a, _, _, ha⟩
  · exact hex sound h
  · rw [ha]
    exact hf a

theorem saveEdit_exist (toLowerCase : String → String) (s : State)
    (soundId nameValue colorValue categoryValue newCategoryValue newId : String)
    (hsel : (decide (trim newCategoryValue ≠ "") ||
      (categoryIds s.categories).contains categoryValue) = true)
    (hhead : HeadDefault s.categories) (hex : CategoriesExist s) :
    HeadDefault (saveEdit toLowerCase s soundId nameValue colorValue categoryValue
        newCategoryValue newId).categories ∧
      CategoriesExist (saveEdit toLowerCase s soundId nameValue colorValue categoryValue
        newCategoryValue newId) := by
  unfold saveEdit
  split
  · exact ⟨hhead, hex⟩
  · simp only []
    split
    · split
      · rename_i existing hfind
        refine ⟨hhead, updateFirst_exist _ _ _ _ (fun a => ?_) hex⟩
        exact List.mem_map_of_mem (fun c => c.id) (List.mem_of_find?_eq_some hfind)
      · refine ⟨headDefault_append _ _ hhead, updateFirst_exist _ _ _ _ (fun a => ?_) ?_⟩
        · rw [categoryIds_append]
          exact List.mem_append_right _ (List.mem_singleton.mpr rfl)
        · intro sound hs
          rw [categoryIds_append]
          exact List.mem_append_left _ (hex sound hs)
    · rename_i hempty
      refine ⟨hhead, updateFirst_exist _ _ _ _ (fun a => ?_) hex⟩
      have hc : (categoryIds s.categories).contains categoryValue = true := by
        rcases Bool.or_eq_true _ _ ▸ hsel with h | h
        · exact absurd (of_decide_eq_true h) (by simpa using hempty)
        · exact h
      simpa using hc

theorem step_exist (toLowerCase : String → String) (s : State) (e : Event)
    (hsel : selectsListedCategory s e = true)
    (hhead : HeadDefault s.categories) (hex : CategoriesExist s) :
    HeadDefault (step toLowerCase s e).categories ∧ CategoriesExist (step toLowerCase s e) := by
  cases e with
  | addCategory input newId =>
      have h := addCategory_exist toLowerCase s.categories input newId
      exact ⟨h.1 hhead, categoriesExist_mono s.soundsData s.categories _ h.2 hex⟩
  | renameCategory categoryId currentName input =>
      refine ⟨renameCategory_headDefault toLowerCase _ categoryId currentName input hhead, ?_⟩
      refine categoriesExist_mono s.soundsData s.categories _ ?_ hex
      intro x hx
      rw [renameCategory_ids]
      exact hx
  | deleteCategory categoryId confirmed => exact deleteCategory_exist s categoryId confirmed hhead hex
  | saveEdit soundId nameValue colorValue categoryValue newCategoryValue newId =>
      exact saveEdit_exist toLowerCase s soundId nameValue colorValue categoryValue
        newCategoryValue newId hsel hhead hex
  | upload genId genUrl files =>
      refine ⟨hhead, ?_⟩
      obtain ⟨added, happ, _, hfields, _, _⟩ :=
        registerUploads_appends genId genUrl files s.soundsData
      intro sound hs
      have hs2 : sound ∈ s.soundsData ++ added := happ ▸ hs
      rcases List.mem_append.mp hs2 with h | h
      · exact hex sound h
      · rw [(hfields sound h).2.2.2.1]
        exact headDefault_mem _ hhead

theorem run_exist (toLowerCase : String → String) (events : List Event) (s : State)
    (hsel : allAlong toLowerCase selectsListedCategory s events = true)
    (hhead : HeadDefault s.categories) (hex : CategoriesExist s) :
    CategoriesExist (run toLowerCase s events) := by
  induction events generalizing s with
  | nil => exact hex
  | cons e es ih =>
      unfold allAlong at hsel
      rw [Bool.and_eq_true] at hsel
      have h := step_exist toLowerCase s e hsel.1 hhead hex
      exact ih (step toLowerCase s e) hsel.2 h.1 h.2

theorem startup_exist (genId : Nat → String) (manifest : List String) :
    HeadDefault (startup genId manifest).categories ∧ CategoriesExist (startup genId manifest) := by
  refine ⟨⟨uncategorized, [], rfl, rfl, rfl⟩, ?_⟩
  intro sound hs
  rw [((initializeFrom_spec genId manifest 0).2.2.2 sound hs).2.2.2.1]
  exact List.mem_singleton.mpr rfl

/-! ## C3: every sound's category is a listed category -/

/-- C3, as stated, fails: the save handler of a sound edit assigns the value of
the category select without checking it.  With the value `ghost` the sound
ends in a category whose id no record of the registry has. -/
theorem unlisted_category_counterexample :
    (run asciiLower (startup (fun _ => "s0") ["boo_sound.ogg"])
        [Event.saveEdit "s0" "" "blue" "ghost" "" "c1"]).soundsData.map (fun x => x.category)
      = ["ghost"] ∧
    categoryIds (run asciiLower (startup (fun _ => "s0") ["boo_sound.ogg"])
        [Event.saveEdit "s0" "" "blue" "ghost" "" "c1"]).categories = ["uncategorized"] := by
  decide

/-- C3, amended: start from any manifest and apply any finite sequence of
uploads, sound-edit saves, category creations, renames and deletions, where
each sound-edit save either carries a new category name that is non-empty
after trimming or carries in its category select the id of a category of the
registry at that moment.  Then every sound's `category` is the id of some
category in the registry. -/
theorem sound_categories_exist (toLowerCase : String → String) (genId : Nat → String)
    (manifest : List String) (events : List Event)
    (hsel : allAlong toLowerCase selectsListedCategory (startup genId manifest) events = true) :
    ∀ sound ∈ (run toLowerCase (startup genId manifest) events).soundsData,
      ∃ cat ∈ (run toLowerCase (startup genId manifest) events).categories,
        cat.id = sound.category := by
  intro sound hs
  have h := run_exist toLowerCase events (startup genId manifest) hsel
    (startup_exist genId manifest).1 (startup_exist genId manifest).2 sound hs
  simpa [categoryIds] using h

/-- Witness of the amended C3 on `catalogRun` after the scenario manifest. -/
theorem sound_categories_exist_witness :
    allAlong asciiLower selectsListedCategory
      (startup (fun _ => "s0") ["--Air-Horn.ogg"]) catalogRun = true ∧
    (run asciiLower (startup (fun _ => "s0") ["--Air-Horn.ogg"]) catalogRun).soundsData.map
      (fun x => x.category) = ["uncategorized", "c3"] ∧
    categoryIds (run asciiLower (startup (fun _ => "s0") ["--Air-Horn.ogg"]) catalogRun).categories
      = ["uncategorized", "c3"] ∧
    ∀ sound ∈ (run asciiLower (startup (fun _ => "s0") ["--Air-Horn.ogg"]) catalogRun).soundsData,
      ∃ cat ∈ (run asciiLower (startup (fun _ => "s0") ["--Air-Horn.ogg"]) catalogRun).categories,
        cat.id = sound.category :=
  ⟨by decide, by decide, by decide,
    sound_categories_exist asciiLower (fun _ => "s0") ["--Air-Horn.ogg"] catalogRun (by decide)⟩

/-! ## C4 and C5: deleting a category -/

theorem find_of_mem (cats : List Category) (hids : IdsUnique cats) (c : Category)
    (hmem : c ∈ cats) : cats.find? (fun cat => cat.id == c.id) = some c := by
  cases hfind : cats.find? (fun cat => cat.id == c.id) with
  | none =>
      have := List.find?_eq_none.mp hfind c hmem
      simp at this
  | some c2 =>
      have hid : c2.id = c.id := by simpa using List.find?_some hfind
      rw [eq_of_id_eq cats hids c2 c (List.mem_of_find?_eq_some hfind) hmem hid]

theorem filter_id_eq_erase (cats : List Category) (hids : IdsUnique cats) (c : Category)
    (hmem : c ∈ cats) : cats.filter (fun cat => cat.id != c.id) = cats.erase c := by
  induction cats with
  | nil => simp at hmem
  | cons a as ih =>
      have hids2 : a.id ∉ categoryIds as ∧ IdsUnique as := by
        unfold IdsUnique categoryIds at hids
        rw [List.map_cons, List.nodup_cons] at hids
        exact hids
      by_cases hac : a = c
      · subst hac
        have hrest : ∀ x ∈ as, (x.id != a.id) = true := by
          intro x hx
          rw [bne_iff_ne]
          intro he
          exact hids2.1 (he ▸ List.mem_map_of_mem (fun c => c.id) hx)
        simp only [List.filter_cons, bne_self_eq_false, Bool.false_eq_true, if_false,
          List.erase_cons_head]
        exact List.filter_eq_self.mpr hrest
      · have hne : a.id ≠ c.id := fun he =>
          hac (eq_of_id_eq _ hids a c (List.mem_cons_self _ _) hmem he)
        have hkeep : (a.id != c.id) = true := by simpa using hne
        have hmem2 : c ∈ as := by
          rcases List.mem_cons.mp hmem with h | h
          · exact absurd h.symm hac
          · exact h
        have hbeq : (a == c) = false := by simpa using hac
        simp only [List.filter_cons, hkeep, if_true]
        rw [List.erase_cons_tail (by simp [hbeq]), ih hids2.2 hmem2]

/-- C4: in a registry with pairwise distinct ids, a confirmed `deleteCategory`
for a listed deletable category reports the deletion; position by position,
every sound of that category has only its `category` changed, to
`uncategorized`, and every other sound is unchanged; and the registry is the
old one with that one record erased, the rest in the old order. -/
theorem deleteCategory_confirmed (s : State) (c : Category)
    (hids : IdsUnique s.categories) (hmem : c ∈ s.categories) (hdel : c.isDeletable = true) :
    (deleteCategory s c.id true).2 = DeleteOutcome.deleted ∧
    List.Forall₂ (MovedToDefault c.id) s.soundsData (deleteCategory s c.id true).1.soundsData ∧
    (deleteCategory s c.id true).1.categories = s.categories.erase c ∧
    (deleteCategory s c.id true).1.categories.Sublist s.categories ∧
    (∀ x, x ∈ (deleteCategory s c.id true).1.categories ↔ x ∈ s.categories ∧ x.id ≠ c.id) ∧
    (deleteCategory s c.id true).1.categories.length + 1 = s.categories.length := by
  have hrun : deleteCategory s c.id true =
      ({ soundsData := s.soundsData.map (fun sound =>
            if sound.category == c.id then { sound with category := "uncategorized" } else sound)
         categories := s.categories.filter (fun cat => cat.id != c.id) },
        DeleteOutcome.deleted) := by
    unfold deleteCategory
    rw [find_of_mem s.categories hids c hmem]
    simp [hdel]
  rw [hrun]
  refine ⟨rfl, ?_, filter_id_eq_erase s.categories hids c hmem, List.filter_sublist _, ?_, ?_⟩
  · rw [List.forall₂_map_right_iff]
    refine List.forall₂_same.mpr (fun sound _ => ⟨fun h => ?_, fun h => ?_⟩)
    · simp [h]
    · simp [h]
  · intro x
    simp [List.mem_filter]
  · show (s.categories.filter (fun cat => cat.id != c.id)).length + 1 = s.categories.length
    rw [filter_id_eq_erase s.categories hids c hmem, List.length_erase_of_mem hmem]
    have : 0 < s.categories.length := List.length_pos_of_mem hmem
    omega

/-- Witness of C4, the scenario of the spec: create `SFX`, assign a sound to
it, delete `SFX`; the sound is then in `uncategorized` and `SFX` is gone. -/
theorem deleteCategory_confirmed_witness :
    sfxState.soundsData.map (fun x => x.category) = ["c1"] ∧
    sfxState.categories.map (fun x => x.name) = ["Uncategorized", "SFX"] ∧
    (deleteCategory sfxState "c1" true).1.soundsData.map (fun x => x.category)
      = ["uncategorized"] ∧
    (deleteCategory sfxState "c1" true).1.categories = [uncategorized] ∧
    (deleteCategory sfxState "c1" true).2 = DeleteOutcome.deleted :=
  ⟨by decide, by decide, by decide, by decide,
    (deleteCategory_confirmed sfxState
      { id := "c1", name := "SFX", isDeletable := true, isEditable := true }
      (by unfold IdsUnique; decide) (by decide) rfl).1⟩

/-- C5: in a registry with pairwise distinct ids, `deleteCategory` for an id
that no category has, or that a category whose `isDeletable` is `false` has,
shows the cannot-delete alert and returns the state as it was: the registry and
every sound, so every sound's category, are unchanged. -/
theorem deleteCategory_refused (s : State) (categoryId : String) (confirmed : Bool)
    (hids : IdsUnique s.categories)
    (h : (∀ c ∈ s.categories, c.id ≠ categoryId) ∨
      (∃ c ∈ s.categories, c.id = categoryId ∧ c.isDeletable = false)) :
    (deleteCategory s categoryId confirmed).1 = s ∧
    (deleteCategory s categoryId confirmed).2 =
      DeleteOutcome.alertCannotDelete (getCategoryName s.categories categoryId) := by
  have hall : ∀ c ∈ s.categories, c.id = categoryId → c.isDeletable = false := by
    intro c hc hid
    rcases h with h | ⟨c2, hc2, hid2, hdel⟩
    · exact absurd hid (h c hc)
    · rw [eq_of_id_eq _ hids c c2 hc hc2 (hid.trans hid2.symm)]
      exact hdel
  rw [deleteCategory_refused_of_all s categoryId confirmed hall]
  exact ⟨rfl, rfl⟩

/-- Witness of C5 on the scenario state: the default category, which is not
deletable, is aimed at; the state stays as it was and the alert names it. -/
theorem deleteCategory_refused_witness :
    (deleteCategory sfxState "uncategorized" true).1 = sfxState ∧
    (deleteCategory sfxState "uncategorized" true).2 =
      DeleteOutcome.alertCannotDelete (getCategoryName sfxState.categories "uncategorized") :=
  deleteCategory_refused sfxState "uncategorized" true (by unfold IdsUnique; decide)
    (Or.inr ⟨uncategorized, by decide, rfl, rfl⟩)

/-! ## C6: creating a category -/

/-- C6: the add-category handler, for every input, registry and generated id:
a name that is empty after trimming gives the empty-name alert; a non-empty
trimmed name whose lower case equals the lower-cased name of a listed category
gives the exists-or-invalid alert; in both cases the registry is unchanged;
otherwise exactly one record is appended at the end, with the trimmed name and
both flags `true`. -/
theorem addCategory_spec (toLowerCase : String → String) (categories : List Category)
    (input newId : String) :
    (trim input = "" →
      addCategory toLowerCase categories input newId = (categories, AddOutcome.alertEmpty)) ∧
    (trim input ≠ "" →
      (∃ cat ∈ categories, toLowerCase cat.name = toLowerCase (trim input)) →
      addCategory toLowerCase categories input newId
        = (categories, AddOutcome.alertExistsOrInvalid)) ∧
    (trim input ≠ "" →
      (∀ cat ∈ categories, toLowerCase cat.name ≠ toLowerCase (trim input)) →
      addCategory toLowerCase categories input newId
        = (categories ++
            [{ id := newId, name := trim input, isDeletable := true, isEditable := true }],
          AddOutcome.added)) := by
  refine ⟨fun hempty => ?_, fun hne hdup => ?_, fun hne hnew => ?_⟩
  · unfold addCategory
    simp [hempty]
  · have hany : categories.any (fun cat => toLowerCase cat.name == toLowerCase (trim input))
        = true := by
      rw [List.any_eq_true]
      obtain ⟨cat, hcat, heq⟩ := hdup
      exact ⟨cat, hcat, by simpa using heq⟩
    unfold addCategory
    simp [hne, hany]
  · have hany : categories.any (fun cat => toLowerCase cat.name == toLowerCase (trim input))
        = false := by
      rw [List.any_eq_false]
      intro cat hcat
      simpa using hnew cat hcat
    unfold addCategory
    simp [hne, hany]

/-- Witness of C6: blank input, a duplicate in another letter case, and a new
name, on the registry of the scenario state. -/
theorem addCategory_spec_witness :
    addCategory asciiLower sfxState.categories "   " "c9"
      = (sfxState.categories, AddOutcome.alertEmpty) ∧
    addCategory asciiLower sfxState.categories " sfx " "c9"
      = (sfxState.categories, AddOutcome.alertExistsOrInvalid) ∧
    addCategory asciiLower sfxState.categories " Music " "c9"
      = (sfxState.categories ++
          [{ id := "c9", name := "Music", isDeletable := true, isEditable := true }],
        AddOutcome.added) :=
  ⟨(addCategory_spec asciiLower sfxState.categories "   " "c9").1 (by decide),
    by decide,
    (addCategory_spec asciiLower sfxState.categories " Music " "c9").2.2 (by decide) (by decide)⟩

/-! ## C7: registered sounds and their colors -/

/-- C7: `initializeSoundsData` yields one sound per manifest entry in manifest
order; the sound at position `i` has color `availableButtonColors[i % 12]`, and
every sound is in `uncategorized`, not uploaded, without player, not loading
and without error.  In the catalog after an upload, the sound appended when the
catalog had size `k` has color `availableButtonColors[k % 12]`. -/
theorem registration_colors (genId genUrl : Nat → String) (manifest : List String)
    (files : List File) (soundsData : List Sound) :
    (initializeSoundsData genId manifest).map (fun x => x.originalName) = manifest ∧
    (initializeSoundsData genId manifest).map (fun x => x.color)
      = (List.range manifest.length).map colorAt ∧
    (∀ x ∈ initializeSoundsData genId manifest, IsFreshProvisioned x) ∧
    ((registerUploads genId genUrl files soundsData).1.drop soundsData.length).map
        (fun x => x.color)
      = (List.range ((registerUploads genId genUrl files soundsData).1.length
          - soundsData.length)).map (fun j => colorAt (soundsData.length + j)) ∧
    availableButtonColors.length = 12 ∧
    (∀ i : Nat, availableButtonColors.get? (i % 12) = some (colorAt i)) := by
  obtain ⟨h1, _, h3, h4⟩ := initializeFrom_spec genId manifest 0
  obtain ⟨added, happ, _, _, hcolors, _⟩ := registerUploads_appends genId genUrl files soundsData
  refine ⟨h1, ?_, h4, ?_, rfl, ?_⟩
  · unfold initializeSoundsData
    rw [h3]
    simp
  · rw [happ]
    simp [hcolors]
  · intro i
    unfold colorAt
    rw [List.get?_eq_get]
    rfl

/-- Witness of C7, the scenario of the spec: the manifest of two files gives
`Air Horn` in blue and `Boo Sound` in green, both in `uncategorized`; a file
uploaded next is red. -/
theorem registration_colors_witness :
    (initializeSoundsData (fun _ => "s0") ["--Air-Horn.ogg", "boo_sound.ogg"]).map
        (fun x => (x.name, x.color, x.category))
      = [("Air Horn", "blue", "uncategorized"), ("Boo Sound", "green", "uncategorized")] ∧
    ((registerUploads (fun _ => "u0") (fun _ => "blob:0")
        [{ name := "clap.ogg", type := "audio/ogg" }]
        (initializeSoundsData (fun _ => "s0") ["--Air-Horn.ogg", "boo_sound.ogg"])).1.drop 2).map
        (fun x => x.color) = ["red"] ∧
    (initializeSoundsData (fun _ => "s0") ["--Air-Horn.ogg", "boo_sound.ogg"]).map
        (fun x => x.color) = (List.range 2).map colorAt :=
  ⟨by decide, by decide,
    (registration_colors (fun _ => "s0") (fun _ => "blob:0")
      ["--Air-Horn.ogg", "boo_sound.ogg"] [] []).2.1⟩

/-! ## C9: display name of an upload -/

theorem uploadDisplayName_eq (fileName : String)
    (h : "--".data.isPrefixOf (replaceOggSuffix fileName.data) = false) :
    uploadDisplayName fileName = displayName fileName := by
  unfold uploadDisplayName displayName uploadDisplayNameChars displayNameChars
  simp [h]

/-- C9 fails on the code at the file name `--Air-Horn.ogg`: the upload handler
derives its display name without removing the leading `--` that
`initializeSoundsData` removes, so the upload is named with two leading spaces
and the provisioned sound is not. -/
theorem upload_name_differs :
    uploadDisplayName "--Air-Horn.ogg" = "  Air Horn" ∧
    displayName "--Air-Horn.ogg" = "Air Horn" ∧
    uploadDisplayName "--Air-Horn.ogg" ≠ displayName "--Air-Horn.ogg" := by
  decide

/-! ## C10: registration of uploads -/

/-- C10: the upload handler keeps every sound the catalog had, in place, and
appends behind them one sound per file whose declared type is `audio/ogg`, in
the order of the files and with the fields of a fresh upload (uploaded,
loading, no error, in `uncategorized`); the files of any other type are
skipped and reported; and when no file has type `audio/ogg` the catalog is
unchanged. -/
theorem registerUploads_spec (genId genUrl : Nat → String) (files : List File)
    (soundsData : List Sound) :
    (registerUploads genId genUrl files soundsData).1.take soundsData.length = soundsData ∧
    ((registerUploads genId genUrl files soundsData).1.drop soundsData.length).map
        (fun x => x.originalName)
      = (files.filter (fun f => f.type == "audio/ogg")).map (fun f => f.name) ∧
    (∀ x ∈ (registerUploads genId genUrl files soundsData).1.drop soundsData.length,
      x.isUploaded = true ∧ x.isLoading = true ∧ x.hasError = false ∧
        x.category = "uncategorized") ∧
    (registerUploads genId genUrl files soundsData).1.length
      = soundsData.length + (files.filter (fun f => f.type == "audio/ogg")).length ∧
    (registerUploads genId genUrl files soundsData).2
      = (files.filter (fun f => f.type != "audio/ogg")).map (fun f => f.name) ∧
    ((∀ f ∈ files, f.type ≠ "audio/ogg") →
      (registerUploads genId genUrl files soundsData).1 = soundsData) := by
  obtain ⟨added, happ, hnames, hfields, _, hskipped⟩ :=
    registerUploads_appends genId genUrl files soundsData
  have hlen : added.length = (files.filter (fun f => f.type == "audio/ogg")).length := by
    have := congrArg List.length hnames
    simpa using this
  rw [happ]
  refine ⟨by simp, by simpa using hnames, ?_, by simp [hlen], hskipped, ?_⟩
  · intro x hx
    have hx2 : x ∈ added := by simpa using hx
    obtain ⟨h1, h2, h3, h4, _, _⟩ := hfields x hx2
    exact ⟨h1, h2, h3, h4⟩
  · intro hnone
    have hfil : files.filter (fun f => f.type == "audio/ogg") = [] := by
      rw [List.filter_eq_nil_iff]
      intro f hf
      simpa using hnone f hf
    rw [hfil] at hlen
    rw [List.length_eq_zero.mp hlen]
    simp

/-- Witness of C10, the scenario of the spec: a selection with one `audio/wav`
file leaves the catalog as it was and reports the file. -/
theorem registerUploads_spec_witness :
    (registerUploads (fun _ => "u0") (fun _ => "blob:0")
        [{ name := "clap.wav", type := "audio/wav" }] sfxState.soundsData).1
      = sfxState.soundsData ∧
    (registerUploads (fun _ => "u0") (fun _ => "blob:0")
        [{ name := "clap.wav", type := "audio/wav" }] sfxState.soundsData).2 = ["clap.wav"] :=
  ⟨(registerUploads_spec (fun _ => "u0") (fun _ => "blob:0")
      [{ name := "clap.wav", type := "audio/wav" }] sfxState.soundsData).2.2.2.2.2 (by decide),
    by decide⟩

/-! ## C8: display name of a provisioned sound -/

theorem toLower_eq_dot (c : Char) : c.toLower = '.' ↔ c = '.' := by
  constructor
  · intro h
    unfold Char.toLower at h
    simp only [] at h
    split at h
    · rename_i hc
      exfalso
      have h2 := congrArg Char.toNat h
      obtain ⟨h65, h90⟩ := hc
      generalize c.toNat = n at *
      interval_cases n <;> revert h2 <;> decide
    · exact h
  · intro h
    subst h
    decide

theorem toUpper_eq_hyphen (c : Char) (h : c.toUpper = '-') : c = '-' := by
  unfold Char.toUpper at h
  simp only [] at h
  split at h
  · rename_i hc
    exfalso
    have h2 := congrArg Char.toNat h
    obtain ⟨h97, h122⟩ := hc
    generalize c.toNat = n at *
    interval_cases n <;> revert h2 <;> decide
  · exact h

theorem toUpper_eq_underscore (c : Char) (h : c.toUpper = '_') : c = '_' := by
  unfold Char.toUpper at h
  simp only [] at h
  split at h
  · rename_i hc
    exfalso
    have h2 := congrArg Char.toNat h
    obtain ⟨h97, h122⟩ := hc
    generalize c.toNat = n at *
    interval_cases n <;> revert h2 <;> decide
  · exact h

theorem matchesOggAtEnd_iff (l : List Char) :
    matchesOggAtEnd l = true ↔ (l.drop (l.length - 4)).map Char.toLower = ".ogg".data := by
  rw [← List.reverse_reverse l]
  generalize l.reverse = r
  unfold matchesOggAtEnd
  rw [List.reverse_reverse]
  rcases r with _ | ⟨g2, _ | ⟨g1, _ | ⟨o, _ | ⟨dot, rest⟩⟩⟩⟩
  · simp
  · simp
  · simp
  · simp
  · have hlen : (dot :: o :: g1 :: [g2]).length = 4 := rfl
    have hrev : (g2 :: g1 :: o :: dot :: rest).reverse = rest.reverse ++ [dot, o, g1, g2] := by
      simp
    have hdrop : (rest.reverse ++ [dot, o, g1, g2]).length - 4 = rest.reverse.length := by
      simp
    rw [hrev, hdrop, List.drop_left]
    simp [toLower_eq_dot, and_assoc]

theorem replaceOggSuffix_eq_spec (l : List Char) : replaceOggSuffix l = specStripExtension l := by
  unfold replaceOggSuffix specStripExtension
  by_cases h : (l.drop (l.length - 4)).map Char.toLower = ".ogg".data
  · rw [if_pos h, if_pos ((matchesOggAtEnd_iff l).mpr h)]
  · rw [if_neg h, if_neg (fun hm => h ((matchesOggAtEnd_iff l).mp hm))]

theorem stripDashes_eq_spec (l : List Char) :
    (if "--".data.isPrefixOf l then l.drop 2 else l) = specStripDashes l := by
  rcases l with _ | ⟨a, _ | ⟨b, t⟩⟩
  · simp [specStripDashes, List.isPrefixOf]
  · simp [specStripDashes, List.isPrefixOf]
  · by_cases ha : a = '-'
    · by_cases hb : b = '-'
      · subst ha hb
        simp [specStripDashes, List.isPrefixOf]
      · subst ha
        have hb2 : ¬ '-' = b := fun h => hb h.symm
        simp [specStripDashes, List.isPrefixOf, hb, hb2]
    · have ha2 : ¬ '-' = a := fun h => ha h.symm
      simp [specStripDashes, List.isPrefixOf, ha, ha2]

theorem replaceSeparators_eq_spec (l : List Char) : replaceSeparators l = specSpaces l := by
  unfold replaceSeparators specSpaces
  apply List.map_congr_left
  intro c _
  simp

theorem replaceSeparators_clean (l : List Char) :
    '-' ∉ replaceSeparators l ∧ '_' ∉ replaceSeparators l := by
  unfold replaceSeparators
  constructor
  · intro h
    obtain ⟨c, _, hc⟩ := List.mem_map.mp h
    by_cases hsep : (c == '-' || c == '_') = true
    · rw [if_pos hsep] at hc
      exact absurd hc (by decide)
    · rw [if_neg hsep] at hc
      subst hc
      simp at hsep
  · intro h
    obtain ⟨c, _, hc⟩ := List.mem_map.mp h
    by_cases hsep : (c == '-' || c == '_') = true
    · rw [if_pos hsep] at hc
      exact absurd hc (by decide)
    · rw [if_neg hsep] at hc
      subst hc
      simp at hsep

theorem capitalizeFrom_eq_spec (l : List Char) (hclean : '_' ∉ l) :
    ∀ before : Option Char,
      capitalizeFrom before l =
        List.zipWith
          (fun before c =>
            if (c.isAlpha || c.isDigit) && startsWord before then c.toUpper else c)
          (before :: l.map some) l := by
  induction l with
  | nil =>
      intro before
      rfl
  | cons c cs ih =>
      intro before
      have hc : c ≠ '_' := fun h => hclean (h ▸ List.mem_cons_self _ _)
      have hcs : '_' ∉ cs := fun h => hclean (List.mem_cons_of_mem _ h)
      unfold capitalizeFrom
      rw [List.map_cons, List.zipWith_cons_cons, ih hcs (some c)]
      congr 1
      have hw : isWordChar c = (c.isAlpha || c.isDigit) := by
        unfold isWordChar Char.isAlphanum
        simp [hc]
      have hcond : (wordBoundary before (some c) && isWordChar c)
          = ((c.isAlpha || c.isDigit) && startsWord before) := by
        unfold wordBoundary
        rw [← hw]
        cases before with
        | none => cases hword : isWordChar c <;> simp [startsWord, hword]
        | some b =>
            cases hword : isWordChar c <;> cases hb : isWordChar b <;>
              simp [startsWord, hword, hb]
      rw [hcond]

theorem mem_capitalizeFrom (l : List Char) :
    ∀ (before : Option Char) (c : Char), c ∈ capitalizeFrom before l →
      c ∈ l ∨ ∃ x ∈ l, c = x.toUpper := by
  induction l with
  | nil =>
      intro before c h
      simp [capitalizeFrom] at h
  | cons a as ih =>
      intro before c h
      unfold capitalizeFrom at h
      rcases List.mem_cons.mp h with h | h
      · by_cases hcond : (wordBoundary before (some a) && isWordChar a) = true
        · rw [if_pos hcond] at h
          exact Or.inr ⟨a, List.mem_cons_self _ _, h⟩
        · rw [if_neg hcond] at h
          exact Or.inl (h ▸ List.mem_cons_self _ _)
      · rcases ih (some a) c h with h2 | ⟨x, hx, hcx⟩
        · exact Or.inl (List.mem_cons_of_mem _ h2)
        · exact Or.inr ⟨x, List.mem_cons_of_mem _ hx, hcx⟩

theorem displayNameChars_clean (fileName : List Char) :
    '-' ∉ displayNameChars fileName ∧ '_' ∉ displayNameChars fileName := by
  unfold displayNameChars capitalizeWords
  simp only []
  generalize (if "--".data.isPrefixOf (replaceOggSuffix fileName) = true
    then List.drop 2 (replaceOggSuffix fileName) else replaceOggSuffix fileName) = d
  obtain ⟨h1, h2⟩ := replaceSeparators_clean d
  constructor
  · intro h
    rcases mem_capitalizeFrom _ none _ h with h | ⟨x, hx, hcx⟩
    · exact h1 h
    · exact h1 (toUpper_eq_hyphen x hcx.symm ▸ hx)
  · intro h
    rcases mem_capitalizeFrom _ none _ h with h | ⟨x, hx, hcx⟩
    · exact h2 h
    · exact h2 (toUpper_eq_underscore x hcx.symm ▸ hx)

/-- C8: for every file name (ASCII or not) the display name that
`initializeSoundsData` derives is the one the four steps of the spec give: one
trailing `.ogg` in any letter case removed, then a leading `--` removed, then
every `-` and `_` replaced by a space, then every letter or digit that is at
the start or follows a non-word character put in upper case.  The derived name
contains neither `-` nor `_`.  The two file names of the scenario give
`Air Horn` and `Boo Sound`. -/
theorem displayName_spec (fileName : String) :
    displayName fileName = specDisplayName fileName ∧
    '-' ∉ (displayName fileName).data ∧ '_' ∉ (displayName fileName).data ∧
    displayName "--Air-Horn.ogg" = "Air Horn" ∧ displayName "boo_sound.ogg" = "Boo Sound" := by
  refine ⟨?_, (displayNameChars_clean fileName.data).1, (displayNameChars_clean fileName.data).2,
    by decide, by decide⟩
  unfold displayName specDisplayName displayNameChars capitalizeWords specTitleCase
  simp only []
  rw [stripDashes_eq_spec, replaceOggSuffix_eq_spec, replaceSeparators_eq_spec,
    capitalizeFrom_eq_spec _ (replaceSeparators_eq_spec _ ▸ (replaceSeparators_clean _).2) none]

/-- Witness of C8 on a name with an upper-case extension, digits and both
separators. -/
theorem displayName_spec_witness :
    displayName "--drum_roll-2x.OGG" = "Drum Roll 2x" ∧
    displayName "--drum_roll-2x.OGG" = specDisplayName "--drum_roll-2x.OGG" :=
  ⟨by decide, (displayName_spec "--drum_roll-2x.OGG").1⟩

/-! ## C13: the view without sorting -/

theorem includesChars_nil (text : List Char) : includesChars text [] = true := by
  unfold includesChars
  rw [List.any_eq_true]
  exact ⟨text, by simp, by simp [List.isPrefixOf]⟩

theorem filtered_eq_spec (toLowerCase : String → String) (selectedCategoryId searchValue : String)
    (sourceData : List Sound) :
    (if toLowerCase searchValue ≠ "" then
      (if selectedCategoryId ≠ "all" then
        sourceData.filter (fun sound => sound.category == selectedCategoryId)
       else sourceData).filter
        (fun sound => includes (toLowerCase sound.name) (toLowerCase searchValue))
     else
      (if selectedCategoryId ≠ "all" then
        sourceData.filter (fun sound => sound.category == selectedCategoryId)
       else sourceData))
    = sourceData.filter (specVisible toLowerCase selectedCategoryId searchValue) := by
  have hempty : toLowerCase searchValue = "" →
      ∀ sound : Sound, includes (toLowerCase sound.name) (toLowerCase searchValue) = true := by
    intro h sound
    unfold includes
    rw [h]
    exact includesChars_nil _
  by_cases hall : selectedCategoryId = "all" <;> by_cases hterm : toLowerCase searchValue = ""
  · rw [if_neg (not_not.mpr hterm), if_neg (not_not.mpr hall)]
    symm
    rw [List.filter_eq_self]
    intro sound _
    simp [specVisible, hall, hempty hterm sound]
  · rw [if_pos hterm, if_neg (not_not.mpr hall)]
    apply List.filter_congr
    intro sound _
    simp [specVisible, hall]
  · rw [if_neg (not_not.mpr hterm), if_pos hall]
    apply List.filter_congr
    intro sound _
    simp [specVisible, hall, hempty hterm sound]
  · rw [if_pos hterm, if_pos hall, List.filter_filter]
    apply List.filter_congr
    intro sound _
    have hb : (selectedCategoryId == "all") = false := by simpa using hall
    simp only [specVisible, hb, Bool.false_or]
    exact Bool.and_comm _ _

/-- C13: in a sort mode that is none of `name-asc`, `name-desc` and `category`,
`getFilteredAndSortedSounds` returns the sounds of the input, in the order of
the input, whose category equals the filter (every category for the filter
`all`) and whose lower-cased name contains the lower-cased search term (every
name for an empty term). -/
theorem view_unsorted (toLowerCase : String → String) (localeCompare : String → String → Int)
    (categories : List Category) (selectedCategoryId searchValue sortBy : String)
    (sourceData : List Sound)
    (hmode : sortBy ≠ "name-asc" ∧ sortBy ≠ "name-desc" ∧ sortBy ≠ "category") :
    getFilteredAndSortedSounds toLowerCase localeCompare categories selectedCategoryId
        searchValue sortBy sourceData
      = sourceData.filter (specVisible toLowerCase selectedCategoryId searchValue) ∧
    (getFilteredAndSortedSounds toLowerCase localeCompare categories selectedCategoryId
        searchValue sortBy sourceData).Sublist sourceData ∧
    (∀ sound, sound ∈ getFilteredAndSortedSounds toLowerCase localeCompare categories
        selectedCategoryId searchValue sortBy sourceData ↔
      sound ∈ sourceData ∧ (selectedCategoryId = "all" ∨ sound.category = selectedCategoryId) ∧
        includes (toLowerCase sound.name) (toLowerCase searchValue) = true) := by
  have h : getFilteredAndSortedSounds toLowerCase localeCompare categories selectedCategoryId
        searchValue sortBy sourceData
      = sourceData.filter (specVisible toLowerCase selectedCategoryId searchValue) := by
    unfold getFilteredAndSortedSounds
    simp only [hmode.1, hmode.2.1, hmode.2.2, if_false]
    exact filtered_eq_spec toLowerCase selectedCategoryId searchValue sourceData
  rw [h]
  refine ⟨rfl, List.filter_sublist _, ?_⟩
  intro sound
  simp [List.mem_filter, specVisible]

/-- Witness of C13, the scenario of the spec: the term `air` with the filter
`all` on the two-sound catalog returns only `Air Horn`. -/
theorem view_unsorted_witness :
    (getFilteredAndSortedSounds asciiLower codePointCompare [uncategorized] "all" "air" "none"
        (initializeSoundsData (fun _ => "s0") ["--Air-Horn.ogg", "boo_sound.ogg"])).map
      (fun x => x.name) = ["Air Horn"] ∧
    getFilteredAndSortedSounds asciiLower codePointCompare [uncategorized] "all" "air" "none"
        (initializeSoundsData (fun _ => "s0") ["--Air-Horn.ogg", "boo_sound.ogg"])
      = (initializeSoundsData (fun _ => "s0") ["--Air-Horn.ogg", "boo_sound.ogg"]).filter
          (specVisible asciiLower "all" "air") :=
  ⟨by decide,
    (view_unsorted asciiLower codePointCompare [uncategorized] "all" "air" "none"
      (initializeSoundsData (fun _ => "s0") ["--Air-Horn.ogg", "boo_sound.ogg"])
      (by decide)).1⟩

/-! ## Consistent comparators -/

theorem cmp_total (cmp : String → String → Int) (h : ConsistentComparator cmp) (a b : String) :
    cmp a b ≤ 0 ∨ cmp b a ≤ 0 := by
  by_cases hab : cmp a b ≤ 0
  · exact Or.inl hab
  · exact Or.inr (le_of_lt ((h.2.1 b a).mpr (lt_of_not_ge hab)))

theorem cmp_eq_symm (cmp : String → String → Int) (h : ConsistentComparator cmp) (a b : String)
    (hab : cmp a b = 0) : cmp b a = 0 := by
  rcases lt_trichotomy (cmp b a) 0 with hlt | heq | hgt
  · have := (h.2.1 b a).mp hlt
    omega
  · exact heq
  · have := (h.2.1 a b).mpr hgt
    omega

theorem cmp_nonneg_of_flip (cmp : String → String → Int) (h : ConsistentComparator cmp)
    (a b : String) (hba : cmp b a ≤ 0) : 0 ≤ cmp a b := by
  by_contra hneg
  have := (h.2.1 a b).mp (lt_of_not_ge hneg)
  omega

theorem cmp_lt_of_lt_of_le (cmp : String → String → Int) (h : ConsistentComparator cmp)
    (a b c : String) (hab : cmp a b < 0) (hbc : cmp b c ≤ 0) : cmp a c < 0 := by
  have hac : cmp a c ≤ 0 := h.2.2 a b c (le_of_lt hab) hbc
  rcases lt_or_eq_of_le hac with hlt | heq
  · exact hlt
  · have hca : cmp c a ≤ 0 := le_of_eq (cmp_eq_symm cmp h a c heq)
    have hba : cmp b a ≤ 0 := h.2.2 b c a hbc hca
    have := (h.2.1 a b).mp hab
    omega

theorem cmp_lt_of_le_of_lt (cmp : String → String → Int) (h : ConsistentComparator cmp)
    (a b c : String) (hab : cmp a b ≤ 0) (hbc : cmp b c < 0) : cmp a c < 0 := by
  have hac : cmp a c ≤ 0 := h.2.2 a b c hab (le_of_lt hbc)
  rcases lt_or_eq_of_le hac with hlt | heq
  · exact hlt
  · have hca : cmp c a ≤ 0 := le_of_eq (cmp_eq_symm cmp h a c heq)
    have hcb : cmp c b ≤ 0 := h.2.2 c a b hca hab
    have := (h.2.1 b c).mp hbc
    omega

theorem cmp_eq_trans (cmp : String → String → Int) (h : ConsistentComparator cmp)
    (a b c : String) (hab : cmp a b = 0) (hbc : cmp b c = 0) : cmp a c = 0 := by
  have h1 : cmp a c ≤ 0 := h.2.2 a b c (le_of_eq hab) (le_of_eq hbc)
  have h2 : cmp c a ≤ 0 := h.2.2 c b a (le_of_eq (cmp_eq_symm cmp h b c hbc))
    (le_of_eq (cmp_eq_symm cmp h a b hab))
  have h3 := cmp_nonneg_of_flip cmp h a c h2
  omega

theorem numberOr_le_zero (x y : Int) : numberOr x y ≤ 0 ↔ x < 0 ∨ (x = 0 ∧ y ≤ 0) := by
  unfold numberOr
  by_cases hx : x = 0
  · simp [hx]
  · rw [if_pos hx]
    constructor
    · intro h
      exact Or.inl (lt_of_le_of_ne h hx)
    · rintro (h | ⟨h, _⟩)
      · exact le_of_lt h
      · exact absurd h hx

theorem byCategory_total (cmp : String → String → Int) (h : ConsistentComparator cmp)
    (categories : List Category) (a b : Sound) :
    byCategory cmp categories a b ≤ 0 ∨ byCategory cmp categories b a ≤ 0 := by
  unfold byCategory
  rw [numberOr_le_zero, numberOr_le_zero]
  generalize getCategoryName categories a.category = ca
  generalize getCategoryName categories b.category = cb
  rcases lt_trichotomy (cmp ca cb) 0 with hlt | heq | hgt
  · exact Or.inl (Or.inl hlt)
  · rcases cmp_total cmp h a.name b.name with hn | hn
    · exact Or.inl (Or.inr ⟨heq, hn⟩)
    · exact Or.inr (Or.inr ⟨cmp_eq_symm cmp h ca cb heq, hn⟩)
  · exact Or.inr (Or.inl ((h.2.1 cb ca).mpr hgt))

theorem byCategory_trans (cmp : String → String → Int) (h : ConsistentComparator cmp)
    (categories : List Category) (a b c : Sound)
    (hab : byCategory cmp categories a b ≤ 0) (hbc : byCategory cmp categories b c ≤ 0) :
    byCategory cmp categories a c ≤ 0 := by
  unfold byCategory at *
  rw [numberOr_le_zero] at *
  generalize getCategoryName categories a.category = ca at *
  generalize getCategoryName categories b.category = cb at *
  generalize getCategoryName categories c.category = cc at *
  rcases hab with hab | ⟨hab, hnab⟩ <;> rcases hbc with hbc | ⟨hbc, hnbc⟩
  · exact Or.inl (cmp_lt_of_lt_of_le cmp h ca cb cc hab (le_of_lt hbc))
  · exact Or.inl (cmp_lt_of_lt_of_le cmp h ca cb cc hab (le_of_eq hbc))
  · exact Or.inl (cmp_lt_of_le_of_lt cmp h ca cb cc (le_of_eq hab) hbc)
  · exact Or.inr ⟨cmp_eq_trans cmp h ca cb cc hab hbc, h.2.2 _ _ _ hnab hnbc⟩

theorem sort_perm (comparefn : Sound → Sound → Int) (l : List Sound) :
    (sort comparefn l).Perm l :=
  List.perm_insertionSort _ l

theorem sort_sorted (comparefn : Sound → Sound → Int)
    (htotal : ∀ a b, comparefn a b ≤ 0 ∨ comparefn b a ≤ 0)
    (htrans : ∀ a b c, comparefn a b ≤ 0 → comparefn b c ≤ 0 → comparefn a c ≤ 0)
    (l : List Sound) : (sort comparefn l).Pairwise (fun a b => comparefn a b ≤ 0) :=
  @List.sorted_insertionSort Sound (fun a b => comparefn a b ≤ 0) _ ⟨htotal⟩
    ⟨fun a b c => htrans a b c⟩ l

theorem view_mode (toLowerCase : String → String) (localeCompare : String → String → Int)
    (categories : List Category) (selectedCategoryId searchValue sortBy : String)
    (sourceData : List Sound) :
    getFilteredAndSortedSounds toLowerCase localeCompare categories selectedCategoryId
        searchValue sortBy sourceData =
      if sortBy = "name-asc" then
        sort (byNameAsc localeCompare)
          (sourceData.filter (specVisible toLowerCase selectedCategoryId searchValue))
      else if sortBy = "name-desc" then
        sort (byNameDesc localeCompare)
          (sourceData.filter (specVisible toLowerCase selectedCategoryId searchValue))
      else if sortBy = "category" then
        sort (byCategory localeCompare categories)
          (sourceData.filter (specVisible toLowerCase selectedCategoryId searchValue))
      else sourceData.filter (specVisible toLowerCase selectedCategoryId searchValue) := by
  unfold getFilteredAndSortedSounds
  simp only []
  rw [filtered_eq_spec toLowerCase selectedCategoryId searchValue sourceData]

/-! ## C14: the view in a sorting mode -/

theorem getCategoryName_first (pre post : List Category) (c : Category)
    (h : ∀ x ∈ pre, x.id ≠ c.id) : getCategoryName (pre ++ c :: post) c.id = c.name := by
  induction pre with
  | nil => simp [getCategoryName]
  | cons a pre ih =>
      have ha : (a.id == c.id) = false := by
        simpa using h a (List.mem_cons_self _ _)
      have hrest := ih (fun x hx => h x (List.mem_cons_of_mem _ hx))
      unfold getCategoryName at hrest ⊢
      rw [List.cons_append, List.find?_cons, ha]
      exact hrest

/-- C14: with `localeCompare` a consistent comparator, the output of
`getFilteredAndSortedSounds` in each sorting mode is a permutation of the
filtered list and is ordered: by non-decreasing name in `name-asc`, by
non-increasing name in `name-desc`, and in `category` by non-decreasing
resolved category name (`getCategoryName`, `Unknown` for an unlisted id) with
non-decreasing name among sounds whose category names rank equal.  The
resolved category name is `Unknown` for an id no category has and otherwise the
name of the first category with that id. -/
theorem view_sorted (toLowerCase : String → String) (localeCompare : String → String → Int)
    (categories : List Category) (selectedCategoryId searchValue : String)
    (sourceData : List Sound) (hcmp : ConsistentComparator localeCompare) :
    (getFilteredAndSortedSounds toLowerCase localeCompare categories selectedCategoryId
        searchValue "name-asc" sourceData).Perm
      (sourceData.filter (specVisible toLowerCase selectedCategoryId searchValue)) ∧
    (getFilteredAndSortedSounds toLowerCase localeCompare categories selectedCategoryId
        searchValue "name-asc" sourceData).Pairwise
      (fun a b => localeCompare a.name b.name ≤ 0) ∧
    (getFilteredAndSortedSounds toLowerCase localeCompare categories selectedCategoryId
        searchValue "name-desc" sourceData).Perm
      (sourceData.filter (specVisible toLowerCase selectedCategoryId searchValue)) ∧
    (getFilteredAndSortedSounds toLowerCase localeCompare categories selectedCategoryId
        searchValue "name-desc" sourceData).Pairwise
      (fun a b => 0 ≤ localeCompare a.name b.name) ∧
    (getFilteredAndSortedSounds toLowerCase localeCompare categories selectedCategoryId
        searchValue "category" sourceData).Perm
      (sourceData.filter (specVisible toLowerCase selectedCategoryId searchValue)) ∧
    (getFilteredAndSortedSounds toLowerCase localeCompare categories selectedCategoryId
        searchValue "category" sourceData).Pairwise
      (fun a b =>
        localeCompare (getCategoryName categories a.category)
            (getCategoryName categories b.category) < 0 ∨
          (localeCompare (getCategoryName categories a.category)
              (getCategoryName categories b.category) = 0 ∧
            localeCompare a.name b.name ≤ 0)) ∧
    (∀ categoryId : String, (∀ c ∈ categories, c.id ≠ categoryId) →
      getCategoryName categories categoryId = "Unknown") ∧
    (∀ (pre post : List Category) (c : Category), categories = pre ++ c :: post →
      (∀ x ∈ pre, x.id ≠ c.id) → getCategoryName categories c.id = c.name) := by
  have hasc := view_mode toLowerCase localeCompare categories selectedCategoryId searchValue
    "name-asc" sourceData
  have hdesc := view_mode toLowerCase localeCompare categories selectedCategoryId searchValue
    "name-desc" sourceData
  have hcat := view_mode toLowerCase localeCompare categories selectedCategoryId searchValue
    "category" sourceData
  rw [if_pos rfl] at hasc
  rw [if_neg (by decide), if_pos rfl] at hdesc
  rw [if_neg (by decide), if_neg (by decide), if_pos rfl] at hcat
  rw [hasc, hdesc, hcat]
  refine ⟨sort_perm _ _, ?_, sort_perm _ _, ?_, sort_perm _ _, ?_, ?_, ?_⟩
  · exact sort_sorted (byNameAsc localeCompare)
      (fun a b => cmp_total localeCompare hcmp a.name b.name)
      (fun a b c => hcmp.2.2 a.name b.name c.name) _
  · have h := sort_sorted (byNameDesc localeCompare)
      (fun a b => cmp_total localeCompare hcmp b.name a.name)
      (fun a b c hab hbc => hcmp.2.2 c.name b.name a.name hbc hab)
      (sourceData.filter (specVisible toLowerCase selectedCategoryId searchValue))
    exact List.Pairwise.imp (fun hab => cmp_nonneg_of_flip localeCompare hcmp _ _ hab) h
  · have h := sort_sorted (byCategory localeCompare categories)
      (byCategory_total localeCompare hcmp categories)
      (byCategory_trans localeCompare hcmp categories)
      (sourceData.filter (specVisible toLowerCase selectedCategoryId searchValue))
    exact List.Pairwise.imp (fun hab => (numberOr_le_zero _ _).mp hab) h
  · intro categoryId hnone
    unfold getCategoryName
    have hfind : categories.find? (fun c => c.id == categoryId) = none := by
      rw [List.find?_eq_none]
      intro c hc
      simpa using hnone c hc
    rw [hfind]
  · intro pre post c hsplit hfirst
    rw [hsplit]
    exact getCategoryName_first pre post c hfirst

theorem compareChars_self (l : List Char) : compareChars l l = 0 := by
  induction l with
  | nil => rfl
  | cons a as ih => simp [compareChars, ih]

theorem compareChars_flip (l : List Char) :
    ∀ m : List Char, compareChars l m < 0 ↔ 0 < compareChars m l := by
  induction l with
  | nil =>
      intro m
      cases m <;> simp [compareChars]
  | cons a as ih =>
      intro m
      cases m with
      | nil => simp [compareChars]
      | cons b bs =>
          simp only [compareChars]
          split_ifs <;> first | omega | exact ih bs

theorem compareChars_trans (l : List Char) :
    ∀ m n : List Char, compareChars l m ≤ 0 → compareChars m n ≤ 0 → compareChars l n ≤ 0 := by
  induction l with
  | nil =>
      intro m n _ _
      cases n <;> simp [compareChars]
  | cons a as ih =>
      intro m n hlm hmn
      cases m with
      | nil => simp [compareChars] at hlm
      | cons b bs =>
          cases n with
          | nil => simp [compareChars] at hmn
          | cons c cs =>
              simp only [compareChars] at hlm hmn ⊢
              split_ifs at hlm hmn ⊢ <;> first | omega | exact ih bs cs hlm hmn

theorem codePointCompare_consistent : ConsistentComparator codePointCompare :=
  ⟨fun a => compareChars_self a.data, fun a b => compareChars_flip a.data b.data,
    fun a b c => compareChars_trans a.data b.data c.data⟩

/-- Witness of C14 with the comparator by code point.  The catalog has `Zap` in
the category `c1`, named `Zoo`, and `Kick` in the unlisted category `ghost`,
which resolves to `Unknown`: in mode `category` the order is by these names
(`Uncategorized`, `Unknown`, `Zoo`), not by the ids. -/
theorem view_sorted_witness :
    ConsistentComparator codePointCompare ∧
    (getFilteredAndSortedSounds asciiLower codePointCompare zooRegistry "all" "" "name-asc"
        mixedCatalog).map (fun x => x.name) = ["Air Horn", "Boo Sound", "Kick", "Zap"] ∧
    (getFilteredAndSortedSounds asciiLower codePointCompare zooRegistry "all" "" "name-desc"
        mixedCatalog).map (fun x => x.name) = ["Zap", "Kick", "Boo Sound", "Air Horn"] ∧
    mixedCatalog.map (fun x => (x.name, x.category))
      = [("Zap", "c1"), ("Air Horn", "uncategorized"), ("Boo Sound", "uncategorized"),
         ("Kick", "ghost")] ∧
    (getFilteredAndSortedSounds asciiLower codePointCompare zooRegistry "all" "" "category"
        mixedCatalog).map (fun x => (x.name, getCategoryName zooRegistry x.category))
      = [("Air Horn", "Uncategorized"), ("Boo Sound", "Uncategorized"), ("Kick", "Unknown"),
         ("Zap", "Zoo")] ∧
    (getFilteredAndSortedSounds asciiLower codePointCompare zooRegistry "all" "" "name-asc"
        mixedCatalog).Pairwise (fun a b => codePointCompare a.name b.name ≤ 0) ∧
    getCategoryName zooRegistry "ghost" = "Unknown" ∧
    getCategoryName zooRegistry "c1" = "Zoo" :=
  ⟨codePointCompare_consistent, by decide, by decide, by decide, by decide,
    (view_sorted asciiLower codePointCompare zooRegistry "all" "" mixedCatalog
      codePointCompare_consistent).2.1,
    (view_sorted asciiLower codePointCompare zooRegistry "all" "" mixedCatalog
      codePointCompare_consistent).2.2.2.2.2.2.1 "ghost" (by decide),
    (view_sorted asciiLower codePointCompare zooRegistry "all" "" mixedCatalog
      codePointCompare_consistent).2.2.2.2.2.2.2 [uncategorized] []
      { id := "c1", name := "Zoo", isDeletable := true, isEditable := true } rfl (by decide)⟩

/-! ## C15: descending is the reverse of ascending -/

/-- C15: with `localeCompare` a consistent comparator and a sound list in
which no two sounds at different positions have names that rank equal, the
output in mode `name-desc` is the reverse of the output in mode `name-asc` for
the same filter and search term. -/
theorem view_desc_eq_reverse (toLowerCase : String → String)
    (localeCompare : String → String → Int) (categories : List Category)
    (selectedCategoryId searchValue : String) (sourceData : List Sound)
    (hcmp : ConsistentComparator localeCompare)
    (hties : sourceData.Pairwise (fun a b => localeCompare a.name b.name ≠ 0)) :
    getFilteredAndSortedSounds toLowerCase localeCompare categories selectedCategoryId
        searchValue "name-desc" sourceData
      = (getFilteredAndSortedSounds toLowerCase localeCompare categories selectedCategoryId
          searchValue "name-asc" sourceData).reverse := by
  obtain ⟨hpa, hsa, hpd, hsd, _⟩ := view_sorted toLowerCase localeCompare categories
    selectedCategoryId searchValue sourceData hcmp
  have hsym : Symmetric (fun a b : Sound => localeCompare a.name b.name ≠ 0) :=
    fun a b hab hba => hab (cmp_eq_symm localeCompare hcmp b.name a.name hba)
  have hsrc : ∀ x, x ∈ getFilteredAndSortedSounds toLowerCase localeCompare categories
      selectedCategoryId searchValue "name-desc" sourceData → x ∈ sourceData :=
    fun x hx => (List.mem_filter.mp (hpd.mem_iff.mp hx)).1
  refine @List.Perm.eq_of_sorted Sound (fun a b => 0 ≤ localeCompare a.name b.name) _ _ ?_ hsd
    ?_ ?_
  · intro a b ha hb hab hba
    by_contra hne
    have hb2 : b ∈ getFilteredAndSortedSounds toLowerCase localeCompare categories
        selectedCategoryId searchValue "name-desc" sourceData :=
      hpd.mem_iff.mpr (hpa.mem_iff.mp (List.mem_reverse.mp hb))
    have hne0 := List.Pairwise.forall hsym hties (hsrc a ha) (hsrc b hb2) hne
    have hle : localeCompare a.name b.name ≤ 0 := by
      by_contra hpos
      have := (hcmp.2.1 b.name a.name).mpr (lt_of_not_ge hpos)
      omega
    exact hne0 (le_antisymm hle hab)
  · rw [List.pairwise_reverse]
    exact List.Pairwise.imp (fun hab => cmp_nonneg_of_flip localeCompare hcmp _ _ hab) hsa
  · exact hpd.trans (hpa.symm.trans (List.reverse_perm _).symm)

/-- Witness of C15 on the catalog of three sounds, whose names do not tie. -/
theorem view_desc_eq_reverse_witness :
    sortingCatalog.Pairwise (fun a b => codePointCompare a.name b.name ≠ 0) ∧
    getFilteredAndSortedSounds asciiLower codePointCompare [uncategorized] "all" "o"
        "name-desc" sortingCatalog
      = (getFilteredAndSortedSounds asciiLower codePointCompare [uncategorized] "all" "o"
          "name-asc" sortingCatalog).reverse ∧
    (getFilteredAndSortedSounds asciiLower codePointCompare [uncategorized] "all" "o"
        "name-desc" sortingCatalog).map (fun x => x.name) = ["Boo Sound", "Air Horn"] :=
  ⟨by decide,
    view_desc_eq_reverse asciiLower codePointCompare [uncategorized] "all" "o" sortingCatalog
      codePointCompare_consistent (by decide),
    by decide⟩

/-! ## C16: the view is a pure function -/

theorem holdsNew_allocate (before : List (List Sound)) (contents : List Sound) :
    HoldsNew before contents (allocate before contents) := by
  refine ⟨Nat.le_refl _, by simp [allocate], ?_, ?_⟩
  · intro a ha
    exact List.getElem?_append_left ha
  · simp [readArray, allocate]

theorem holdsNew_filterArray (before : List (List Sound)) (contents : List Sound)
    (p : Sound → Bool) (x : List (List Sound) × Nat) (h : HoldsNew before contents x) :
    HoldsNew before (contents.filter p) (filterArray p x) := by
  obtain ⟨h1, h2, h3, h4⟩ := h
  refine ⟨?_, by simp [filterArray, allocate], ?_, ?_⟩
  · show before.length ≤ x.1.length
    omega
  · intro a ha
    show (x.1 ++ [(readArray x.1 x.2).filter p])[a]? = before[a]?
    rw [List.getElem?_append_left (by omega)]
    exact h3 a ha
  · simp [readArray, filterArray, allocate]
    simpa [readArray] using congrArg (List.filter p) h4

theorem holdsNew_sortArray (before : List (List Sound)) (contents : List Sound)
    (comparefn : Sound → Sound → Int) (x : List (List Sound) × Nat)
    (h : HoldsNew before contents x) :
    HoldsNew before (sort comparefn contents) (sortArray comparefn x) := by
  obtain ⟨h1, h2, h3, h4⟩ := h
  refine ⟨h1, by simpa [sortArray] using h2, ?_, ?_⟩
  · intro a ha
    show (x.1.set x.2 (sort comparefn (readArray x.1 x.2)))[a]? = before[a]?
    rw [List.getElem?_set_ne (by omega)]
    exact h3 a ha
  · show ((x.1.set x.2 (sort comparefn (readArray x.1 x.2)))[x.2]?).getD [] = _
    rw [List.getElem?_set, if_pos rfl, if_pos h2, h4]
    rfl

theorem holdsNew_view (toLowerCase : String → String) (localeCompare : String → String → Int)
    (categories : List Category) (selectedCategoryId searchValue sortBy : String)
    (arrays : List (List Sound)) (sourceData : Nat) :
    HoldsNew arrays
      (getFilteredAndSortedSounds toLowerCase localeCompare categories selectedCategoryId
        searchValue sortBy (readArray arrays sourceData))
      (getFilteredAndSortedSoundsIn toLowerCase localeCompare categories selectedCategoryId
        searchValue sortBy arrays sourceData) := by
  unfold getFilteredAndSortedSounds getFilteredAndSortedSoundsIn
  simp only []
  have h0 := holdsNew_allocate arrays (readArray arrays sourceData)
  have h1 : HoldsNew arrays
      (if selectedCategoryId ≠ "all" then
        (readArray arrays sourceData).filter (fun sound => sound.category == selectedCategoryId)
       else readArray arrays sourceData)
      (if selectedCategoryId ≠ "all" then
        filterArray (fun sound => sound.category == selectedCategoryId)
          (allocate arrays (readArray arrays sourceData))
       else allocate arrays (readArray arrays sourceData)) := by
    split
    · exact holdsNew_filterArray _ _ _ _ h0
    · exact h0
  generalize (if selectedCategoryId ≠ "all" then
        (readArray arrays sourceData).filter (fun sound => sound.category == selectedCategoryId)
       else readArray arrays sourceData) = c1 at h1 ⊢
  generalize (if selectedCategoryId ≠ "all" then
        filterArray (fun sound => sound.category == selectedCategoryId)
          (allocate arrays (readArray arrays sourceData))
       else allocate arrays (readArray arrays sourceData)) = x1 at h1 ⊢
  have h2 : HoldsNew arrays
      (if toLowerCase searchValue ≠ "" then
        c1.filter (fun sound => includes (toLowerCase sound.name) (toLowerCase searchValue))
       else c1)
      (if toLowerCase searchValue ≠ "" then
        filterArray (fun sound => includes (toLowerCase sound.name) (toLowerCase searchValue)) x1
       else x1) := by
    split
    · exact holdsNew_filterArray _ _ _ _ h1
    · exact h1
  generalize (if toLowerCase searchValue ≠ "" then
        c1.filter (fun sound => includes (toLowerCase sound.name) (toLowerCase searchValue))
       else c1) = c2 at h2 ⊢
  generalize (if toLowerCase searchValue ≠ "" then
        filterArray (fun sound => includes (toLowerCase sound.name) (toLowerCase searchValue)) x1
       else x1) = x2 at h2 ⊢
  split
  · exact holdsNew_sortArray _ _ _ _ h2
  · split
    · exact holdsNew_sortArray _ _ _ _ h2
    · split
      · exact holdsNew_sortArray _ _ _ _ h2
      · exact h2

theorem view_of_nil (toLowerCase : String → String) (localeCompare : String → String → Int)
    (categories : List Category) (selectedCategoryId searchValue sortBy : String) :
    getFilteredAndSortedSounds toLowerCase localeCompare categories selectedCategoryId
      searchValue sortBy [] = [] := by
  rw [view_mode]
  simp [sort]

/-- C16: `getFilteredAndSortedSounds` run on a heap of arrays, given the
address of an array of the heap.  Every array the heap had, the input among
them, has the same elements in the same order after the call; the returned
array is a new one and holds the value of the function of the inputs; a second
call with the same inputs on the heap the first call left returns an array
with the same sequence; and an empty input gives an empty result in every
filter, term and mode. -/
theorem view_pure (toLowerCase : String → String) (localeCompare : String → String → Int)
    (categories : List Category) (selectedCategoryId searchValue sortBy : String)
    (arrays : List (List Sound)) (sourceData : Nat) (hsource : sourceData < arrays.length) :
    (∀ a, a < arrays.length →
      readArray (getFilteredAndSortedSoundsIn toLowerCase localeCompare categories
        selectedCategoryId searchValue sortBy arrays sourceData).1 a = readArray arrays a) ∧
    arrays.length ≤ (getFilteredAndSortedSoundsIn toLowerCase localeCompare categories
        selectedCategoryId searchValue sortBy arrays sourceData).2 ∧
    readArray
        (getFilteredAndSortedSoundsIn toLowerCase localeCompare categories selectedCategoryId
          searchValue sortBy arrays sourceData).1
        (getFilteredAndSortedSoundsIn toLowerCase localeCompare categories selectedCategoryId
          searchValue sortBy arrays sourceData).2
      = getFilteredAndSortedSounds toLowerCase localeCompare categories selectedCategoryId
          searchValue sortBy (readArray arrays sourceData) ∧
    readArray
        (getFilteredAndSortedSoundsIn toLowerCase localeCompare categories selectedCategoryId
          searchValue sortBy
          (getFilteredAndSortedSoundsIn toLowerCase localeCompare categories selectedCategoryId
            searchValue sortBy arrays sourceData).1 sourceData).1
        (getFilteredAndSortedSoundsIn toLowerCase localeCompare categories selectedCategoryId
          searchValue sortBy
          (getFilteredAndSortedSoundsIn toLowerCase localeCompare categories selectedCategoryId
            searchValue sortBy arrays sourceData).1 sourceData).2
      = readArray
        (getFilteredAndSortedSoundsIn toLowerCase localeCompare categories selectedCategoryId
          searchValue sortBy arrays sourceData).1
        (getFilteredAndSortedSoundsIn toLowerCase localeCompare categories selectedCategoryId
          searchValue sortBy arrays sourceData).2 ∧
    (readArray arrays sourceData = [] →
      readArray
        (getFilteredAndSortedSoundsIn toLowerCase localeCompare categories selectedCategoryId
          searchValue sortBy arrays sourceData).1
        (getFilteredAndSortedSoundsIn toLowerCase localeCompare categories selectedCategoryId
          searchValue sortBy arrays sourceData).2 = []) := by
  have h := holdsNew_view toLowerCase localeCompare categories selectedCategoryId searchValue
    sortBy arrays sourceData
  have hkeep : ∀ a, a < arrays.length →
      readArray (getFilteredAndSortedSoundsIn toLowerCase localeCompare categories
        selectedCategoryId searchValue sortBy arrays sourceData).1 a = readArray arrays a := by
    intro a ha
    unfold readArray
    rw [h.2.2.1 a ha]
  have h2 := holdsNew_view toLowerCase localeCompare categories selectedCategoryId searchValue
    sortBy (getFilteredAndSortedSoundsIn toLowerCase localeCompare categories
      selectedCategoryId searchValue sortBy arrays sourceData).1 sourceData
  refine ⟨hkeep, h.1, h.2.2.2, ?_, ?_⟩
  · rw [h2.2.2.2, h.2.2.2, hkeep sourceData hsource]
  · intro hnil
    rw [h.2.2.2, hnil]
    exact view_of_nil _ _ _ _ _ _

/-- Witness of C16: the catalog of three sounds as the only array of the heap,
sorted by name.  The call leaves it at address 0 in its order and returns the
sorted sequence in a new array at address 1. -/
theorem view_pure_witness :
    readArray (getFilteredAndSortedSoundsIn asciiLower codePointCompare [uncategorized] "all" ""
      "name-asc" [sortingCatalog] 0).1 0 = sortingCatalog ∧
    (getFilteredAndSortedSoundsIn asciiLower codePointCompare [uncategorized] "all" ""
      "name-asc" [sortingCatalog] 0).2 = 1 ∧
    (readArray (getFilteredAndSortedSoundsIn asciiLower codePointCompare [uncategorized] "all" ""
      "name-asc" [sortingCatalog] 0).1 1).map (fun x => x.name)
      = ["Air Horn", "Boo Sound", "Zap"] ∧
    sortingCatalog.map (fun x => x.name) = ["Zap", "Air Horn", "Boo Sound"] :=
  ⟨(view_pure asciiLower codePointCompare [uncategorized] "all" "" "name-asc" [sortingCatalog] 0
      (by decide)).1 0 (by decide),
    by decide, by decide, by decide⟩

/-! ## C11 and C12: saving a sound edit -/

theorem updateFirst_split {α : Type} (p : α → Bool) (f : α → α) (l : List α) (a : α)
    (hfind : l.find? p = some a) :
    ∃ pre post, l = pre ++ a :: post ∧ (∀ x ∈ pre, p x = false) ∧
      updateFirst p f l = pre ++ f a :: post := by
  induction l with
  | nil => simp at hfind
  | cons x xs ih =>
      unfold updateFirst
      by_cases hp : p x = true
      · rw [List.find?_cons_of_pos _ hp] at hfind
        have hxa : x = a := Option.some.inj hfind
        subst hxa
        exact ⟨[], xs, rfl, by simp, by rw [if_pos hp]; rfl⟩
      · rw [List.find?_cons_of_neg _ hp] at hfind
        obtain ⟨pre, post, hl, hpre, hup⟩ := ih hfind
        refine ⟨x :: pre, post, by rw [hl]; rfl, ?_, by rw [if_neg hp, hup]; rfl⟩
        intro y hy
        rcases List.mem_cons.mp hy with hy | hy
        · rw [hy]
          simpa using hp
        · exact hpre y hy

/-- The category a sound edit assigns: the id of the listed category found by
name, the new id, or the value of the select. -/
theorem saveEdit_sounds (toLowerCase : String → String) (s : State)
    (soundId nameValue colorValue categoryValue newCategoryValue newId : String) (sound : Sound)
    (hfind : s.soundsData.find? (fun snd => snd.id == soundId) = some sound) :
    ∃ category : String,
      (saveEdit toLowerCase s soundId nameValue colorValue categoryValue newCategoryValue
          newId).soundsData
        = updateFirst (fun snd => snd.id == soundId)
            (fun snd => { snd with
              name := if trim nameValue ≠ "" then trim nameValue else snd.name
              color := colorValue
              category := category }) s.soundsData ∧
      (trim newCategoryValue = "" → category = categoryValue) ∧
      (trim newCategoryValue ≠ "" →
        (∀ cat ∈ s.categories, toLowerCase cat.name ≠ toLowerCase (trim newCategoryValue)) →
        category = newId) ∧
      (trim newCategoryValue ≠ "" →
        (∃ cat ∈ s.categories, toLowerCase cat.name = toLowerCase (trim newCategoryValue)) →
        ∃ cat ∈ s.categories, toLowerCase cat.name = toLowerCase (trim newCategoryValue) ∧
          category = cat.id) := by
  unfold saveEdit
  rw [hfind]
  simp only []
  by_cases hname : trim newCategoryValue = ""
  · rw [if_neg (not_not.mpr hname)]
    exact ⟨categoryValue, rfl, fun _ => rfl, fun h => absurd hname h, fun h => absurd hname h⟩
  · rw [if_pos hname]
    cases hcat : s.categories.find?
        (fun cat => toLowerCase cat.name == toLowerCase (trim newCategoryValue)) with
    | none =>
        refine ⟨newId, rfl, fun h => absurd h hname, fun _ _ => rfl, ?_⟩
        intro _ hex
        obtain ⟨cat, hmem, heq⟩ := hex
        have := List.find?_eq_none.mp hcat cat hmem
        simp [heq] at this
    | some existing =>
        refine ⟨existing.id, rfl, fun h => absurd h hname, ?_, ?_⟩
        · intro _ hall
          have hp := List.find?_some hcat
          exact absurd (by simpa using hp) (hall existing (List.mem_of_find?_eq_some hcat))
        · intro _ _
          exact ⟨existing, List.mem_of_find?_eq_some hcat, by simpa using List.find?_some hcat,
            rfl⟩

/-- C11: a sound-edit save for an existing sound (the first sound of the
catalog with the id of the hidden field) changes that sound in place; its name
becomes the trimmed input when that is non-empty and stays what it was
otherwise, so a name that was non-empty is non-empty afterwards.  The sounds
before and after it are unchanged. -/
theorem saveEdit_name (toLowerCase : String → String) (s : State)
    (soundId nameValue colorValue categoryValue newCategoryValue newId : String) (sound : Sound)
    (hfind : s.soundsData.find? (fun snd => snd.id == soundId) = some sound) :
    ∃ pre post edited,
      s.soundsData = pre ++ sound :: post ∧ (∀ x ∈ pre, x.id ≠ soundId) ∧
      (saveEdit toLowerCase s soundId nameValue colorValue categoryValue newCategoryValue
          newId).soundsData = pre ++ edited :: post ∧
      (trim nameValue ≠ "" → edited.name = trim nameValue) ∧
      (trim nameValue = "" → edited.name = sound.name) ∧
      (sound.name ≠ "" → edited.name ≠ "") := by
  obtain ⟨category, hsounds, _⟩ := saveEdit_sounds toLowerCase s soundId nameValue colorValue
    categoryValue newCategoryValue newId sound hfind
  obtain ⟨pre, post, hl, hpre, hup⟩ := updateFirst_split (fun snd => snd.id == soundId)
    (fun snd => { snd with
      name := if trim nameValue ≠ "" then trim nameValue else snd.name
      color := colorValue
      category := category }) s.soundsData sound hfind
  refine ⟨pre, post, _, hl, ?_, hsounds.trans hup, ?_, ?_, ?_⟩
  · intro x hx
    simpa using hpre x hx
  · intro h
    simp [h]
  · intro h
    simp [h]
  · intro hne
    by_cases h : trim nameValue = ""
    · simpa [h] using hne
    · simp [h]

/-- Witness of C11 on the scenario state: a blank name input keeps `Air Horn`,
and the input ` Horn ` renames the sound to `Horn`. -/
theorem saveEdit_name_witness :
    (saveEdit asciiLower sfxState "s0" "   " "red" "c1" "" "c9").soundsData.map
      (fun x => x.name) = ["Air Horn"] ∧
    (saveEdit asciiLower sfxState "s0" " Horn " "red" "c1" "" "c9").soundsData.map
      (fun x => x.name) = ["Horn"] ∧
    ∃ pre post edited,
      sfxState.soundsData = pre ++
        { provisionedSound "s0" "--Air-Horn.ogg" 0 with category := "c1" } :: post ∧
      (∀ x ∈ pre, x.id ≠ "s0") ∧
      (saveEdit asciiLower sfxState "s0" "   " "red" "c1" "" "c9").soundsData
        = pre ++ edited :: post ∧
      (trim "   " ≠ "" → edited.name = trim "   ") ∧
      (trim "   " = "" →
        edited.name = ({ provisionedSound "s0" "--Air-Horn.ogg" 0 with category := "c1" }
          : Sound).name) ∧
      (({ provisionedSound "s0" "--Air-Horn.ogg" 0 with category := "c1" } : Sound).name ≠ "" →
        edited.name ≠ "") :=
  ⟨by decide, by decide,
    saveEdit_name asciiLower sfxState "s0" "   " "red" "c1" "" "c9"
      { provisionedSound "s0" "--Air-Horn.ogg" 0 with category := "c1" } (by decide)⟩

/-- C12: a sound-edit save for an existing sound with a new category name that
is non-empty after trimming.  If a listed category has a name equal to it after
lower-casing, the registry is unchanged and the sound gets the id of such a
category; otherwise one record with the trimmed name, the generated id and both
flags `true` is appended and the sound gets that id.  In both cases the sound
is changed in place and every other sound is as it was. -/
theorem saveEdit_new_category (toLowerCase : String → String) (s : State)
    (soundId nameValue colorValue categoryValue newCategoryValue newId : String) (sound : Sound)
    (hfind : s.soundsData.find? (fun snd => snd.id == soundId) = some sound)
    (hname : trim newCategoryValue ≠ "") :
    ∃ pre post edited,
      s.soundsData = pre ++ sound :: post ∧ (∀ x ∈ pre, x.id ≠ soundId) ∧
      (saveEdit toLowerCase s soundId nameValue colorValue categoryValue newCategoryValue
          newId).soundsData = pre ++ edited :: post ∧
      ((∃ cat ∈ s.categories, toLowerCase cat.name = toLowerCase (trim newCategoryValue)) →
        (saveEdit toLowerCase s soundId nameValue colorValue categoryValue newCategoryValue
          newId).categories = s.categories ∧
        ∃ cat ∈ s.categories, toLowerCase cat.name = toLowerCase (trim newCategoryValue) ∧
          edited.category = cat.id) ∧
      ((∀ cat ∈ s.categories, toLowerCase cat.name ≠ toLowerCase (trim newCategoryValue)) →
        (saveEdit toLowerCase s soundId nameValue colorValue categoryValue newCategoryValue
          newId).categories = s.categories ++
            [{ id := newId, name := trim newCategoryValue, isDeletable := true,
               isEditable := true }] ∧
        edited.category = newId) := by
  obtain ⟨category, hsounds, _, hnew, hold⟩ := saveEdit_sounds toLowerCase s soundId nameValue
    colorValue categoryValue newCategoryValue newId sound hfind
  obtain ⟨pre, post, hl, hpre, hup⟩ := updateFirst_split (fun snd => snd.id == soundId)
    (fun snd => { snd with
      name := if trim nameValue ≠ "" then trim nameValue else snd.name
      color := colorValue
      category := category }) s.soundsData sound hfind
  refine ⟨pre, post, _, hl, ?_, hsounds.trans hup, ?_, ?_⟩
  · intro x hx
    simpa using hpre x hx
  · intro hex
    refine ⟨?_, hold hname hex⟩
    rcases saveEdit_categories toLowerCase s soundId nameValue colorValue categoryValue
        newCategoryValue newId with h | ⟨_, hall⟩
    · exact h
    · obtain ⟨cat, hmem, heq⟩ := hex
      exact absurd heq (hall cat hmem)
  · intro hall
    refine ⟨?_, hnew hname hall⟩
    unfold saveEdit
    rw [hfind]
    simp only []
    rw [if_pos hname]
    have hnone : s.categories.find?
        (fun cat => toLowerCase cat.name == toLowerCase (trim newCategoryValue)) = none := by
      rw [List.find?_eq_none]
      intro cat hmem
      simpa using hall cat hmem
    rw [hnone]

/-- Witness of C12 on the scenario state: the new name ` sfx ` matches the
listed `SFX`, whose id the sound gets, and `Voices` is appended with the
generated id. -/
theorem saveEdit_new_category_witness :
    (saveEdit asciiLower sfxState "s0" "" "red" "uncategorized" " sfx " "c9")
      = { soundsData := [{ provisionedSound "s0" "--Air-Horn.ogg" 0 with
            color := "red", category := "c1" }],
          categories := sfxState.categories } ∧
    (saveEdit asciiLower sfxState "s0" "" "red" "uncategorized" "Voices" "c9").categories.map
      (fun c => (c.id, c.name))
      = [("uncategorized", "Uncategorized"), ("c1", "SFX"), ("c9", "Voices")] ∧
    (saveEdit asciiLower sfxState "s0" "" "red" "uncategorized" "Voices" "c9").soundsData.map
      (fun x => x.category) = ["c9"] ∧
    ∃ pre post edited,
      sfxState.soundsData = pre ++
        { provisionedSound "s0" "--Air-Horn.ogg" 0 with category := "c1" } :: post ∧
      (∀ x ∈ pre, x.id ≠ "s0") ∧
      (saveEdit asciiLower sfxState "s0" "" "red" "uncategorized" "Voices" "c9").soundsData
        = pre ++ edited :: post ∧
      ((∃ cat ∈ sfxState.categories, asciiLower cat.name = asciiLower (trim "Voices")) →
        (saveEdit asciiLower sfxState "s0" "" "red" "uncategorized" "Voices" "c9").categories
          = sfxState.categories ∧
        ∃ cat ∈ sfxState.categories, asciiLower cat.name = asciiLower (trim "Voices") ∧
          edited.category = cat.id) ∧
      ((∀ cat ∈ sfxState.categories, asciiLower cat.name ≠ asciiLower (trim "Voices")) →
        (saveEdit asciiLower sfxState "s0" "" "red" "uncategorized" "Voices" "c9").categories
          = sfxState.categories ++
            [{ id := "c9", name := trim "Voices", isDeletable := true, isEditable := true }] ∧
        edited.category = "c9") :=
  ⟨by decide, by decide, by decide,
    saveEdit_new_category asciiLower sfxState "s0" "" "red" "uncategorized" "Voices" "c9"
      { provisionedSound "s0" "--Air-Horn.ogg" 0 with category := "c1" } (by decide) (by decide)⟩

/-! ## C20: playing a sound -/

/-- C20: for a sound with at most one of the two player fields set, as every
sound of the catalog has, `playSound` calls `start` exactly when audio is
active (`audioInitialized`, or the context is running) and the sound holds a
loaded player, and the call then starts that player, the one of the field that
is set, and changes nothing else of the sound; when audio is not active it
shows the not-active status, when audio is active and the sound holds no loaded
player it warns that the sound is not loaded, and in both cases the sound is
as it was. -/
theorem playSound_spec (audioInitialized contextRunning : Bool) (sound : Sound)
    (hshape : sound.player = none ∨ sound.uploadedPlayer = none) :
    ((playSound audioInitialized contextRunning sound).2 = PlayOutcome.started ↔
      (audioInitialized = true ∨ contextRunning = true) ∧ IsReady sound) ∧
    (audioInitialized = false ∧ contextRunning = false →
      playSound audioInitialized contextRunning sound = (sound, PlayOutcome.audioNotActive)) ∧
    ((audioInitialized = true ∨ contextRunning = true) ∧ ¬ IsReady sound →
      playSound audioInitialized contextRunning sound = (sound, PlayOutcome.notLoaded)) ∧
    (∀ p : Player, (audioInitialized = true ∨ contextRunning = true) →
      sound.player = some p → p.loaded = true →
      playSound audioInitialized contextRunning sound
        = ({ sound with player := some { p with started := true } }, PlayOutcome.started)) ∧
    (∀ p : Player, (audioInitialized = true ∨ contextRunning = true) →
      sound.uploadedPlayer = some p → p.loaded = true →
      playSound audioInitialized contextRunning sound
        = ({ sound with uploadedPlayer := some { p with started := true } },
          PlayOutcome.started)) := by
  have hready : IsReady sound ↔
      (∃ p, sound.player = some p ∧ p.loaded = true) ∨
      (sound.player = none ∧ ∃ p, sound.uploadedPlayer = some p ∧ p.loaded = true) := by
    unfold IsReady
    constructor
    · rintro ⟨p, hp | hp, hl⟩
      · exact Or.inl ⟨p, hp, hl⟩
      · rcases hshape with h | h
        · exact Or.inr ⟨h, p, hp, hl⟩
        · rw [h] at hp
          exact absurd hp (by simp)
    · rintro (⟨p, hp, hl⟩ | ⟨_, p, hp, hl⟩)
      · exact ⟨p, Or.inl hp, hl⟩
      · exact ⟨p, Or.inr hp, hl⟩
  have hstarted : ∀ p : Player, (audioInitialized = true ∨ contextRunning = true) →
      sound.player = some p → p.loaded = true →
      playSound audioInitialized contextRunning sound
        = ({ sound with player := some { p with started := true } }, PlayOutcome.started) := by
    intro p hactive hp hl
    unfold playSound
    rcases hactive with h | h <;> simp [h, hp, hl]
  have hstartedUpload : ∀ p : Player, (audioInitialized = true ∨ contextRunning = true) →
      sound.uploadedPlayer = some p → p.loaded = true →
      playSound audioInitialized contextRunning sound
        = ({ sound with uploadedPlayer := some { p with started := true } },
          PlayOutcome.started) := by
    intro p hactive hp hl
    have hnone : sound.player = none := by
      rcases hshape with h | h
      · exact h
      · rw [h] at hp
        exact absurd hp (by simp)
    unfold playSound
    rcases hactive with h | h <;> simp [h, hp, hl, hnone]
  have houtcome :
      ((playSound audioInitialized contextRunning sound).2 = PlayOutcome.started ↔
        (audioInitialized = true ∨ contextRunning = true) ∧ IsReady sound) ∧
      (audioInitialized = false ∧ contextRunning = false →
        playSound audioInitialized contextRunning sound = (sound, PlayOutcome.audioNotActive)) ∧
      ((audioInitialized = true ∨ contextRunning = true) ∧ ¬ IsReady sound →
        playSound audioInitialized contextRunning sound = (sound, PlayOutcome.notLoaded)) := by
    rw [hready]
    unfold playSound
    cases audioInitialized <;> cases contextRunning <;> cases hpl : sound.player <;>
      cases hup : sound.uploadedPlayer <;> simp
    all_goals first
      | (rename_i p; cases hl : p.loaded <;> simp [hl])
      | skip
    all_goals (rename_i p q; cases hl : p.loaded <;> simp [hl])
  exact ⟨houtcome.1, houtcome.2.1, houtcome.2.2, hstarted, hstartedUpload⟩

/-- Witness of C20 on a ready sound: with audio active its player is started,
with audio not active nothing is started and the sound is as it was. -/
theorem playSound_spec_witness :
    playSound true false readySound
      = ({ readySound with player := some { loaded := true, started := true } },
        PlayOutcome.started) ∧
    readySound.player = some { loaded := true, started := false } ∧
    playSound false false readySound = (readySound, PlayOutcome.audioNotActive) ∧
    playSound true true (provisionedSound "s0" "--Air-Horn.ogg" 0)
      = (provisionedSound "s0" "--Air-Horn.ogg" 0, PlayOutcome.notLoaded) ∧
    ((playSound true false readySound).2 = PlayOutcome.started ↔
      (true = true ∨ false = true) ∧ IsReady readySound) :=
  ⟨by decide, by decide, by decide, by decide,
    (playSound_spec true false readySound (Or.inr rfl)).1⟩

/-! ## Lemmas on the load pipeline -/

theorem getElem?_forEachAt (f : Sound → Sound) (hf : ∀ s, f (f s) = f s) (positions : List Nat) :
    ∀ (soundsData : List Sound) (j : Nat),
      (forEachAt f positions soundsData)[j]?
        = (soundsData[j]?).map (fun s => if j ∈ positions then f s else s) := by
  induction positions with
  | nil =>
      intro soundsData j
      simp [forEachAt]
  | cons i is ih =>
      intro soundsData j
      have hstep : forEachAt f (i :: is) soundsData = forEachAt f is (soundsData.modify f i) := rfl
      rw [hstep, ih, List.getElem?_modify]
      cases soundsData[j]? with
      | none => rfl
      | some s =>
          by_cases hij : i = j <;> by_cases hj : j ∈ is <;>
            simp [hij, hj, hf, Ne.symm, eq_comm]

theorem length_forEachAt (f : Sound → Sound) (positions : List Nat) :
    ∀ soundsData : List Sound, (forEachAt f positions soundsData).length = soundsData.length := by
  induction positions with
  | nil =>
      intro soundsData
      rfl
  | cons i is ih =>
      intro soundsData
      have hstep : forEachAt f (i :: is) soundsData = forEachAt f is (soundsData.modify f i) := rfl
      rw [hstep, ih, List.length_modify]

theorem mem_defaultSoundsToLoad (soundsData : List Sound) (i : Nat) :
    i ∈ defaultSoundsToLoad soundsData ↔
      ∃ s, soundsData[i]? = some s ∧ s.isUploaded = false ∧ s.player = none ∧
        s.isLoading = false := by
  unfold defaultSoundsToLoad
  rw [List.mem_filter, List.mem_range]
  constructor
  · rintro ⟨hi, hc⟩
    rw [List.getElem?_eq_getElem hi] at hc ⊢
    refine ⟨_, rfl, ?_⟩
    simpa [isDefaultCandidate, and_assoc] using hc
  · rintro ⟨s, hs, h1, h2, h3⟩
    have hi : i < soundsData.length := (List.getElem?_eq_some_iff.mp hs).1
    refine ⟨hi, ?_⟩
    rw [hs]
    simp [isDefaultCandidate, h1, h2, h3]
theorem clearLoading_eq (s : Sound) (h : s.isLoading = false) : clearLoading s = s := by
  cases s
  simp at h
  simp [clearLoading, h]

theorem clearLoading_markLoading (s : Sound) : clearLoading (markLoading s) = clearLoading s :=
  rfl

theorem getElem?_loadBegin (soundsData : List Sound) (j : Nat) :
    (loadBegin (defaultSoundsToLoad soundsData) soundsData).1[j]?
      = (soundsData[j]?).map (fun s =>
          if j ∈ defaultSoundsToLoad soundsData ∧
              (loadBegin (defaultSoundsToLoad soundsData) soundsData).2 ≠ [] then
            markLoading s
          else s) := by
  unfold loadBegin
  simp only []
  split
  · rw [getElem?_forEachAt clearLoading (fun _ => rfl),
      getElem?_forEachAt markLoading (fun _ => rfl)]
    cases hs : soundsData[j]? with
    | none => rfl
    | some s =>
        by_cases hj : j ∈ defaultSoundsToLoad soundsData
        · obtain ⟨s2, hs2, _, _, hload⟩ := (mem_defaultSoundsToLoad soundsData j).mp hj
          rw [hs] at hs2
          have hss : s = s2 := Option.some.inj hs2
          subst hss
          simp only [Option.map_some', hj, if_true, ne_eq, not_true_eq_false, and_false,
            if_false]
          exact congrArg some ((clearLoading_markLoading s).trans (clearLoading_eq s hload))
        · simp [hj]
  · rename_i hlen
    rw [getElem?_forEachAt markLoading (fun _ => rfl)]
    have hne : List.filter
        (fun i => (forEachAt markLoading (defaultSoundsToLoad soundsData) soundsData)[i]?.any
          (fun s => s.filePath != ""))
        (defaultSoundsToLoad soundsData) ≠ [] := fun h => hlen (by rw [h]; rfl)
    simp [hne]

theorem loadBegin_batch (soundsData : List Sound) (i : Nat)
    (hi : i ∈ (loadBegin (defaultSoundsToLoad soundsData) soundsData).2) :
    i ∈ defaultSoundsToLoad soundsData ∧
    (loadBegin (defaultSoundsToLoad soundsData) soundsData).2 ≠ [] ∧
    ∃ s, soundsData[i]? = some s ∧ s.isUploaded = false ∧ s.player = none ∧
      s.isLoading = false ∧
      (loadBegin (defaultSoundsToLoad soundsData) soundsData).1[i]?
        = some (markLoading s) := by
  have hne : (loadBegin (defaultSoundsToLoad soundsData) soundsData).2 ≠ [] :=
    List.ne_nil_of_mem hi
  have hsel : i ∈ defaultSoundsToLoad soundsData := by
    unfold loadBegin at hi
    simp only [] at hi
    split at hi
    · simp at hi
    · exact (List.mem_filter.mp hi).1
  obtain ⟨s, hs, h1, h2, h3⟩ := (mem_defaultSoundsToLoad soundsData i).mp hsel
  refine ⟨hsel, hne, s, hs, h1, h2, h3, ?_⟩
  rw [getElem?_loadBegin, hs]
  simp [hsel, hne]

theorem settleLoaded_idem (player : String → Option Player) (s : Sound) :
    settleLoaded player (settleLoaded player s) = settleLoaded player s := by
  unfold settleLoaded
  cases hp : player s.id with
  | none => simp [hp]
  | some p =>
      cases hl : p.loaded <;> simp [hp, hl]

theorem getElem?_loadSettle (result : BatchResult) (batch : List Nat) (soundsData : List Sound)
    (j : Nat) :
    (loadSettle result batch soundsData)[j]?
      = (soundsData[j]?).map
          (fun s => if j ∈ batch then settledSound result batch j s else s) := by
  cases result with
  | loaded player =>
      exact getElem?_forEachAt (settleLoaded player) (settleLoaded_idem player) batch soundsData j
  | threw => exact getElem?_forEachAt settleThrew (by intro _; rfl) batch soundsData j
  | threwWhileSettling player settled =>
      show (forEachAt settleThrew batch
        (forEachAt (settleLoaded player) (batch.take settled) soundsData))[j]? = _
      rw [getElem?_forEachAt settleThrew (by intro _; rfl),
        getElem?_forEachAt (settleLoaded player) (settleLoaded_idem player)]
      cases soundsData[j]? with
      | none => rfl
      | some s =>
          by_cases hj : j ∈ batch
          · by_cases ht : j ∈ batch.take settled <;> simp [hj, ht, settledSound]
          · have ht : j ∉ batch.take settled := fun h => hj (List.mem_of_mem_take h)
            simp [hj, ht]

theorem length_loadSettle (result : BatchResult) (batch : List Nat) (soundsData : List Sound) :
    (loadSettle result batch soundsData).length = soundsData.length := by
  cases result with
  | loaded player => exact length_forEachAt _ _ _
  | threw => exact length_forEachAt _ _ _
  | threwWhileSettling player settled =>
      show (forEachAt settleThrew batch
        (forEachAt (settleLoaded player) (batch.take settled) soundsData)).length = _
      rw [length_forEachAt, length_forEachAt]

theorem settleLoaded_spec (player : String → Option Player) (s : Sound) (hs : s.player = none) :
    (settleLoaded player s).isLoading = false ∧
    (reportsLoaded player s.id →
      (settleLoaded player s).player = player s.id ∧ (settleLoaded player s).player ≠ none ∧
        (settleLoaded player s).hasError = false) ∧
    (¬ reportsLoaded player s.id →
      (settleLoaded player s).player = none ∧ (settleLoaded player s).hasError = true) ∧
    settleLoaded player s = { s with
      isLoading := (settleLoaded player s).isLoading
      player := (settleLoaded player s).player
      hasError := (settleLoaded player s).hasError } := by
  unfold reportsLoaded settleLoaded
  cases hp : player s.id with
  | none => simp [hs]
  | some p =>
      cases hl : p.loaded <;> simp [hl, hs]

theorem defaultSoundsToLoad_spec (soundsData : List Sound) :
    (∀ i, i ∈ defaultSoundsToLoad soundsData ↔
      ∃ s, soundsData[i]? = some s ∧ s.isUploaded = false ∧ s.player = none ∧
        s.isLoading = false) ∧
    (∀ (i : Nat) (s : Sound), soundsData[i]? = some s →
      (s.isLoading = true ∨ s.player ≠ none ∨ s.isUploaded = true) →
      i ∉ defaultSoundsToLoad soundsData ∧
        (loadBegin (defaultSoundsToLoad soundsData) soundsData).1[i]? = some s) ∧
    (∀ (i : Nat) (s : Sound), soundsData[i]? = some s →
      (loadBegin (defaultSoundsToLoad soundsData) soundsData).1[i]? = some s ∨
      (loadBegin (defaultSoundsToLoad soundsData) soundsData).1[i]?
        = some (markLoading s)) ∧
    (∀ (i : Nat) (s : Sound), soundsData[i]? = some s →
      s.hasError = true → s.isUploaded = false → s.player = none → s.isLoading = false →
      i ∈ defaultSoundsToLoad soundsData ∧
        (s.filePath ≠ "" →
          (loadBegin (defaultSoundsToLoad soundsData) soundsData).1[i]?
            = some (markLoading s))) := by
  refine ⟨mem_defaultSoundsToLoad soundsData, ?_, ?_, ?_⟩
  · intro i s hs hstate
    have hnot : i ∉ defaultSoundsToLoad soundsData := by
      intro hsel
      obtain ⟨s2, hs2, h1, h2, h3⟩ := (mem_defaultSoundsToLoad soundsData i).mp hsel
      rw [hs] at hs2
      have hss : s = s2 := Option.some.inj hs2
      subst hss
      rcases hstate with h | h | h
      · rw [h3] at h
        exact absurd h (by decide)
      · exact h h2
      · rw [h1] at h
        exact absurd h (by decide)
    refine ⟨hnot, ?_⟩
    rw [getElem?_loadBegin, hs]
    simp [hnot]
  · intro i s hs
    rw [getElem?_loadBegin, hs]
    by_cases hc : i ∈ defaultSoundsToLoad soundsData ∧
        (loadBegin (defaultSoundsToLoad soundsData) soundsData).2 ≠ []
    · right
      rw [Option.map_some', if_pos hc]
    · left
      rw [Option.map_some', if_neg hc]
  · intro i s hs _ h1 h2 h3
    have hsel : i ∈ defaultSoundsToLoad soundsData :=
      (mem_defaultSoundsToLoad soundsData i).mpr ⟨s, hs, h1, h2, h3⟩
    refine ⟨hsel, ?_⟩
    intro hpath
    have hbatch : i ∈ (loadBegin (defaultSoundsToLoad soundsData) soundsData).2 := by
      unfold loadBegin
      simp only []
      have hmem : i ∈ List.filter
          (fun i => (forEachAt markLoading (defaultSoundsToLoad soundsData) soundsData)[i]?.any
            (fun s => s.filePath != ""))
          (defaultSoundsToLoad soundsData) := by
        rw [List.mem_filter]
        refine ⟨hsel, ?_⟩
        rw [getElem?_forEachAt markLoading (fun _ => rfl), hs]
        simpa [hsel, markLoading] using hpath
      have hlen : ¬ (List.filter
          (fun i => (forEachAt markLoading (defaultSoundsToLoad soundsData) soundsData)[i]?.any
            (fun s => s.filePath != ""))
          (defaultSoundsToLoad soundsData)).length = 0 := by
        intro h0
        rw [List.length_eq_zero] at h0
        rw [h0] at hmem
        simp at hmem
      rw [if_neg hlen]
      exact hmem
    obtain ⟨_, _, s2, hs2, _, _, _, hget⟩ := loadBegin_batch soundsData i hbatch
    rw [hs] at hs2
    have hss : s = s2 := Option.some.inj hs2
    subst hss
    exact hget

/-! ## C19: the end of a batch load -/

theorem settledSound_spec (player : String → Option Player) (settled : Nat) (batch : List Nat)
    (j : Nat) (s : Sound) (hs : s.player = none) :
    (settledSound (BatchResult.threwWhileSettling player settled) batch j s).isLoading = false ∧
    (settledSound (BatchResult.threwWhileSettling player settled) batch j s).hasError = true ∧
    (j ∈ batch.take settled ∧ reportsLoaded player s.id →
      (settledSound (BatchResult.threwWhileSettling player settled) batch j s).player
          = player s.id ∧
        (settledSound (BatchResult.threwWhileSettling player settled) batch j s).player ≠ none) ∧
    (¬ (j ∈ batch.take settled ∧ reportsLoaded player s.id) →
      (settledSound (BatchResult.threwWhileSettling player settled) batch j s).player = none) ∧
    settledSound (BatchResult.threwWhileSettling player settled) batch j s = { s with
      isLoading := false
      player := (settledSound (BatchResult.threwWhileSettling player settled) batch j s).player
      hasError := true } := by
  show (if j ∈ batch.take settled then settleThrew (settleLoaded player s)
      else settleThrew s).isLoading = false ∧
    (if j ∈ batch.take settled then settleThrew (settleLoaded player s)
      else settleThrew s).hasError = true ∧
    (j ∈ batch.take settled ∧ reportsLoaded player s.id →
      (if j ∈ batch.take settled then settleThrew (settleLoaded player s)
        else settleThrew s).player = player s.id ∧
      (if j ∈ batch.take settled then settleThrew (settleLoaded player s)
        else settleThrew s).player ≠ none) ∧
    (¬ (j ∈ batch.take settled ∧ reportsLoaded player s.id) →
      (if j ∈ batch.take settled then settleThrew (settleLoaded player s)
        else settleThrew s).player = none) ∧
    (if j ∈ batch.take settled then settleThrew (settleLoaded player s)
      else settleThrew s) = { s with
      isLoading := false
      player := (if j ∈ batch.take settled then settleThrew (settleLoaded player s)
        else settleThrew s).player
      hasError := true }
  by_cases ht : j ∈ batch.take settled
  · simp only [ht, if_true, true_and]
    unfold reportsLoaded settleThrew settleLoaded
    cases hp : player s.id with
    | none => simp [hs]
    | some p =>
        cases hl : p.loaded <;> simp [hl, hs]
  · simp [ht, settleThrew, hs]

/-- C19, as stated, fails: when the `try` block throws after the first sound
of the batch was settled with its loaded player, the `catch` block sets the
error flag of that sound and leaves its player: the sound ends with the error
flag and a player, not failed with no player. -/
theorem throw_after_settling_counterexample :
    loadingCatalog.map (fun s => (s.id, s.isLoading, s.player, s.hasError))
      = [("s0", true, none, false), ("s1", true, none, false)] ∧
    (loadSettle (BatchResult.threwWhileSettling onlyFirstLoaded 1) [0, 1] loadingCatalog).map
        (fun s => (s.id, s.isLoading, s.player, s.hasError))
      = [("s0", false, some { loaded := true, started := false }, true),
         ("s1", false, none, true)] := by
  decide

/-- C19, amended: for every catalog, every batch of sounds that hold no player
(as the sounds the pipeline selects do) and every engine outcome.  When the
load completes, each sound of the batch ends not loading, with the player
reported for its own id and no error if the engine reports a loaded player for
that id, and with no player and the error flag otherwise; its other fields are
unchanged.  When the construction or `Tone.loaded()` throws, each sound of the
batch ends not loading, with the error flag and no player.  When the `try`
block throws after `settled` sounds were settled, each sound of the batch ends
not loading and with the error flag; it holds the player reported for its own
id if it is among the sounds settled before the throw and the engine reported
a loaded player for its id, and no player otherwise.  In every case sounds
outside the batch are unchanged and the catalog keeps its length. -/
theorem batch_settled (soundsData : List Sound) (batch : List Nat)
    (player : String → Option Player) (settled : Nat)
    (hbatch : ∀ i ∈ batch, ∀ s, soundsData[i]? = some s → s.player = none) :
    (∀ (i : Nat) (s : Sound), soundsData[i]? = some s → i ∈ batch →
      ∃ s2, (loadSettle (BatchResult.loaded player) batch soundsData)[i]? = some s2 ∧
        s2.isLoading = false ∧
        (reportsLoaded player s.id →
          s2.player = player s.id ∧ s2.player ≠ none ∧ s2.hasError = false) ∧
        (¬ reportsLoaded player s.id → s2.player = none ∧ s2.hasError = true) ∧
        s2 = { s with isLoading := s2.isLoading, player := s2.player, hasError := s2.hasError }) ∧
    (∀ (i : Nat) (s : Sound), soundsData[i]? = some s → i ∈ batch →
      (loadSettle BatchResult.threw batch soundsData)[i]?
        = some { s with isLoading := false, hasError := true } ∧ s.player = none) ∧
    (∀ (i : Nat) (s : Sound), soundsData[i]? = some s → i ∈ batch →
      ∃ s2, (loadSettle (BatchResult.threwWhileSettling player settled) batch soundsData)[i]?
          = some s2 ∧
        s2.isLoading = false ∧ s2.hasError = true ∧
        (i ∈ batch.take settled ∧ reportsLoaded player s.id →
          s2.player = player s.id ∧ s2.player ≠ none) ∧
        (¬ (i ∈ batch.take settled ∧ reportsLoaded player s.id) → s2.player = none) ∧
        s2 = { s with isLoading := false, player := s2.player, hasError := true }) ∧
    (∀ (result : BatchResult) (i : Nat), i ∉ batch →
      (loadSettle result batch soundsData)[i]? = soundsData[i]?) ∧
    (∀ result : BatchResult,
      (loadSettle result batch soundsData).length = soundsData.length) := by
  refine ⟨?_, ?_, ?_, ?_, ?_⟩
  · intro i s hs hi
    refine ⟨settleLoaded player s, ?_, settleLoaded_spec player s (hbatch i hi s hs)⟩
    rw [getElem?_loadSettle, hs]
    simp [hi, settledSound]
  · intro i s hs hi
    refine ⟨?_, hbatch i hi s hs⟩
    rw [getElem?_loadSettle, hs]
    simp [hi, settledSound, settleThrew]
  · intro i s hs hi
    refine ⟨settledSound (BatchResult.threwWhileSettling player settled) batch i s, ?_,
      settledSound_spec player settled batch i s (hbatch i hi s hs)⟩
    rw [getElem?_loadSettle, hs]
    simp [hi]
  · intro result i hi
    rw [getElem?_loadSettle]
    cases soundsData[i]? <;> simp [hi]
  · intro result
    exact length_loadSettle result batch soundsData

/-- Witness of the amended C19 on the two-sound catalog while both sounds are
loading: the engine reports a loaded player for `s0` only, so when the load
completes the first sound ends ready and the second failed; when the load
throws at once both end failed with no player; when it throws after the first
sound was settled, both end with the error flag and the first keeps its
player. -/
theorem batch_settled_witness :
    loadingCatalog.map (fun s => (s.id, s.isLoading)) = [("s0", true), ("s1", true)] ∧
    (loadSettle (BatchResult.loaded onlyFirstLoaded) [0, 1] loadingCatalog).map
        (fun s => (s.isLoading, s.player, s.hasError))
      = [(false, some { loaded := true, started := false }, false), (false, none, true)] ∧
    (loadSettle BatchResult.threw [0, 1] loadingCatalog).map
        (fun s => (s.isLoading, s.player, s.hasError))
      = [(false, none, true), (false, none, true)] ∧
    (loadSettle (BatchResult.threwWhileSettling onlyFirstLoaded 1) [0, 1] loadingCatalog).map
        (fun s => (s.isLoading, s.player, s.hasError))
      = [(false, some { loaded := true, started := false }, true), (false, none, true)] ∧
    (loadSettle (BatchResult.threwWhileSettling onlyFirstLoaded 0) [0, 1] loadingCatalog).map
        (fun s => (s.isLoading, s.player, s.hasError))
      = [(false, none, true), (false, none, true)] ∧
    (loadSettle (BatchResult.threwWhileSettling onlyFirstLoaded 1) [0, 1] loadingCatalog).length
      = loadingCatalog.length :=
  ⟨by decide, by decide, by decide, by decide, by decide,
    (batch_settled loadingCatalog [0, 1] onlyFirstLoaded 1 (by decide)).2.2.2.2
      (BatchResult.threwWhileSettling onlyFirstLoaded 1)⟩

theorem loadBegin_batch_eq (soundsData : List Sound)
    (hpath : ∀ s ∈ soundsData, s.filePath ≠ "") :
    (loadBegin (defaultSoundsToLoad soundsData) soundsData).2
      = defaultSoundsToLoad soundsData := by
  have hfilter : List.filter
      (fun i => (forEachAt markLoading (defaultSoundsToLoad soundsData) soundsData)[i]?.any
        (fun s => s.filePath != ""))
      (defaultSoundsToLoad soundsData) = defaultSoundsToLoad soundsData := by
    rw [List.filter_eq_self]
    intro i hi
    obtain ⟨s, hs, _⟩ := (mem_defaultSoundsToLoad soundsData i).mp hi
    rw [getElem?_forEachAt markLoading (fun _ => rfl), hs]
    simpa [hi, markLoading] using hpath s (List.getElem?_mem hs)
  unfold loadBegin
  simp only []
  rw [hfilter]
  split
  · rename_i h0
    exact (List.length_eq_zero.mp h0).symm
  · rfl
/-! ## User events and the load fields -/

theorem step_loadFields (toLowerCase : String → String) (s : State) (e : Event) :
    ∃ added : List Sound, (∀ a ∈ added, IsFreshUpload a) ∧
      (step toLowerCase s e).soundsData.map loadFields
        = (s.soundsData ++ added).map loadFields := by
  cases e with
  | addCategory input newId => exact ⟨[], by simp, by simp [step]⟩
  | renameCategory categoryId currentName input => exact ⟨[], by simp, by simp [step]⟩
  | deleteCategory categoryId confirmed =>
      refine ⟨[], by simp, ?_⟩
      show (deleteCategory s categoryId confirmed).1.soundsData.map loadFields = _
      unfold deleteCategory
      split
      · simp
      · split
        · simp
        · split
          · rw [List.append_nil, List.map_map]
            apply List.map_congr_left
            intro sound _
            by_cases h : sound.category = categoryId
            · simp [h, loadFields]
            · simp [h]
          · simp
  | saveEdit soundId nameValue colorValue categoryValue newCategoryValue newId =>
      refine ⟨[], by simp, ?_⟩
      show (saveEdit toLowerCase s soundId nameValue colorValue categoryValue newCategoryValue
        newId).soundsData.map loadFields = _
      rw [List.append_nil]
      unfold saveEdit
      split
      · rfl
      · simp only []
        split
        · split
          · exact map_updateFirst _ _ loadFields (by intro _; rfl) _
          · exact map_updateFirst _ _ loadFields (by intro _; rfl) _
        · exact map_updateFirst _ _ loadFields (by intro _; rfl) _
  | upload genId genUrl files =>
      obtain ⟨added, happ, _, hfields, _, _⟩ :=
        registerUploads_appends genId genUrl files s.soundsData
      refine ⟨added, hfields, ?_⟩
      show (registerUploads genId genUrl files s.soundsData).1.map loadFields = _
      rw [happ]

theorem loadFields_of_map_eq (l l2 : List Sound)
    (h : l2.map loadFields = l.map loadFields) (i : Nat) (s2 : Sound) (hs : l2[i]? = some s2) :
    ∃ s, l[i]? = some s ∧ loadFields s = loadFields s2 := by
  have h1 : (l2.map loadFields)[i]? = some (loadFields s2) := by
    rw [List.getElem?_map, hs]
    rfl
  rw [h, List.getElem?_map] at h1
  cases hl : l[i]? with
  | none =>
      rw [hl] at h1
      simp at h1
  | some s =>
      rw [hl] at h1
      exact ⟨s, rfl, by simpa using h1⟩

theorem step_sounds_after (toLowerCase : String → String) (s : State) (e : Event) :
    s.soundsData.length ≤ (step toLowerCase s e).soundsData.length ∧
    (∀ (i : Nat) (s2 : Sound), (step toLowerCase s e).soundsData[i]? = some s2 →
      (∃ s1, s.soundsData[i]? = some s1 ∧ loadFields s1 = loadFields s2) ∨
      (s.soundsData.length ≤ i ∧ loadFields s2 = (true, none, none, true, false))) ∧
    (∀ (i : Nat) (s1 : Sound), s.soundsData[i]? = some s1 →
      ∃ s2, (step toLowerCase s e).soundsData[i]? = some s2 ∧ loadFields s2 = loadFields s1) := by
  obtain ⟨added, hfresh, hmap⟩ := step_loadFields toLowerCase s e
  have hlen : (step toLowerCase s e).soundsData.length = s.soundsData.length + added.length := by
    have := congrArg List.length hmap
    simpa using this
  refine ⟨by omega, ?_, ?_⟩
  · intro i s2 hs2
    obtain ⟨s1, hs1, hf⟩ := loadFields_of_map_eq _ _ hmap i s2 hs2
    by_cases hi : i < s.soundsData.length
    · rw [List.getElem?_append_left hi] at hs1
      exact Or.inl ⟨s1, hs1, hf⟩
    · rw [List.getElem?_append_right (by omega)] at hs1
      have hmem : s1 ∈ added := List.getElem?_mem hs1
      refine Or.inr ⟨by omega, ?_⟩
      obtain ⟨h1, h2, h3, _, h5, h6⟩ := hfresh s1 hmem
      rw [← hf]
      simp [loadFields, h1, h2, h3, h5, h6]
  · intro i s1 hs1
    have hi : i < s.soundsData.length := (List.getElem?_eq_some_iff.mp hs1).1
    have hs1' : (s.soundsData ++ added)[i]? = some s1 := by
      rw [List.getElem?_append_left hi]
      exact hs1
    exact loadFields_of_map_eq _ _ hmap.symm i s1 hs1'
/-! ## The load invariant -/

theorem loadFields_eq (s1 s2 : Sound) (h : loadFields s1 = loadFields s2) :
    s1.isUploaded = s2.isUploaded ∧ s1.player = s2.player ∧
      s1.uploadedPlayer = s2.uploadedPlayer ∧ s1.isLoading = s2.isLoading ∧
      s1.hasError = s2.hasError := by
  simpa [loadFields] using h

theorem loadFields_fresh (s : Sound) (h : loadFields s = (true, none, none, true, false)) :
    s.isUploaded = true ∧ s.player = none ∧ s.uploadedPlayer = none ∧ s.isLoading = true ∧
      s.hasError = false := by
  simpa [loadFields] using h

theorem loadInvariant_start (genId : Nat → String) (manifest : List String) :
    LoadInvariant (startSession genId manifest) := by
  have hfresh : ∀ (i : Nat) (s : Sound),
      (startSession genId manifest).state.soundsData[i]? = some s → IsFreshProvisioned s :=
    fun i s hs => (initializeFrom_spec genId manifest 0).2.2.2 s (List.getElem?_mem hs)
  refine ⟨?_, ?_, ?_, ?_, ?_, List.Pairwise.nil, ?_, List.nodup_nil⟩
  · intro i s hs
    obtain ⟨h1, _, _, _, _, h6⟩ := hfresh i s hs
    exact ⟨fun h => absurd (h1.symm.trans h) (by decide), fun _ => h6⟩
  · intro i s hs hp
    obtain ⟨_, h2, h3, _, h5, h6⟩ := hfresh i s hs
    rcases hp with hp | hp
    · exact absurd h5 hp
    · exact absurd h6 hp
  · intro i s hs hp
    obtain ⟨_, _, _, _, _, h6⟩ := hfresh i s hs
    exact absurd h6 hp
  · intro i s hs hu
    obtain ⟨h1, _, _, _, _, _⟩ := hfresh i s hs
    exact absurd (h1.symm.trans hu) (by decide)
  · intro batch hb
    simp [startSession] at hb
  · intro i hi
    simp [startSession] at hi

theorem loadInvariant_user (toLowerCase : String → String) (x : Session) (e : Event)
    (h : LoadInvariant x) : LoadInvariant (sessionStep toLowerCase x (LoadEvent.user e)) := by
  obtain ⟨hlen, hafter, hbefore⟩ := step_sounds_after toLowerCase x.state e
  have hbound : ∀ i ∈ x.uploads, i < x.state.soundsData.length := by
    intro i hi
    obtain ⟨s, hs, _⟩ := h.inUploads i hi
    exact (List.getElem?_eq_some_iff.mp hs).1
  refine ⟨?_, ?_, ?_, ?_, ?_, h.disjoint, ?_, ?_⟩
  · intro i s2 hs2
    rcases hafter i s2 hs2 with ⟨s1, hs1, hf⟩ | ⟨_, hf⟩
    · obtain ⟨e1, e2, e3, _, _⟩ := loadFields_eq s1 s2 hf
      have := h.provenance i s1 hs1
      rw [e1, e2, e3] at this
      exact this
    · obtain ⟨e1, e2, _, _, _⟩ := loadFields_fresh s2 hf
      exact ⟨fun _ => e2, fun hu => absurd (e1.symm.trans hu) (by decide)⟩
  · intro i s2 hs2
    rcases hafter i s2 hs2 with ⟨s1, hs1, hf⟩ | ⟨_, hf⟩
    · obtain ⟨_, e2, e3, e4, _⟩ := loadFields_eq s1 s2 hf
      have := h.handle i s1 hs1
      rw [e2, e3, e4] at this
      exact this
    · obtain ⟨_, e2, e3, _, _⟩ := loadFields_fresh s2 hf
      intro hp
      rcases hp with hp | hp
      · exact absurd e2 hp
      · exact absurd e3 hp
  · intro i s2 hs2
    rcases hafter i s2 hs2 with ⟨s1, hs1, hf⟩ | ⟨_, hf⟩
    · obtain ⟨_, _, e3, _, e5⟩ := loadFields_eq s1 s2 hf
      have := h.uploadHandle i s1 hs1
      rw [e3, e5] at this
      exact this
    · obtain ⟨_, _, e3, _, _⟩ := loadFields_fresh s2 hf
      intro hp
      exact absurd e3 hp
  · intro i s2 hs2
    rcases hafter i s2 hs2 with ⟨s1, hs1, hf⟩ | ⟨_, hf⟩
    · obtain ⟨e1, _, _, e4, e5⟩ := loadFields_eq s1 s2 hf
      have := h.upload i s1 hs1
      rw [e1, e4, e5] at this
      exact this
    · obtain ⟨_, _, _, _, e5⟩ := loadFields_fresh s2 hf
      exact fun _ _ => e5
  · intro batch hb i hi
    obtain ⟨s1, hs1, h1, h2⟩ := h.inBatch batch hb i hi
    obtain ⟨s2, hs2, hf⟩ := hbefore i s1 hs1
    obtain ⟨e1, _, _, e4, _⟩ := loadFields_eq s2 s1 hf
    exact ⟨s2, hs2, e1.trans h1, e4.trans h2⟩
  · intro i hi
    rcases List.mem_append.mp hi with hi | hi
    · obtain ⟨s1, hs1, h1, h2⟩ := h.inUploads i hi
      obtain ⟨s2, hs2, hf⟩ := hbefore i s1 hs1
      obtain ⟨e1, _, _, e4, _⟩ := loadFields_eq s2 s1 hf
      exact ⟨s2, hs2, e1.trans h1, e4.trans h2⟩
    · rw [List.mem_range'] at hi
      obtain ⟨m, hm, him⟩ := hi
      have hlt : i < (step toLowerCase x.state e).soundsData.length := by omega
      refine ⟨_, List.getElem?_eq_getElem hlt, ?_⟩
      rcases hafter i _ (List.getElem?_eq_getElem hlt) with ⟨s1, hs1, _⟩ | ⟨_, hf⟩
      · have := (List.getElem?_eq_some_iff.mp hs1).1
        omega
      · obtain ⟨e1, _, _, e4, _⟩ := loadFields_fresh _ hf
        exact ⟨e1, e4⟩
  · show (x.uploads ++ List.range' x.state.soundsData.length
      ((step toLowerCase x.state e).soundsData.length - x.state.soundsData.length)).Nodup
    rw [List.nodup_append]
    refine ⟨h.nodup, List.nodup_range' _ _, ?_⟩
    intro i hi hi2
    rw [List.mem_range'] at hi2
    obtain ⟨m, _, him⟩ := hi2
    have := hbound i hi
    omega
theorem loadBegin_after (soundsData : List Sound) (j : Nat) (s2 : Sound)
    (hs2 : (loadBegin (defaultSoundsToLoad soundsData) soundsData).1[j]? = some s2) :
    ∃ s1, soundsData[j]? = some s1 ∧
      (s2 = s1 ∨ (s2 = markLoading s1 ∧ s1.isUploaded = false ∧ s1.player = none)) := by
  rw [getElem?_loadBegin] at hs2
  cases hs : soundsData[j]? with
  | none =>
      rw [hs] at hs2
      simp at hs2
  | some s1 =>
      rw [hs, Option.map_some'] at hs2
      refine ⟨s1, rfl, ?_⟩
      by_cases hc : j ∈ defaultSoundsToLoad soundsData ∧
          (loadBegin (defaultSoundsToLoad soundsData) soundsData).2 ≠ []
      · rw [if_pos hc] at hs2
        obtain ⟨s, hs', h1, h2, _⟩ := (mem_defaultSoundsToLoad soundsData j).mp hc.1
        rw [hs] at hs'
        have hss : s1 = s := Option.some.inj hs'
        subst hss
        exact Or.inr ⟨(Option.some.inj hs2).symm, h1, h2⟩
      · rw [if_neg hc] at hs2
        exact Or.inl (Option.some.inj hs2).symm

theorem loadBegin_keeps (soundsData : List Sound) (j : Nat) (s : Sound)
    (hs : soundsData[j]? = some s) (hstate : s.isLoading = true ∨ s.isUploaded = true) :
    (loadBegin (defaultSoundsToLoad soundsData) soundsData).1[j]? = some s := by
  have hnot : j ∉ defaultSoundsToLoad soundsData := by
    intro hsel
    obtain ⟨s2, hs2, h1, _, h3⟩ := (mem_defaultSoundsToLoad soundsData j).mp hsel
    rw [hs] at hs2
    have hss : s = s2 := Option.some.inj hs2
    subst hss
    rcases hstate with h | h
    · exact absurd (h3.symm.trans h) (by decide)
    · exact absurd (h1.symm.trans h) (by decide)
  rw [getElem?_loadBegin, hs]
  simp [hnot]

theorem loadInvariant_begin (toLowerCase : String → String) (x : Session)
    (h : LoadInvariant x) :
    LoadInvariant (sessionStep toLowerCase x LoadEvent.loadAndRenderSounds) := by
  have hold : ∀ batch ∈ x.batches, ∀ i ∈ batch,
      ∃ s, (loadBegin (defaultSoundsToLoad x.state.soundsData) x.state.soundsData).1[i]? = some s ∧
        s.isUploaded = false ∧ s.isLoading = true := by
    intro batch hb i hi
    obtain ⟨s, hs, h1, h2⟩ := h.inBatch batch hb i hi
    exact ⟨s, loadBegin_keeps _ i s hs (Or.inl h2), h1, h2⟩
  refine ⟨?_, ?_, ?_, ?_, ?_, ?_, ?_, h.nodup⟩
  · intro i s2 hs2
    obtain ⟨s1, hs1, hrel⟩ := loadBegin_after _ i s2 hs2
    rcases hrel with hrel | ⟨hrel, _, _⟩
    · rw [hrel]
      exact h.provenance i s1 hs1
    · rw [hrel]
      exact h.provenance i s1 hs1
  · intro i s2 hs2
    obtain ⟨s1, hs1, hrel⟩ := loadBegin_after _ i s2 hs2
    rcases hrel with hrel | ⟨hrel, hu, hp⟩
    · rw [hrel]
      exact h.handle i s1 hs1
    · rw [hrel]
      intro hpl
      rcases hpl with hpl | hpl
      · exact absurd hp hpl
      · exact absurd ((h.provenance i s1 hs1).2 hu) hpl
  · intro i s2 hs2
    obtain ⟨s1, hs1, hrel⟩ := loadBegin_after _ i s2 hs2
    rcases hrel with hrel | ⟨hrel, hu, _⟩
    · rw [hrel]
      exact h.uploadHandle i s1 hs1
    · rw [hrel]
      intro hpl
      exact absurd ((h.provenance i s1 hs1).2 hu) hpl
  · intro i s2 hs2
    obtain ⟨s1, hs1, hrel⟩ := loadBegin_after _ i s2 hs2
    rcases hrel with hrel | ⟨hrel, hu, _⟩
    · rw [hrel]
      exact h.upload i s1 hs1
    · rw [hrel]
      intro hup
      exact absurd (hu.symm.trans hup) (by decide)
  · intro batch hb i hi
    show ∃ s, (loadBegin (defaultSoundsToLoad x.state.soundsData) x.state.soundsData).1[i]?
      = some s ∧ s.isUploaded = false ∧ s.isLoading = true
    have hb2 : batch ∈ x.batches ∨
        batch = (loadBegin (defaultSoundsToLoad x.state.soundsData) x.state.soundsData).2 := by
      simp only [sessionStep] at hb
      split at hb
      · exact Or.inl hb
      · rcases List.mem_append.mp hb with hb | hb
        · exact Or.inl hb
        · exact Or.inr (List.mem_singleton.mp hb)
    rcases hb2 with hb2 | hb2
    · exact hold batch hb2 i hi
    · rw [hb2] at hi
      obtain ⟨_, _, s, _, h1, _, _, hget⟩ := loadBegin_batch _ i hi
      exact ⟨markLoading s, hget, h1, rfl⟩
  · show (if (loadBegin (defaultSoundsToLoad x.state.soundsData) x.state.soundsData).2 = [] then
        x.batches
      else x.batches ++
        [(loadBegin (defaultSoundsToLoad x.state.soundsData) x.state.soundsData).2]).Pairwise
      List.Disjoint
    split
    · exact h.disjoint
    · rw [List.pairwise_append]
      refine ⟨h.disjoint, List.pairwise_singleton _ _, ?_⟩
      intro a ha b hb
      rw [List.mem_singleton] at hb
      subst hb
      intro i hia hib
      obtain ⟨s, hs, _, h2⟩ := h.inBatch a ha i hia
      obtain ⟨_, _, s2, hs2, _, _, h3, _⟩ := loadBegin_batch _ i hib
      rw [hs] at hs2
      have hss : s = s2 := Option.some.inj hs2
      subst hss
      exact absurd (h3.symm.trans h2) (by decide)
  · intro i hi
    obtain ⟨s, hs, h1, h2⟩ := h.inUploads i hi
    exact ⟨s, loadBegin_keeps _ i s hs (Or.inl h2), h1, h2⟩

theorem settleLoaded_fields (player : String → Option Player) (s : Sound) :
    (settleLoaded player s).isUploaded = s.isUploaded ∧
    (settleLoaded player s).uploadedPlayer = s.uploadedPlayer ∧
    (settleLoaded player s).isLoading = false ∧
    (s.player = none → (settleLoaded player s).player ≠ none →
      (settleLoaded player s).hasError = false) := by
  cases hpl : player s.id with
  | none => simp [settleLoaded, hpl]
  | some p =>
      cases hl : p.loaded <;> simp [settleLoaded, hpl, hl]

theorem settledSound_fields (result : BatchResult) (batch : List Nat) (j : Nat) (s : Sound) :
    (settledSound result batch j s).isUploaded = s.isUploaded ∧
    (settledSound result batch j s).uploadedPlayer = s.uploadedPlayer ∧
    (settledSound result batch j s).isLoading = false ∧
    (s.player = none → (∀ player settled, result ≠ BatchResult.threwWhileSettling player settled) →
      (settledSound result batch j s).player ≠ none →
        (settledSound result batch j s).hasError = false) := by
  cases result with
  | loaded player =>
      obtain ⟨f1, f2, f3, f4⟩ := settleLoaded_fields player s
      exact ⟨f1, f2, f3, fun hp _ => f4 hp⟩
  | threw => exact ⟨rfl, rfl, rfl, fun hp _ hne => absurd hp hne⟩
  | threwWhileSettling player settled =>
      obtain ⟨f1, f2, _, _⟩ := settleLoaded_fields player s
      refine ⟨?_, ?_, ?_, fun _ hno => absurd rfl (hno player settled)⟩
      · show (if j ∈ batch.take settled then settleThrew (settleLoaded player s)
          else settleThrew s).isUploaded = s.isUploaded
        split
        · exact f1
        · rfl
      · show (if j ∈ batch.take settled then settleThrew (settleLoaded player s)
          else settleThrew s).uploadedPlayer = s.uploadedPlayer
        split
        · exact f2
        · rfl
      · show (if j ∈ batch.take settled then settleThrew (settleLoaded player s)
          else settleThrew s).isLoading = false
        split <;> rfl

theorem settledSound_state (result : BatchResult) (batch : List Nat) (j : Nat) (s : Sound) :
    loadState (settledSound result batch j s) = LoadState.ready ∨
      loadState (settledSound result batch j s) = LoadState.failed := by
  cases result with
  | loaded player =>
      cases hpl : player s.id with
      | none => simp [settledSound, settleLoaded, hpl, loadState]
      | some p =>
          cases hl : p.loaded <;> simp [settledSound, settleLoaded, hpl, hl, loadState]
  | threw => simp [settledSound, settleThrew, loadState]
  | threwWhileSettling player settled =>
      right
      show loadState (if j ∈ batch.take settled then settleThrew (settleLoaded player s)
        else settleThrew s) = LoadState.failed
      split <;> simp [settleThrew, loadState]

theorem settleUpload_state (player : Option Player) (s : Sound) (hs : s.hasError = false) :
    loadState (settleUpload player s) = LoadState.ready ∨
      loadState (settleUpload player s) = LoadState.failed := by
  cases player with
  | none => simp [settleUpload, loadState]
  | some p =>
      cases hl : p.loaded <;> simp [settleUpload, hl, hs, loadState]

theorem pairwise_getElem? {α : Type} (R : α → α → Prop) (hsym : ∀ a b, R a b → R b a)
    (l : List α) (h : l.Pairwise R) (i k : Nat) (a b : α) (hi : l[i]? = some a)
    (hk : l[k]? = some b) (hne : i ≠ k) : R a b := by
  obtain ⟨hi1, hi2⟩ := List.getElem?_eq_some_iff.mp hi
  obtain ⟨hk1, hk2⟩ := List.getElem?_eq_some_iff.mp hk
  rw [List.pairwise_iff_getElem] at h
  rcases Nat.lt_or_gt_of_ne hne with hlt | hgt
  · rw [← hi2, ← hk2]
    exact h i k hi1 hk1 hlt
  · rw [← hi2, ← hk2]
    exact hsym _ _ (h k i hk1 hi1 hgt)

theorem loadInvariant_batchSettled (toLowerCase : String → String) (x : Session) (k : Nat)
    (result : BatchResult) (h : LoadInvariant x) :
    LoadInvariant (sessionStep toLowerCase x (LoadEvent.batchSettled k result)) := by
  simp only [sessionStep]
  cases hk : x.batches[k]? with
  | none => exact h
  | some batch =>
      have hb : batch ∈ x.batches := List.getElem?_mem hk
      have hin : ∀ i ∈ batch, ∀ s, x.state.soundsData[i]? = some s →
          s.isUploaded = false ∧ s.isLoading = true ∧ s.player = none ∧
            s.uploadedPlayer = none := by
        intro i hi s hs
        obtain ⟨s2, hs2, h1, h2⟩ := h.inBatch batch hb i hi
        rw [hs] at hs2
        have hss : s = s2 := Option.some.inj hs2
        subst hss
        refine ⟨h1, h2, ?_, (h.provenance i s hs).2 h1⟩
        by_contra hp
        have := h.handle i s hs (Or.inl hp)
        exact absurd (this.symm.trans h2) (by decide)
      have hafter : ∀ (j : Nat) (s2 : Sound),
          (loadSettle result batch x.state.soundsData)[j]? = some s2 →
          ∃ s1, x.state.soundsData[j]? = some s1 ∧
            ((j ∉ batch ∧ s2 = s1) ∨ (j ∈ batch ∧ s2 = settledSound result batch j s1)) := by
        intro j s2 hs2
        rw [getElem?_loadSettle] at hs2
        cases hs : x.state.soundsData[j]? with
        | none =>
            rw [hs] at hs2
            simp at hs2
        | some s1 =>
            rw [hs, Option.map_some'] at hs2
            refine ⟨s1, rfl, ?_⟩
            by_cases hj : j ∈ batch
            · rw [if_pos hj] at hs2
              exact Or.inr ⟨hj, (Option.some.inj hs2).symm⟩
            · rw [if_neg hj] at hs2
              exact Or.inl ⟨hj, (Option.some.inj hs2).symm⟩
      have hkeep : ∀ (j : Nat) (s : Sound), x.state.soundsData[j]? = some s → j ∉ batch →
          (loadSettle result batch x.state.soundsData)[j]? = some s := by
        intro j s hs hj
        rw [getElem?_loadSettle, hs]
        simp [hj]
      refine ⟨?_, ?_, ?_, ?_, ?_,
        List.Pairwise.sublist (List.eraseIdx_sublist _ _) h.disjoint, ?_, h.nodup⟩
      · intro i s2 hs2
        obtain ⟨s1, hs1, hrel⟩ := hafter i s2 hs2
        rcases hrel with ⟨_, hrel⟩ | ⟨hi, hrel⟩
        · rw [hrel]
          exact h.provenance i s1 hs1
        · obtain ⟨f1, f2, _, _⟩ := settledSound_fields result batch i s1
          rw [hrel, f1, f2]
          exact ⟨fun hu => absurd ((hin i hi s1 hs1).1.symm.trans hu) (by decide),
            fun _ => (hin i hi s1 hs1).2.2.2⟩
      · intro i s2 hs2
        obtain ⟨s1, hs1, hrel⟩ := hafter i s2 hs2
        rcases hrel with ⟨_, hrel⟩ | ⟨hi, hrel⟩
        · rw [hrel]
          exact h.handle i s1 hs1
        · obtain ⟨_, _, f3, _⟩ := settledSound_fields result batch i s1
          rw [hrel]
          exact fun _ => f3
      · intro i s2 hs2
        obtain ⟨s1, hs1, hrel⟩ := hafter i s2 hs2
        rcases hrel with ⟨_, hrel⟩ | ⟨hi, hrel⟩
        · rw [hrel]
          exact h.uploadHandle i s1 hs1
        · obtain ⟨_, f2, _, _⟩ := settledSound_fields result batch i s1
          rw [hrel, f2]
          intro hp
          exact absurd (hin i hi s1 hs1).2.2.2 hp
      · intro i s2 hs2
        obtain ⟨s1, hs1, hrel⟩ := hafter i s2 hs2
        rcases hrel with ⟨_, hrel⟩ | ⟨hi, hrel⟩
        · rw [hrel]
          exact h.upload i s1 hs1
        · obtain ⟨f1, _, _, _⟩ := settledSound_fields result batch i s1
          rw [hrel, f1]
          intro hu
          exact absurd ((hin i hi s1 hs1).1.symm.trans hu) (by decide)
      · intro batch2 hb2 i hi
        obtain ⟨m, hmk, hm⟩ := List.mem_eraseIdx_iff_getElem?.mp hb2
        have hdis : List.Disjoint batch2 batch :=
          pairwise_getElem? List.Disjoint (fun _ _ hd => hd.symm) x.batches h.disjoint m k
            batch2 batch hm hk hmk
        obtain ⟨s, hs, h1, h2⟩ := h.inBatch batch2 (List.getElem?_mem hm) i hi
        exact ⟨s, hkeep i s hs (fun hib => hdis hi hib), h1, h2⟩
      · intro i hi
        obtain ⟨s, hs, h1, h2⟩ := h.inUploads i hi
        refine ⟨s, hkeep i s hs ?_, h1, h2⟩
        intro hib
        exact absurd ((hin i hib s hs).1.symm.trans h1) (by decide)
theorem settleUpload_fields (player : Option Player) (s : Sound)
    (hs : s.hasError = false) :
    (settleUpload player s).isUploaded = s.isUploaded ∧
    (settleUpload player s).player = s.player ∧
    (settleUpload player s).isLoading = false ∧
    ((settleUpload player s).uploadedPlayer ≠ s.uploadedPlayer →
      (settleUpload player s).hasError = false) := by
  cases player with
  | none => simp [settleUpload]
  | some p =>
      cases hl : p.loaded <;> simp [settleUpload, hl, hs]

theorem loadInvariant_uploadSettled (toLowerCase : String → String) (x : Session) (k : Nat)
    (player : Option Player) (h : LoadInvariant x) :
    LoadInvariant (sessionStep toLowerCase x (LoadEvent.uploadSettled k player)) := by
  simp only [sessionStep]
  cases hk : x.uploads[k]? with
  | none => exact h
  | some i =>
      have hi : i ∈ x.uploads := List.getElem?_mem hk
      have hin : ∀ s, x.state.soundsData[i]? = some s →
          s.isUploaded = true ∧ s.isLoading = true ∧ s.hasError = false ∧ s.player = none ∧
            s.uploadedPlayer = none := by
        intro s hs
        obtain ⟨s2, hs2, h1, h2⟩ := h.inUploads i hi
        rw [hs] at hs2
        have hss : s = s2 := Option.some.inj hs2
        subst hss
        refine ⟨h1, h2, h.upload i s hs h1 h2, (h.provenance i s hs).1 h1, ?_⟩
        by_contra hp
        have := h.handle i s hs (Or.inr hp)
        exact absurd (this.symm.trans h2) (by decide)
      have hafter : ∀ (j : Nat) (s2 : Sound),
          (x.state.soundsData.modify (settleUpload player) i)[j]? = some s2 →
          ∃ s1, x.state.soundsData[j]? = some s1 ∧
            ((j ≠ i ∧ s2 = s1) ∨ (j = i ∧ s2 = settleUpload player s1)) := by
        intro j s2 hs2
        rw [List.getElem?_modify] at hs2
        cases hs : x.state.soundsData[j]? with
        | none =>
            rw [hs] at hs2
            simp at hs2
        | some s1 =>
            rw [hs] at hs2
            refine ⟨s1, rfl, ?_⟩
            by_cases hj : i = j
            · simp only [Option.map_eq_map, Option.map_some', hj, if_true] at hs2
              exact Or.inr ⟨hj.symm, (Option.some.inj hs2).symm⟩
            · simp only [Option.map_eq_map, Option.map_some', hj, if_false] at hs2
              exact Or.inl ⟨fun hji => hj hji.symm, (Option.some.inj hs2).symm⟩
      have hkeep : ∀ (j : Nat) (s : Sound), x.state.soundsData[j]? = some s → j ≠ i →
          (x.state.soundsData.modify (settleUpload player) i)[j]? = some s := by
        intro j s hs hj
        have hij : ¬ i = j := fun hij => hj hij.symm
        rw [List.getElem?_modify, hs]
        simp [hij]
      refine ⟨?_, ?_, ?_, ?_, ?_, h.disjoint, ?_, List.Nodup.eraseIdx k h.nodup⟩
      · intro j s2 hs2
        obtain ⟨s1, hs1, hrel⟩ := hafter j s2 hs2
        rcases hrel with ⟨_, hrel⟩ | ⟨hj, hrel⟩
        · rw [hrel]
          exact h.provenance j s1 hs1
        · subst hj
          obtain ⟨g1, _, g3, g4, _⟩ := hin s1 hs1
          obtain ⟨f1, f2, _, _⟩ := settleUpload_fields player s1 g3
          rw [hrel, f1, f2]
          exact ⟨fun _ => g4, fun hu => absurd (g1.symm.trans hu) (by decide)⟩
      · intro j s2 hs2
        obtain ⟨s1, hs1, hrel⟩ := hafter j s2 hs2
        rcases hrel with ⟨_, hrel⟩ | ⟨hj, hrel⟩
        · rw [hrel]
          exact h.handle j s1 hs1
        · subst hj
          obtain ⟨_, _, g3, _, _⟩ := hin s1 hs1
          obtain ⟨_, _, f3, _⟩ := settleUpload_fields player s1 g3
          rw [hrel]
          exact fun _ => f3
      · intro j s2 hs2
        obtain ⟨s1, hs1, hrel⟩ := hafter j s2 hs2
        rcases hrel with ⟨_, hrel⟩ | ⟨hj, hrel⟩
        · rw [hrel]
          exact h.uploadHandle j s1 hs1
        · subst hj
          obtain ⟨_, _, g3, _, g5⟩ := hin s1 hs1
          obtain ⟨_, _, _, f4⟩ := settleUpload_fields player s1 g3
          rw [hrel]
          intro hp
          exact f4 (by rw [g5]; exact hp)
      · intro j s2 hs2
        obtain ⟨s1, hs1, hrel⟩ := hafter j s2 hs2
        rcases hrel with ⟨_, hrel⟩ | ⟨hj, hrel⟩
        · rw [hrel]
          exact h.upload j s1 hs1
        · subst hj
          obtain ⟨_, _, g3, _, _⟩ := hin s1 hs1
          obtain ⟨_, _, f3, _⟩ := settleUpload_fields player s1 g3
          rw [hrel]
          intro _ hl
          exact absurd (f3.symm.trans hl) (by decide)
      · intro batch hb j hj
        obtain ⟨s, hs, h1, h2⟩ := h.inBatch batch hb j hj
        refine ⟨s, hkeep j s hs ?_, h1, h2⟩
        intro hji
        subst hji
        exact absurd (h1.symm.trans (hin s hs).1) (by decide)
      · intro j hj
        obtain ⟨m, hmk, hm⟩ := List.mem_eraseIdx_iff_getElem?.mp hj
        obtain ⟨s, hs, h1, h2⟩ := h.inUploads j (List.getElem?_mem hm)
        refine ⟨s, hkeep j s hs ?_, h1, h2⟩
        intro hji
        subst hji
        obtain ⟨hm1, hm2⟩ := List.getElem?_eq_some_iff.mp hm
        obtain ⟨hk1, hk2⟩ := List.getElem?_eq_some_iff.mp hk
        exact hmk ((List.Nodup.getElem_inj_iff h.nodup).mp (hm2.trans hk2.symm))

theorem loadInvariant_step (toLowerCase : String → String) (x : Session) (e : LoadEvent)
    (h : LoadInvariant x) : LoadInvariant (sessionStep toLowerCase x e) := by
  cases e with
  | user e => exact loadInvariant_user toLowerCase x e h
  | loadAndRenderSounds => exact loadInvariant_begin toLowerCase x h
  | batchSettled k result => exact loadInvariant_batchSettled toLowerCase x k result h
  | uploadSettled k player => exact loadInvariant_uploadSettled toLowerCase x k player h

theorem loadInvariant_run (toLowerCase : String → String) (events : List LoadEvent)
    (x : Session) (h : LoadInvariant x) : LoadInvariant (sessionRun toLowerCase x events) := by
  induction events generalizing x with
  | nil => exact h
  | cons e es ih => exact ih (sessionStep toLowerCase x e) (loadInvariant_step toLowerCase x e h)

theorem settledSound_isLoading (result : BatchResult) (batch : List Nat) (j : Nat) (s : Sound) :
    (settledSound result batch j s).isLoading = false :=
  (settledSound_fields result batch j s).2.2.1

theorem settleUpload_isLoading (player : Option Player) (s : Sound) :
    (settleUpload player s).isLoading = false := by
  cases player with
  | none => rfl
  | some p =>
      cases hl : p.loaded <;> simp [settleUpload, hl]

theorem noError_step (toLowerCase : String → String) (x : Session) (e : LoadEvent)
    (hok : noRetry x e = true) (h : NoErrorWhileLoading x.state.soundsData) :
    NoErrorWhileLoading (sessionStep toLowerCase x e).state.soundsData := by
  cases e with
  | user e =>
      intro i s2 hs2
      rcases (step_sounds_after toLowerCase x.state e).2.1 i s2 hs2 with ⟨s1, hs1, hf⟩ | ⟨_, hf⟩
      · obtain ⟨_, _, _, e4, e5⟩ := loadFields_eq s1 s2 hf
        have := h i s1 hs1
        rw [e4, e5] at this
        exact this
      · exact fun _ => (loadFields_fresh s2 hf).2.2.2.2
  | loadAndRenderSounds =>
      intro i s2 hs2
      obtain ⟨s1, hs1, hrel⟩ := loadBegin_after _ i s2 hs2
      rcases hrel with hrel | ⟨hrel, hu, hp⟩
      · rw [hrel]
        exact h i s1 hs1
      · rw [hrel]
        intro _
        show s1.hasError = false
        have hall := List.all_eq_true.mp hok s1 (List.getElem?_mem hs1)
        by_cases hl : s1.isLoading = true
        · exact h i s1 hs1 hl
        · simpa [isDefaultCandidate, hu, hp, hl] using hall
  | batchSettled k result =>
      simp only [sessionStep]
      cases hk : x.batches[k]? with
      | none => exact h
      | some batch =>
          intro i s2 hs2
          have hs2' : (loadSettle result batch x.state.soundsData)[i]? = some s2 := hs2
          rw [getElem?_loadSettle] at hs2'
          cases hs : x.state.soundsData[i]? with
          | none =>
              rw [hs] at hs2'
              simp at hs2'
          | some s1 =>
              rw [hs, Option.map_some'] at hs2'
              by_cases hj : i ∈ batch
              · rw [if_pos hj] at hs2'
                rw [← Option.some.inj hs2']
                intro hl
                exact absurd ((settledSound_isLoading result batch i s1).symm.trans hl)
                  (by decide)
              · rw [if_neg hj] at hs2'
                rw [← Option.some.inj hs2']
                exact h i s1 hs
  | uploadSettled k player =>
      simp only [sessionStep]
      cases hk : x.uploads[k]? with
      | none => exact h
      | some j =>
          intro i s2 hs2
          have hs2' : (x.state.soundsData.modify (settleUpload player) j)[i]? = some s2 := hs2
          rw [List.getElem?_modify] at hs2'
          cases hs : x.state.soundsData[i]? with
          | none =>
              rw [hs] at hs2'
              simp at hs2'
          | some s1 =>
              rw [hs] at hs2'
              by_cases hj : j = i
              · simp only [Option.map_eq_map, Option.map_some', hj, if_true] at hs2'
                rw [← Option.some.inj hs2']
                intro hl
                exact absurd ((settleUpload_isLoading player s1).symm.trans hl) (by decide)
              · simp only [Option.map_eq_map, Option.map_some', hj, if_false] at hs2'
                rw [← Option.some.inj hs2']
                exact h i s1 hs

theorem noError_run (toLowerCase : String → String) (events : List LoadEvent) (x : Session)
    (hok : sessionAllAlong toLowerCase noRetry x events = true)
    (h : NoErrorWhileLoading x.state.soundsData) :
    NoErrorWhileLoading (sessionRun toLowerCase x events).state.soundsData := by
  induction events generalizing x with
  | nil => exact h
  | cons e es ih =>
      unfold sessionAllAlong at hok
      rw [Bool.and_eq_true] at hok
      exact ih (sessionStep toLowerCase x e) hok.2 (noError_step toLowerCase x e hok.1 h)

theorem noErrorWithPlayer_step (toLowerCase : String → String) (x : Session) (e : LoadEvent)
    (hinv : LoadInvariant x) (hok : noThrowWhileSettling x e = true)
    (h : NoErrorWithPlayer x.state.soundsData) :
    NoErrorWithPlayer (sessionStep toLowerCase x e).state.soundsData := by
  cases e with
  | user e =>
      intro i s2 hs2
      rcases (step_sounds_after toLowerCase x.state e).2.1 i s2 hs2 with ⟨s1, hs1, hf⟩ | ⟨_, hf⟩
      · obtain ⟨_, e2, _, _, e5⟩ := loadFields_eq s1 s2 hf
        have := h i s1 hs1
        rw [e2, e5] at this
        exact this
      · exact fun _ => (loadFields_fresh s2 hf).2.2.2.2
  | loadAndRenderSounds =>
      intro i s2 hs2
      obtain ⟨s1, hs1, hrel⟩ := loadBegin_after _ i s2 hs2
      rcases hrel with hrel | ⟨hrel, _, _⟩
      · rw [hrel]
        exact h i s1 hs1
      · rw [hrel]
        exact h i s1 hs1
  | batchSettled k result =>
      simp only [sessionStep]
      cases hk : x.batches[k]? with
      | none => exact h
      | some batch =>
          have hno : ∀ player settled, result ≠ BatchResult.threwWhileSettling player settled := by
            intro player settled hr
            rw [hr] at hok
            exact absurd hok (by simp [noThrowWhileSettling])
          intro i s2 hs2
          have hs2' : (loadSettle result batch x.state.soundsData)[i]? = some s2 := hs2
          rw [getElem?_loadSettle] at hs2'
          cases hs : x.state.soundsData[i]? with
          | none =>
              rw [hs] at hs2'
              simp at hs2'
          | some s1 =>
              rw [hs, Option.map_some'] at hs2'
              by_cases hj : i ∈ batch
              · rw [if_pos hj] at hs2'
                rw [← Option.some.inj hs2']
                have hp : s1.player = none := by
                  obtain ⟨s, hs', _, hl⟩ := hinv.inBatch batch (List.getElem?_mem hk) i hj
                  rw [hs] at hs'
                  have hss : s1 = s := Option.some.inj hs'
                  subst hss
                  by_contra hp
                  exact absurd ((hinv.handle i s1 hs (Or.inl hp)).symm.trans hl) (by decide)
                exact (settledSound_fields result batch i s1).2.2.2 hp hno
              · rw [if_neg hj] at hs2'
                rw [← Option.some.inj hs2']
                exact h i s1 hs
  | uploadSettled k player =>
      simp only [sessionStep]
      cases hk : x.uploads[k]? with
      | none => exact h
      | some j =>
          intro i s2 hs2
          have hs2' : (x.state.soundsData.modify (settleUpload player) j)[i]? = some s2 := hs2
          rw [List.getElem?_modify] at hs2'
          cases hs : x.state.soundsData[i]? with
          | none =>
              rw [hs] at hs2'
              simp at hs2'
          | some s1 =>
              rw [hs] at hs2'
              by_cases hj : j = i
              · simp only [Option.map_eq_map, Option.map_some', hj, if_true] at hs2'
                rw [← Option.some.inj hs2']
                subst hj
                obtain ⟨s, hs', hu, hl⟩ := hinv.inUploads j (List.getElem?_mem hk)
                rw [hs] at hs'
                have hss : s1 = s := Option.some.inj hs'
                subst hss
                have hp : s1.player = none := (hinv.provenance j s1 hs).1 hu
                obtain ⟨_, f2, _, _⟩ := settleUpload_fields player s1 (hinv.upload j s1 hs hu hl)
                intro hne
                rw [f2] at hne
                exact absurd hp hne
              · simp only [Option.map_eq_map, Option.map_some', hj, if_false] at hs2'
                rw [← Option.some.inj hs2']
                exact h i s1 hs

theorem noErrorWithPlayer_run (toLowerCase : String → String) (events : List LoadEvent)
    (x : Session) (hinv : LoadInvariant x)
    (hok : sessionAllAlong toLowerCase noThrowWhileSettling x events = true)
    (h : NoErrorWithPlayer x.state.soundsData) :
    NoErrorWithPlayer (sessionRun toLowerCase x events).state.soundsData := by
  induction events generalizing x with
  | nil => exact h
  | cons e es ih =>
      unfold sessionAllAlong at hok
      rw [Bool.and_eq_true] at hok
      exact ih (sessionStep toLowerCase x e) (loadInvariant_step toLowerCase x e hinv) hok.2
        (noErrorWithPlayer_step toLowerCase x e hinv hok.1 h)

/-! ## C17: load states stay consistent -/

/-- C17, as stated, fails in two ways.  After a batch load that threw, a second
call of `loadAndRenderSounds` selects the failed sound again and marks it
loading while its error flag is still set.  And when the `try` block throws
after the first sound of the batch was settled with its loaded player, that
sound holds a player while its error flag is set. -/
theorem loading_with_error_counterexample :
    (sessionRun asciiLower (startSession (fun _ => "s0") ["boo_sound.ogg"])
        retryRun).state.soundsData.map
      (fun s => (s.isLoading, s.hasError, s.player, s.uploadedPlayer))
      = [(true, true, none, none)] ∧
    (sessionRun asciiLower
        (startSession (fun i => "s" ++ toString i) ["--Air-Horn.ogg", "boo_sound.ogg"])
        partlySettledRun).state.soundsData.map
      (fun s => (s.isLoading, s.hasError, s.player, s.uploadedPlayer))
      = [(false, true, some { loaded := true, started := false }, none),
         (false, true, none, none)] := by
  decide

/-- C17, amended: in every session reachable from startup by user events
(uploads among them), calls of `loadAndRenderSounds`, ends of batch loads with
any engine outcome and ends of upload loads, no sound holds a player handle
(`player` or `uploadedPlayer`) while `isLoading` is true, no sound holds an
`uploadedPlayer` while `hasError` is true, and no uploaded sound has
`isLoading` and `hasError` both true.  If no call of `loadAndRenderSounds`
finds a failed sound among its candidates (as when it is called once), no
sound at all has `isLoading` and `hasError` both true.  If no batch load throws
after `Tone.loaded()` resolved, no sound holds a `player` while `hasError` is
true. -/
theorem load_states_consistent (toLowerCase : String → String) (genId : Nat → String)
    (manifest : List String) (events : List LoadEvent) :
    (∀ sound ∈ (sessionRun toLowerCase (startSession genId manifest) events).state.soundsData,
      (sound.player ≠ none ∨ sound.uploadedPlayer ≠ none) → sound.isLoading = false) ∧
    (∀ sound ∈ (sessionRun toLowerCase (startSession genId manifest) events).state.soundsData,
      sound.uploadedPlayer ≠ none → sound.hasError = false) ∧
    (∀ sound ∈ (sessionRun toLowerCase (startSession genId manifest) events).state.soundsData,
      sound.isUploaded = true → ¬ (sound.isLoading = true ∧ sound.hasError = true)) ∧
    (sessionAllAlong toLowerCase noRetry (startSession genId manifest) events = true →
      ∀ sound ∈ (sessionRun toLowerCase (startSession genId manifest) events).state.soundsData,
        ¬ (sound.isLoading = true ∧ sound.hasError = true)) ∧
    (sessionAllAlong toLowerCase noThrowWhileSettling (startSession genId manifest) events
        = true →
      ∀ sound ∈ (sessionRun toLowerCase (startSession genId manifest) events).state.soundsData,
        sound.player ≠ none → sound.hasError = false) := by
  have hinv := loadInvariant_run toLowerCase events (startSession genId manifest)
    (loadInvariant_start genId manifest)
  refine ⟨?_, ?_, ?_, ?_, ?_⟩
  · intro sound hs
    obtain ⟨i, hi⟩ := List.mem_iff_getElem?.mp hs
    exact hinv.handle i sound hi
  · intro sound hs
    obtain ⟨i, hi⟩ := List.mem_iff_getElem?.mp hs
    exact hinv.uploadHandle i sound hi
  · intro sound hs hu hboth
    obtain ⟨i, hi⟩ := List.mem_iff_getElem?.mp hs
    have := hinv.upload i sound hi hu hboth.1
    exact absurd (this.symm.trans hboth.2) (by decide)
  · intro hok sound hs hboth
    obtain ⟨i, hi⟩ := List.mem_iff_getElem?.mp hs
    have hstart : NoErrorWhileLoading (startSession genId manifest).state.soundsData := by
      intro j s hj _
      exact ((initializeFrom_spec genId manifest 0).2.2.2 s (List.getElem?_mem hj)).2.2.1
    have := noError_run toLowerCase events (startSession genId manifest) hok hstart i sound hi
      hboth.1
    exact absurd (this.symm.trans hboth.2) (by decide)
  · intro hok sound hs
    obtain ⟨i, hi⟩ := List.mem_iff_getElem?.mp hs
    have hstart : NoErrorWithPlayer (startSession genId manifest).state.soundsData := by
      intro j s hj _
      exact ((initializeFrom_spec genId manifest 0).2.2.2 s (List.getElem?_mem hj)).2.2.1
    exact noErrorWithPlayer_run toLowerCase events (startSession genId manifest)
      (loadInvariant_start genId manifest) hok hstart i sound hi

/-- Witness of the amended C17 on `loadRun`: one batch in which the engine
loads the first sound only, and an upload that loads. -/
theorem load_states_consistent_witness :
    sessionAllAlong asciiLower noRetry
      (startSession (fun i => "s" ++ toString i) ["--Air-Horn.ogg", "boo_sound.ogg"]) loadRun
      = true ∧
    sessionAllAlong asciiLower noThrowWhileSettling
      (startSession (fun i => "s" ++ toString i) ["--Air-Horn.ogg", "boo_sound.ogg"]) loadRun
      = true ∧
    (sessionRun asciiLower
        (startSession (fun i => "s" ++ toString i) ["--Air-Horn.ogg", "boo_sound.ogg"])
        loadRun).state.soundsData.map
      (fun s => (s.isLoading, s.hasError, s.player.isSome, s.uploadedPlayer.isSome))
      = [(false, false, true, false), (false, true, false, false), (false, false, false, true)] ∧
    (∀ sound ∈ (sessionRun asciiLower
        (startSession (fun i => "s" ++ toString i) ["--Air-Horn.ogg", "boo_sound.ogg"])
        loadRun).state.soundsData,
      ¬ (sound.isLoading = true ∧ sound.hasError = true)) ∧
    (∀ sound ∈ (sessionRun asciiLower
        (startSession (fun i => "s" ++ toString i) ["--Air-Horn.ogg", "boo_sound.ogg"])
        partlySettledRun).state.soundsData,
      (sound.player ≠ none ∨ sound.uploadedPlayer ≠ none) → sound.isLoading = false) :=
  ⟨by decide, by decide, by decide,
    (load_states_consistent asciiLower (fun i => "s" ++ toString i)
      ["--Air-Horn.ogg", "boo_sound.ogg"] loadRun).2.2.2.1 (by decide),
    (load_states_consistent asciiLower (fun i => "s" ++ toString i)
      ["--Air-Horn.ogg", "boo_sound.ogg"] partlySettledRun).1⟩

/-! ## C18: the changes of load state -/

theorem loadState_of_loadFields (s1 s2 : Sound) (h : loadFields s1 = loadFields s2) :
    loadState s1 = loadState s2 := by
  obtain ⟨_, e2, e3, e4, e5⟩ := loadFields_eq s1 s2 h
  unfold loadState
  rw [e2, e3, e4, e5]

theorem loadState_loading (s : Sound) (h : s.isLoading = true) :
    loadState s = LoadState.loading := by
  simp [loadState, h]

theorem step_length (toLowerCase : String → String) (x : Session) (e : LoadEvent)
    (he : ∀ u, e ≠ LoadEvent.user u) :
    (sessionStep toLowerCase x e).state.soundsData.length = x.state.soundsData.length := by
  cases e with
  | user u => exact absurd rfl (he u)
  | loadAndRenderSounds =>
      show (loadBegin (defaultSoundsToLoad x.state.soundsData) x.state.soundsData).1.length = _
      unfold loadBegin
      simp only []
      split
      · rw [length_forEachAt, length_forEachAt]
      · rw [length_forEachAt]
  | batchSettled k result =>
      simp only [sessionStep]
      cases hk : x.batches[k]? with
      | none => rfl
      | some batch => exact length_loadSettle result batch x.state.soundsData
  | uploadSettled k player =>
      simp only [sessionStep]
      cases hk : x.uploads[k]? with
      | none => rfl
      | some j => exact List.length_modify _ _ _

theorem step_load_change (toLowerCase : String → String) (x : Session) (hinv : LoadInvariant x)
    (e : LoadEvent) (i : Nat) (s : Sound) (hs : x.state.soundsData[i]? = some s) :
    ∃ s2, (sessionStep toLowerCase x e).state.soundsData[i]? = some s2 ∧
      (loadFields s2 = loadFields s ∨
        loadTransition (loadState s) (loadState s2) = true ∨
        (loadState s = LoadState.failed ∧ loadState s2 = LoadState.loading ∧
          e = LoadEvent.loadAndRenderSounds ∧ s.isUploaded = false ∧ s.player = none ∧
          s2 = markLoading s ∧ noRetry x e = false)) := by
  cases e with
  | user u =>
      obtain ⟨s2, hs2, hf⟩ := (step_sounds_after toLowerCase x.state u).2.2 i s hs
      exact ⟨s2, hs2, Or.inl hf⟩
  | loadAndRenderSounds =>
      have hget : (sessionStep toLowerCase x LoadEvent.loadAndRenderSounds).state.soundsData[i]?
          = some (if i ∈ defaultSoundsToLoad x.state.soundsData ∧
              (loadBegin (defaultSoundsToLoad x.state.soundsData) x.state.soundsData).2 ≠ [] then
            markLoading s else s) := by
        show (loadBegin (defaultSoundsToLoad x.state.soundsData) x.state.soundsData).1[i]? = _
        rw [getElem?_loadBegin, hs]
        rfl
      by_cases hc : i ∈ defaultSoundsToLoad x.state.soundsData ∧
          (loadBegin (defaultSoundsToLoad x.state.soundsData) x.state.soundsData).2 ≠ []
      · rw [if_pos hc] at hget
        refine ⟨markLoading s, hget, Or.inr ?_⟩
        obtain ⟨s1, hs1, h1, h2, h3⟩ := (mem_defaultSoundsToLoad x.state.soundsData i).mp hc.1
        rw [hs] at hs1
        have hss : s = s1 := Option.some.inj hs1
        subst hss
        have h4 : s.uploadedPlayer = none := (hinv.provenance i s hs).2 h1
        cases h5 : s.hasError
        · left
          simp [loadState, markLoading, h2, h3, h4, h5, loadTransition]
        · right
          refine ⟨by simp [loadState, h3, h5], by simp [loadState, markLoading], rfl, h1, h2, rfl,
            ?_⟩
          cases hno : noRetry x LoadEvent.loadAndRenderSounds
          · rfl
          · have hall := List.all_eq_true.mp hno s (List.getElem?_mem hs)
            simp [isDefaultCandidate, h1, h2, h3, h5] at hall
      · rw [if_neg hc] at hget
        exact ⟨s, hget, Or.inl rfl⟩
  | batchSettled k result =>
      simp only [sessionStep]
      cases hk : x.batches[k]? with
      | none => exact ⟨s, hs, Or.inl rfl⟩
      | some batch =>
          show ∃ s2, (loadSettle result batch x.state.soundsData)[i]? = some s2 ∧ _
          rw [getElem?_loadSettle, hs]
          by_cases hj : i ∈ batch
          · refine ⟨settledSound result batch i s, by simp [hj], Or.inr (Or.inl ?_)⟩
            obtain ⟨s1, hs1, _, hl⟩ := hinv.inBatch batch (List.getElem?_mem hk) i hj
            rw [hs] at hs1
            have hss : s = s1 := Option.some.inj hs1
            subst hss
            rw [loadState_loading s hl]
            rcases settledSound_state result batch i s with h | h <;> rw [h] <;> rfl
          · exact ⟨s, by simp [hj], Or.inl rfl⟩
  | uploadSettled k player =>
      simp only [sessionStep]
      cases hk : x.uploads[k]? with
      | none => exact ⟨s, hs, Or.inl rfl⟩
      | some j =>
          show ∃ s2, (x.state.soundsData.modify (settleUpload player) j)[i]? = some s2 ∧ _
          rw [List.getElem?_modify, hs]
          by_cases hj : j = i
          · refine ⟨settleUpload player s, by simp [hj], Or.inr (Or.inl ?_)⟩
            subst hj
            obtain ⟨s1, hs1, hu, hl⟩ := hinv.inUploads j (List.getElem?_mem hk)
            rw [hs] at hs1
            have hss : s = s1 := Option.some.inj hs1
            subst hss
            rw [loadState_loading s hl]
            rcases settleUpload_state player s (hinv.upload j s hs hu hl) with h | h <;>
              rw [h] <;> rfl
          · exact ⟨s, by simp [hj], Or.inl rfl⟩

theorem step_appended (toLowerCase : String → String) (x : Session) (e : LoadEvent) (i : Nat)
    (s2 : Sound) (hs2 : (sessionStep toLowerCase x e).state.soundsData[i]? = some s2)
    (hi : x.state.soundsData.length ≤ i) :
    (∃ u, e = LoadEvent.user u) ∧ loadFields s2 = (true, none, none, true, false) := by
  by_cases he : ∃ u, e = LoadEvent.user u
  · refine ⟨he, ?_⟩
    obtain ⟨u, hu⟩ := he
    subst hu
    rcases (step_sounds_after toLowerCase x.state u).2.1 i s2 hs2 with ⟨s1, hs1, _⟩ | ⟨_, hf⟩
    · have := (List.getElem?_eq_some_iff.mp hs1).1
      omega
    · exact hf
  · have hlen := step_length toLowerCase x e (fun u hu => he ⟨u, hu⟩)
    have := (List.getElem?_eq_some_iff.mp hs2).1
    omega

/-- C18, as stated, fails: the default selection of `loadAndRenderSounds` does
not test `hasError`.  On a catalog with one failed provisioned sound the sound
is selected and marked loading again, its error flag still set. -/
theorem retry_counterexample :
    failedSound.hasError = true ∧ failedSound.isLoading = false ∧
    defaultSoundsToLoad [failedSound] = [0] ∧
    (loadBegin (defaultSoundsToLoad [failedSound]) [failedSound]).1
      = [markLoading failedSound] ∧
    ((loadBegin (defaultSoundsToLoad [failedSound]) [failedSound]).1.map
      (fun s => (s.isLoading, s.hasError))) = [(true, true)] ∧
    (loadState failedSound, loadState (markLoading failedSound))
      = (LoadState.failed, LoadState.loading) := by
  decide

/-- C18, amended.  In every session reachable from startup and for every
event (a user event, a call of `loadAndRenderSounds`, the end of a batch load
with any outcome, the end of an upload load), each sound of the catalog stays
at its position and either keeps its load fields, or makes one of the changes
`NotLoaded` to `Loading`, `Loading` to `Ready`, `Loading` to `Failed`, or goes
from `Failed` to `Loading`, which only a call of `loadAndRenderSounds` that
finds the failed sound among its candidates does, to a sound that is not
uploaded and holds no player, by setting `isLoading`.  So no sound goes from
`Loading` back to `NotLoaded` and a ready sound keeps its load fields.  A sound
the event appends is a fresh upload in state `Loading`.  For every catalog, the
default selection of `loadAndRenderSounds` is exactly the sounds that are not
uploaded, hold no player and are not loading: a sound that is loading, holds a
player or is uploaded is not selected and is left as it is, every sound is left
as it is or has only `isLoading` set to `true`, and a failed provisioned sound
is selected and, when it has a file path, is marked loading again with its
error flag still set. -/
theorem load_state_changes (toLowerCase : String → String) (genId : Nat → String)
    (manifest : List String) (events : List LoadEvent) (e : LoadEvent)
    (soundsData : List Sound) :
    (∀ (i : Nat) (s : Sound),
      (sessionRun toLowerCase (startSession genId manifest) events).state.soundsData[i]?
        = some s →
      ∃ s2, (sessionStep toLowerCase
          (sessionRun toLowerCase (startSession genId manifest) events) e).state.soundsData[i]?
          = some s2 ∧
        (loadFields s2 = loadFields s ∨
          loadTransition (loadState s) (loadState s2) = true ∨
          (loadState s = LoadState.failed ∧ loadState s2 = LoadState.loading ∧
            e = LoadEvent.loadAndRenderSounds ∧ s.isUploaded = false ∧ s.player = none ∧
            s2 = markLoading s ∧
            noRetry (sessionRun toLowerCase (startSession genId manifest) events) e = false))) ∧
    (∀ (i : Nat) (s s2 : Sound),
      (sessionRun toLowerCase (startSession genId manifest) events).state.soundsData[i]?
        = some s →
      (sessionStep toLowerCase
          (sessionRun toLowerCase (startSession genId manifest) events) e).state.soundsData[i]?
        = some s2 →
      (loadState s = LoadState.loading → loadState s2 ≠ LoadState.notLoaded) ∧
      (loadState s = LoadState.ready → loadFields s2 = loadFields s)) ∧
    (∀ (i : Nat) (s2 : Sound),
      (sessionStep toLowerCase
          (sessionRun toLowerCase (startSession genId manifest) events) e).state.soundsData[i]?
        = some s2 →
      (sessionRun toLowerCase (startSession genId manifest) events).state.soundsData.length ≤ i →
      (∃ u, e = LoadEvent.user u) ∧ loadFields s2 = (true, none, none, true, false) ∧
        loadState s2 = LoadState.loading) ∧
    (∀ i, i ∈ defaultSoundsToLoad soundsData ↔
      ∃ s, soundsData[i]? = some s ∧ s.isUploaded = false ∧ s.player = none ∧
        s.isLoading = false) ∧
    (∀ (i : Nat) (s : Sound), soundsData[i]? = some s →
      (s.isLoading = true ∨ s.player ≠ none ∨ s.isUploaded = true) →
      i ∉ defaultSoundsToLoad soundsData ∧
        (loadBegin (defaultSoundsToLoad soundsData) soundsData).1[i]? = some s) ∧
    (∀ (i : Nat) (s : Sound), soundsData[i]? = some s →
      (loadBegin (defaultSoundsToLoad soundsData) soundsData).1[i]? = some s ∨
      (loadBegin (defaultSoundsToLoad soundsData) soundsData).1[i]?
        = some (markLoading s)) ∧
    (∀ (i : Nat) (s : Sound), soundsData[i]? = some s →
      s.hasError = true → s.isUploaded = false → s.player = none → s.isLoading = false →
      i ∈ defaultSoundsToLoad soundsData ∧
        (s.filePath ≠ "" →
          (loadBegin (defaultSoundsToLoad soundsData) soundsData).1[i]?
            = some (markLoading s))) := by
  have hinv := loadInvariant_run toLowerCase events (startSession genId manifest)
    (loadInvariant_start genId manifest)
  obtain ⟨g1, g2, g3, g4⟩ := defaultSoundsToLoad_spec soundsData
  refine ⟨?_, ?_, ?_, g1, g2, g3, g4⟩
  · intro i s hs
    exact step_load_change toLowerCase _ hinv e i s hs
  · intro i s s2 hs hs2
    obtain ⟨s3, hs3, hch⟩ := step_load_change toLowerCase _ hinv e i s hs
    rw [hs2] at hs3
    have hss : s2 = s3 := Option.some.inj hs3
    subst hss
    rcases hch with hch | hch | hch
    · have hst := loadState_of_loadFields s2 s hch
      refine ⟨?_, fun _ => hch⟩
      intro hl
      rw [hst, hl]
      decide
    · refine ⟨?_, ?_⟩
      · intro hl hn
        rw [hl, hn] at hch
        exact absurd hch (by decide)
      · intro hr
        rw [hr] at hch
        cases hst : loadState s2 <;> rw [hst] at hch <;> exact absurd hch (by decide)
    · refine ⟨?_, ?_⟩
      · intro hl
        rw [hch.1] at hl
        exact absurd hl (by decide)
      · intro hr
        rw [hch.1] at hr
        exact absurd hr (by decide)
  · intro i s2 hs2 hi
    obtain ⟨hu, hf⟩ := step_appended toLowerCase _ e i s2 hs2 hi
    refine ⟨hu, hf, ?_⟩
    exact loadState_loading s2 (loadFields_fresh s2 hf).2.2.2.1

/-- Witness of the amended C18.  In the run `loadRun` the three sounds end
`Ready`, `Failed`, `Ready`; after a call of `loadAndRenderSounds` both
provisioned sounds are `Loading`, and the end of that load, whether it throws
after one sound was settled or not, sends no sound back to `NotLoaded`; on a
catalog with a failed sound, a ready one and a loading one only the failed
sound is selected. -/
theorem load_state_changes_witness :
    (sessionRun asciiLower
        (startSession (fun i => "s" ++ toString i) ["--Air-Horn.ogg", "boo_sound.ogg"])
        loadRun).state.soundsData.map loadState
      = [LoadState.ready, LoadState.failed, LoadState.ready] ∧
    (sessionRun asciiLower
        (startSession (fun i => "s" ++ toString i) ["--Air-Horn.ogg", "boo_sound.ogg"])
        [LoadEvent.loadAndRenderSounds]).state.soundsData.map loadState
      = [LoadState.loading, LoadState.loading] ∧
    (sessionStep asciiLower
        (sessionRun asciiLower
          (startSession (fun i => "s" ++ toString i) ["--Air-Horn.ogg", "boo_sound.ogg"])
          [LoadEvent.loadAndRenderSounds])
        (LoadEvent.batchSettled 0
          (BatchResult.threwWhileSettling onlyFirstLoaded 1))).state.soundsData.map loadState
      = [LoadState.failed, LoadState.failed] ∧
    defaultSoundsToLoad [failedSound, readySound,
      { provisionedSound "s2" "zap.ogg" 2 with isLoading := true }] = [0] ∧
    (∀ (i : Nat) (s s2 : Sound),
      (sessionRun asciiLower
          (startSession (fun i => "s" ++ toString i) ["--Air-Horn.ogg", "boo_sound.ogg"])
          [LoadEvent.loadAndRenderSounds]).state.soundsData[i]? = some s →
      (sessionStep asciiLower
          (sessionRun asciiLower
            (startSession (fun i => "s" ++ toString i) ["--Air-Horn.ogg", "boo_sound.ogg"])
            [LoadEvent.loadAndRenderSounds])
          (LoadEvent.batchSettled 0
            (BatchResult.threwWhileSettling onlyFirstLoaded 1))).state.soundsData[i]?
        = some s2 →
      (loadState s = LoadState.loading → loadState s2 ≠ LoadState.notLoaded) ∧
      (loadState s = LoadState.ready → loadFields s2 = loadFields s)) :=
  ⟨by decide, by decide, by decide, by decide,
    (load_state_changes asciiLower (fun i => "s" ++ toString i)
      ["--Air-Horn.ogg", "boo_sound.ogg"] [LoadEvent.loadAndRenderSounds]
      (LoadEvent.batchSettled 0 (BatchResult.threwWhileSettling onlyFirstLoaded 1))
      [failedSound, readySound,
        { provisionedSound "s2" "zap.ogg" 2 with isLoading := true }]).2.1⟩

end Soundboard
